import Mathlib

/-!
# EHCI host controller driver (nuttx/arch/arm/src/sama5/sam_ehci.c)

A shallow embedding of the Queue Head (QH) / Queue Element Transfer Descriptor
(qTD) pool allocators, the list traversal functions, the discard functions, the
cache maintenance functions, the register polling functions (`ehci_wait_usbsts`,
`sam_reset`) and the root hub operations `sam_wait` and `sam_enumerate` of the
SAMA5 EHCI driver, followed by theorems about them.

Memory is modelled at word granularity: a `Mem` maps the byte address of a
naturally aligned 32-bit word to the value stored there.  Pointers are natural
numbers, `0` is `NULL`.  The driver is modelled as built for the SAMA5
(32-bit ARM, little endian, `CONFIG_ENDIAN_BIG` undefined, `DEBUGASSERT`
compiled out), where `sam_read32 (addr)` is `*addr` and a pointer occupies
four bytes.
-/

namespace SamEhci

/-! ## Memory -/

/-- Word-granular memory: byte address of an aligned 32-bit word to its value. -/
abbrev Mem := Nat → Nat

/-- Store of one 32-bit word (or one pointer) `*a = v`. -/
def Mem.write (m : Mem) (a v : Nat) : Mem :=
  fun x => if x = a then v else m x

/-- The call `memset(p, 0, n)` on word-aligned `p` and `n`: every word whose address lies in
`[p, p + n)` becomes zero. -/
def Mem.memset0 (m : Mem) (p n : Nat) : Mem :=
  fun x => if p ≤ x ∧ x < p + n then 0 else m x

/-! ## Structure layouts and constants -/

/-- Modelled from the spec: `struct ehci_qtd_s` is declared in include/nuttx/usb/ehci.h,
which is not among the sources.  It is the EHCI qTD: next-qTD pointer, alternate
pointer, token and five buffer pointers, eight 32-bit words.  Byte offset of `nqp`. -/
def QTD_NQP : Nat := 0

/-- Modelled from the spec: byte offset of `alt` (alternate next qTD pointer) in `struct ehci_qtd_s`. -/
def QTD_ALT : Nat := 4

/-- Modelled from the spec: byte offset of `token` in `struct ehci_qtd_s`. -/
def QTD_TOKEN : Nat := 8

/-- Modelled from the spec: byte offset of `bpl[i]` (buffer pointer list, `i < 5`) in
`struct ehci_qtd_s`. -/
def QTD_BPL (i : Nat) : Nat := 12 + 4 * i

/-- Modelled from the spec: `sizeof(struct ehci_qtd_s)`, eight words. -/
def SIZEOF_EHCI_QTD : Nat := 32

/-- Modelled from the spec: `struct ehci_qh_s` (include/nuttx/usb/ehci.h, not among the
sources) is the EHCI queue head: horizontal link pointer, endpoint characteristics,
endpoint capabilities, current qTD pointer and the transfer overlay (laid out like a
qTD).  Byte offset of `hlp`. -/
def QH_HLP : Nat := 0

/-- Modelled from the spec: byte offset of `epchar` in `struct ehci_qh_s`. -/
def QH_EPCHAR : Nat := 4

/-- Modelled from the spec: byte offset of `epcaps` in `struct ehci_qh_s`. -/
def QH_EPCAPS : Nat := 8

/-- Modelled from the spec: byte offset of `cqp` in `struct ehci_qh_s`. -/
def QH_CQP : Nat := 12

/-- Modelled from the spec: byte offset of `overlay` in `struct ehci_qh_s`; `overlay.nqp`
is its first word. -/
def QH_OVERLAY : Nat := 16

/-- Modelled from the spec: `sizeof(struct ehci_qh_s)`, twelve words. -/
def SIZEOF_EHCI_QH : Nat := 48

/-- Byte offset of `pad` in `struct sam_qh_s`: it follows `hw`. -/
def QH_PAD : Nat := SIZEOF_EHCI_QH

/-- The value `sizeof(struct sam_qh_s)`: `hw` followed by `uint32_t pad[16]`. -/
def SIZEOF_SAM_QH : Nat := SIZEOF_EHCI_QH + 4 * 16

/-- The value `sizeof(struct sam_qtd_s)`: only `hw`. -/
def SIZEOF_SAM_QTD : Nat := SIZEOF_EHCI_QTD

/-- The value `sizeof(struct sam_list_s)`: one pointer, `flink`. -/
def SIZEOF_SAM_LIST : Nat := 4

/-- Byte offset of `flink` in `struct sam_list_s`. -/
def LIST_FLINK : Nat := 0

/-- Modelled from the spec: `QH_HLP_T`, the terminate bit (bit 0) of the horizontal link
pointer (include/nuttx/usb/ehci.h is not among the sources). -/
def QH_HLP_T : Nat := 1

/-- Modelled from the spec: `QH_HLP_MASK`, the address bits 5-31 of the horizontal link
pointer. -/
def QH_HLP_MASK : Nat := 0xffffffe0

/-- Modelled from the spec: `QH_NQP_T`, the terminate bit (bit 0) of the overlay next-qTD
pointer. -/
def QH_NQP_T : Nat := 1

/-- Modelled from the spec: `QTD_NQP_T`, the terminate bit (bit 0) of the next-qTD pointer. -/
def QTD_NQP_T : Nat := 1

/-- Modelled from the spec: `QTD_NQP_NTEP_MASK`, the address bits 5-31 of the next-qTD
pointer. -/
def QTD_NQP_NTEP_MASK : Nat := 0xffffffe0

/-- The value `OK`. -/
def OK : Int := 0

/-! ## Driver state -/

/-- The part of `struct sam_ehci_s g_ehci` used by the allocators, together with the
memory the pools live in. -/
structure EhciState where
  /-- Memory holding the QH and qTD structures. -/
  mem : Mem
  /-- Field `g_ehci.qhfree`: list of free Queue Head (QH) structures. -/
  qhfree : Nat
  /-- Field `g_ehci.qtdfree`: list of free qTDs. -/
  qtdfree : Nat

/-! ## Allocators -/

/-- Allocate a Queue Head (QH) structure by removing it from the free list. -/
def sam_qh_alloc (s : EhciState) : Nat × EhciState :=
  let qh := s.qhfree
  if qh ≠ 0 then
    (qh, { s with qhfree := s.mem (qh + LIST_FLINK),
                  mem := s.mem.memset0 qh SIZEOF_SAM_QH })
  else
    (qh, s)

/-- Free a Queue Head (QH) structure by returning it to the free list. -/
def sam_qh_free (qh : Nat) (s : EhciState) : EhciState :=
  let entry := qh
  { s with mem := s.mem.write (entry + LIST_FLINK) s.qhfree, qhfree := entry }

/-- Allocate a qTD by removing it from the free list. -/
def sam_qtd_alloc (s : EhciState) : Nat × EhciState :=
  let qtd := s.qtdfree
  if qtd ≠ 0 then
    (qtd, { s with qtdfree := s.mem (qtd + LIST_FLINK),
                   mem := s.mem.memset0 qtd SIZEOF_SAM_LIST })
  else
    (qtd, s)

/-- Free a qTD by returning it to the free list. -/
def sam_qtd_free (qtd : Nat) (s : EhciState) : EhciState :=
  let entry := qtd
  { s with mem := s.mem.write (entry + LIST_FLINK) s.qtdfree, qtdfree := entry }

/-- Address of `g_ghpool[i]`, the QH pool being an array at address `base`. -/
def g_ghpool (base i : Nat) : Nat := base + i * SIZEOF_SAM_QH

/-- Address of `g_qtdpool[i]`, the qTD pool being an array at address `base`. -/
def g_qtdpool (base i : Nat) : Nat := base + i * SIZEOF_SAM_QTD

/-- The loop of `sam_ehci_initialize` that puts the `n` QH structures of the pool in the
free list: `for (i = 0; i < n; i++) sam_qh_free(&g_ghpool[i]);`. -/
def seed_qh (base n : Nat) (s : EhciState) : EhciState :=
  (List.range n).foldl (fun st i => sam_qh_free (g_ghpool base i) st) s

/-- The loop of `sam_ehci_initialize` that puts the `n` qTDs of the pool in the free list:
`for (i = 0; i < n; i++) sam_qtd_free(&g_qtdpool[i]);`. -/
def seed_qtd (base n : Nat) (s : EhciState) : EhciState :=
  (List.range n).foldl (fun st i => sam_qtd_free (g_qtdpool base i) st) s

/-- Perform `n` consecutive calls of an allocator, collecting the returned pointers in
call order. -/
def alloc_n (alloc : EhciState → Nat × EhciState) : Nat → EhciState → List Nat × EhciState
  | 0, s => ([], s)
  | n + 1, s =>
    let r := alloc s
    let rest := alloc_n alloc n r.2
    (r.1 :: rest.1, rest.2)

/-! ## Free lists -/

/-- The free list starting at `head` consists of exactly the nodes `l`, in list order:
every node is non-NULL, its `flink` word leads to the next one, and the last `flink`
is NULL. -/
def IsFreeList (mem : Mem) : Nat → List Nat → Prop
  | head, [] => head = 0
  | head, n :: rest => head = n ∧ n ≠ 0 ∧ IsFreeList mem (mem (n + LIST_FLINK)) rest

/-- One operation on a pool: an allocation, or the release of node `n`. -/
inductive PoolOp where
  | alloc : PoolOp
  | release (n : Nat) : PoolOp

/-- Driver state together with the nodes currently held by callers (allocated and not
yet released); `held` is bookkeeping of the caller, not driver state. -/
structure PoolRun where
  /-- The driver state. -/
  state : EhciState
  /-- Nodes handed out and not yet released. -/
  held : List Nat

/-- Perform one pool operation with the given allocator and release function. -/
def pool_step (alloc : EhciState → Nat × EhciState) (free : Nat → EhciState → EhciState)
    (r : PoolRun) : PoolOp → PoolRun
  | PoolOp.alloc =>
    let a := alloc r.state
    ⟨a.2, if a.1 = 0 then r.held else a.1 :: r.held⟩
  | PoolOp.release n => ⟨free n r.state, r.held.erase n⟩

/-- Perform a sequence of pool operations. -/
def pool_run (alloc : EhciState → Nat × EhciState) (free : Nat → EhciState → EhciState)
    (r : PoolRun) (ops : List PoolOp) : PoolRun :=
  ops.foldl (pool_step alloc free) r

/-- Every release in the sequence is applied to a node that is held at that moment. -/
def ReleasesHeld (alloc : EhciState → Nat × EhciState) (free : Nat → EhciState → EhciState) :
    PoolRun → List PoolOp → Prop
  | _, [] => True
  | r, PoolOp.alloc :: ops => ReleasesHeld alloc free (pool_step alloc free r PoolOp.alloc) ops
  | r, PoolOp.release n :: ops =>
    n ∈ r.held ∧ ReleasesHeld alloc free (pool_step alloc free r (PoolOp.release n)) ops

/-- The pool invariant: the free list starting at `head` has no node twice, no free node is
held, and the free nodes together with the held nodes are exactly the nodes of `pool`. -/
def PoolInv (mem : Mem) (head : Nat) (pool held : List Nat) : Prop :=
  ∃ l : List Nat, IsFreeList mem head l ∧ l.Nodup ∧ (∀ n ∈ l, n ∉ held) ∧ (l ++ held).Perm pool

/-! ## List traversal -/

/-- What a traversal callout hands back: its return value, the back pointer `*bp` as it
left it, and the state it left. -/
structure HandlerResult where
  /-- The returned `int`. -/
  ret : Int
  /-- Value of the traversal's `bp` variable after the call (the callout gets `&bp`). -/
  bp : Nat
  /-- Memory and driver state after the call. -/
  state : EhciState

/-- The types `foreach_qh_t` and `foreach_qtd_t`: a callout receives the node, the back
pointer, `arg`, and the current state. -/
abbrev foreach_t := Nat → Nat → Nat → EhciState → HandlerResult

/-- Ways a traversal can fail to return. -/
inductive Fault where
  /-- The callout pointer was NULL when the traversal called it. -/
  | null_call : Fault
  /-- The loop was still running when the step budget ran out. -/
  | out_of_fuel : Fault
  deriving DecidableEq

/-- Result of a traversal that returned: the return value, the final state, and the nodes
the callout was invoked on, in invocation order. -/
structure ForeachResult where
  /-- The returned `int`. -/
  ret : Int
  /-- Memory and driver state on return. -/
  state : EhciState
  /-- Nodes the callout was invoked on, oldest first. -/
  calls : List Nat

/-- The local `next` computed by `sam_qh_foreach` before it calls the handler. -/
def qh_next (virt : Nat → Nat) (mem : Mem) (qh : Nat) : Nat :=
  if mem (qh + QH_HLP) &&& QH_HLP_T ≠ 0 then 0
  else virt (mem (qh + QH_HLP) &&& QH_HLP_MASK)

/-- Given the first entry in a list of QH structures, call the handler for each QH in the
list.  `virt` is `sam_virtramaddr` (sam_memories.h, not among the sources); the first
argument bounds the number of loop iterations. -/
def sam_qh_foreach (virt : Nat → Nat) (handler : Option foreach_t) (arg : Nat) :
    Nat → Nat → Nat → EhciState → Except Fault ForeachResult
  | 0, qh, _, s => if qh = 0 then .ok ⟨OK, s, []⟩ else .error Fault.out_of_fuel
  | fuel + 1, qh, bp, s =>
    if qh = 0 then .ok ⟨OK, s, []⟩
    else
      let next := qh_next virt s.mem qh
      match handler with
      | none => .error Fault.null_call
      | some h =>
        let r := h qh bp arg s
        if r.ret ≠ 0 then .ok ⟨r.ret, r.state, [qh]⟩
        else
          match sam_qh_foreach virt handler arg fuel next r.bp r.state with
          | .ok res => .ok ⟨res.ret, res.state, qh :: res.calls⟩
          | .error e => .error e

/-- The local `next` computed by the loop of `sam_qtd_foreach` before it calls the
handler. -/
def qtd_next (virt : Nat → Nat) (mem : Mem) (qtd : Nat) : Nat :=
  if mem (qtd + QTD_NQP) &&& QTD_NQP_T ≠ 0 then 0
  else virt (mem (qtd + QTD_NQP) &&& QTD_NQP_NTEP_MASK)

/-- The `while (qtd)` loop of `sam_qtd_foreach`. -/
def sam_qtd_foreach_loop (virt : Nat → Nat) (handler : Option foreach_t) (arg : Nat) :
    Nat → Nat → Nat → EhciState → Except Fault ForeachResult
  | 0, qtd, _, s => if qtd = 0 then .ok ⟨OK, s, []⟩ else .error Fault.out_of_fuel
  | fuel + 1, qtd, bp, s =>
    if qtd = 0 then .ok ⟨OK, s, []⟩
    else
      let next := qtd_next virt s.mem qtd
      match handler with
      | none => .error Fault.null_call
      | some h =>
        let r := h qtd bp arg s
        if r.ret ≠ 0 then .ok ⟨r.ret, r.state, [qtd]⟩
        else
          match sam_qtd_foreach_loop virt handler arg fuel next r.bp r.state with
          | .ok res => .ok ⟨res.ret, res.state, qtd :: res.calls⟩
          | .error e => .error e

/-- Given a QH instance, call the handler for each qTD structure in the queue. -/
def sam_qtd_foreach (virt : Nat → Nat) (fuel : Nat) (qh : Nat) (handler : Option foreach_t)
    (arg : Nat) (s : EhciState) : Except Fault ForeachResult :=
  let bp := qh + QH_OVERLAY
  if s.mem bp &&& QH_NQP_T ≠ 0 then .ok ⟨0, s, []⟩
  else
    let physaddr := s.mem bp
    let qtd := virt physaddr
    sam_qtd_foreach_loop virt handler arg fuel qtd bp s

/-- A `sam_qtd_foreach` callback: unlinks the qTD, updating the word the back pointer
refers to, and frees the qTD structure. -/
def sam_qtd_discard : foreach_t := fun qtd bp _ s =>
  let s1 := { s with mem := s.mem.write bp (s.mem (qtd + QTD_NQP)) }
  ⟨OK, bp, sam_qtd_free qtd s1⟩

/-- Free the Queue Head (QH) and all qTDs attached to the QH. -/
def sam_qh_discard (virt : Nat → Nat) (fuel : Nat) (qh : Nat) (s : EhciState) :
    Except Fault (Int × EhciState) :=
  match sam_qtd_foreach virt fuel qh (some sam_qtd_discard) 0 s with
  | .error e => .error e
  | .ok r => .ok (r.ret, sam_qh_free qh r.state)

/-- Return value and callout invocations of a traversal that returned. -/
def observed : Except Fault ForeachResult → Option (Int × List Nat)
  | .ok r => some (r.ret, r.calls)
  | .error _ => none

/-- A chain of QHs linked through their horizontal link pointers: every QH but the last
has the terminate bit clear and its link address leads to the next one; the last has
the terminate bit set. -/
def QhChain (virt : Nat → Nat) (mem : Mem) : List Nat → Prop
  | [] => False
  | [q] => q ≠ 0 ∧ mem (q + QH_HLP) &&& QH_HLP_T ≠ 0
  | q :: q2 :: rest =>
    q ≠ 0 ∧ mem (q + QH_HLP) &&& QH_HLP_T = 0 ∧
      virt (mem (q + QH_HLP) &&& QH_HLP_MASK) = q2 ∧ QhChain virt mem (q2 :: rest)

/-- A chain of qTDs linked through their next-qTD pointers, the last one having the
terminate bit set. -/
def QtdChain (virt : Nat → Nat) (mem : Mem) : List Nat → Prop
  | [] => False
  | [t] => t ≠ 0 ∧ mem (t + QTD_NQP) &&& QTD_NQP_T ≠ 0
  | t :: t2 :: rest =>
    t ≠ 0 ∧ mem (t + QTD_NQP) &&& QTD_NQP_T = 0 ∧
      virt (mem (t + QTD_NQP) &&& QTD_NQP_NTEP_MASK) = t2 ∧ QtdChain virt mem (t2 :: rest)

/-- The queue of QH `qh` holds exactly the qTDs `ts`: an empty queue has the terminate bit
of the overlay next-qTD pointer set; otherwise that pointer leads to the first qTD of
a chain. -/
def QhQueue (virt : Nat → Nat) (mem : Mem) (qh : Nat) : List Nat → Prop
  | [] => mem (qh + QH_OVERLAY) &&& QH_NQP_T ≠ 0
  | t :: rest =>
    mem (qh + QH_OVERLAY) &&& QH_NQP_T = 0 ∧ virt (mem (qh + QH_OVERLAY)) = t ∧
      QtdChain virt mem (t :: rest)

/-- The functions `alloc` and `free` are the pop and push of the free list whose head is
`hd`, the pop clearing the first `z` bytes of the node it returns.  Both pools have this
shape; it is used to reason about them uniformly. -/
structure IsPool (hd : EhciState → Nat) (alloc : EhciState → Nat × EhciState)
    (free : Nat → EhciState → EhciState) (z : Nat) : Prop where
  alloc_null : ∀ s, hd s = 0 → alloc s = (0, s)
  alloc_ret : ∀ s, hd s ≠ 0 → (alloc s).1 = hd s
  alloc_mem : ∀ s, hd s ≠ 0 → (alloc s).2.mem = s.mem.memset0 (hd s) z
  alloc_hd : ∀ s, hd s ≠ 0 → hd (alloc s).2 = s.mem (hd s + LIST_FLINK)
  free_mem : ∀ n s, (free n s).mem = s.mem.write (n + LIST_FLINK) (hd s)
  free_hd : ∀ n s, hd (free n s) = n

/-- No node of `pool` starts inside the first `z` bytes of another one. -/
def Spaced (z : Nat) (pool : List Nat) : Prop :=
  ∀ a ∈ pool, ∀ b ∈ pool, a ≠ b → ¬ (a ≤ b ∧ b < a + z)

/-- The nodes `&g_qtdpool[0]`, ..., `&g_qtdpool[n-1]`. -/
def qtd_pool (base n : Nat) : List Nat := (List.range n).map (g_qtdpool base)

/-- The nodes `&g_ghpool[0]`, ..., `&g_ghpool[n-1]`. -/
def qh_pool (base n : Nat) : List Nat := (List.range n).map (g_ghpool base)

/-- The common shape of the loops of `sam_qh_foreach` and `sam_qtd_foreach`, over the
successor computation `next`; used to reason about the two loops at once. -/
def foreach_loop (next : Mem → Nat → Nat) (handler : Option foreach_t) (arg : Nat) :
    Nat → Nat → Nat → EhciState → Except Fault ForeachResult
  | 0, q, _, s => if q = 0 then .ok ⟨OK, s, []⟩ else .error Fault.out_of_fuel
  | fuel + 1, q, bp, s =>
    if q = 0 then .ok ⟨OK, s, []⟩
    else
      let nxt := next s.mem q
      match handler with
      | none => .error Fault.null_call
      | some h =>
        let r := h q bp arg s
        if r.ret ≠ 0 then .ok ⟨r.ret, r.state, [q]⟩
        else
          match foreach_loop next handler arg fuel nxt r.bp r.state with
          | .ok res => .ok ⟨res.ret, res.state, q :: res.calls⟩
          | .error e => .error e

/-- A non-empty list of non-NULL nodes in which `next` leads from each node to the
following one and from the last node to NULL. -/
def LinkChain (next : Mem → Nat → Nat) (mem : Mem) : List Nat → Prop
  | [] => False
  | [q] => q ≠ 0 ∧ next mem q = 0
  | q :: q2 :: rest => q ≠ 0 ∧ next mem q = q2 ∧ LinkChain next mem (q2 :: rest)

/-- The callout `h`, called (with `arg`) on a node of the list, leaves the link word (at byte
offset `off`) of every node later in the list as it is. -/
def KeepsLaterLinks (h : foreach_t) (arg off : Nat) : List Nat → Prop
  | [] => True
  | q :: rest =>
    (∀ q2 ∈ rest, ∀ (bp : Nat) (s : EhciState),
        (h q bp arg s).state.mem (q2 + off) = s.mem (q2 + off)) ∧
      KeepsLaterLinks h arg off rest

/-- Two structures of `size` bytes at addresses `a` and `b` do not overlap. -/
def Apart (size a b : Nat) : Prop := a + size ≤ b ∨ b + size ≤ a

/-- The callout `h`, called with `arg`, changes no memory outside the `size` bytes of the
node it is passed. -/
def ModifiesOnlyNode (h : foreach_t) (arg size : Nat) : Prop :=
  ∀ (q bp : Nat) (s : EhciState) (a : Nat),
    ¬ (q ≤ a ∧ a < q + size) → (h q bp arg s).state.mem a = s.mem a

/-- A callout that always returns 0 and ends the list at the node `arg`: it sets the
terminate bit in the link word of `arg`, whatever node it is called on. -/
def cut_list_at_arg : foreach_t := fun _ bp arg s =>
  ⟨0, bp, { s with mem := s.mem.write (arg + QH_HLP) QH_HLP_T }⟩

/-- A callout that reports the error -5 on the qTD at 0x140 and returns 0 on every other
qTD, after ending the queue at the qTD `arg` (it sets the terminate bit of `arg`). -/
def cut_queue_or_fail : foreach_t := fun qtd bp arg s =>
  if qtd = 0x140 then ⟨-5, bp, s⟩
  else ⟨0, bp, { s with mem := s.mem.write (arg + QTD_NQP) QTD_NQP_T }⟩

/-- A callout that unlinks the node it is passed by setting the terminate bit in the
node's own link word, and returns 0. -/
def unlink_self : foreach_t := fun q bp _ s =>
  ⟨0, bp, { s with mem := s.mem.write (q + QH_HLP) QH_HLP_T }⟩

/-- A callout that returns 0 on every node except `arg`, where it returns -5; it changes
nothing. -/
def fail_at_arg : foreach_t := fun q bp arg s =>
  ⟨if q = arg then -5 else 0, bp, s⟩

/-- Three QHs at 0x100, 0x200 and 0x300 linked in this order, the last one with its
terminate bit set. -/
def three_qh_mem : Mem := fun a =>
  if a = 0x100 then 0x200 else if a = 0x200 then 0x300 else if a = 0x300 then 1 else 0

/-- A QH at 0x400 whose overlay next-qTD pointer (at 0x410) leads to the qTDs 0x100,
0x120 and 0x140, linked in this order, the last one with its terminate bit set. -/
def three_qtd_mem : Mem := fun a =>
  if a = 0x410 then 0x100 else if a = 0x100 then 0x120 else if a = 0x120 then 0x140
  else if a = 0x140 then 1 else 0

/-- Whether a list of nodes is a QH chain can be computed. -/
def QhChain.dec (virt : Nat → Nat) (mem : Mem) : (l : List Nat) → Decidable (QhChain virt mem l)
  | [] => isFalse id
  | [q] => inferInstanceAs (Decidable (q ≠ 0 ∧ mem (q + QH_HLP) &&& QH_HLP_T ≠ 0))
  | q :: q2 :: rest =>
    have : Decidable (QhChain virt mem (q2 :: rest)) := QhChain.dec virt mem (q2 :: rest)
    inferInstanceAs (Decidable (q ≠ 0 ∧ mem (q + QH_HLP) &&& QH_HLP_T = 0 ∧
      virt (mem (q + QH_HLP) &&& QH_HLP_MASK) = q2 ∧ QhChain virt mem (q2 :: rest)))

instance (virt : Nat → Nat) (mem : Mem) (l : List Nat) : Decidable (QhChain virt mem l) :=
  QhChain.dec virt mem l

/-- Whether a list of nodes is a qTD chain can be computed. -/
def QtdChain.dec (virt : Nat → Nat) (mem : Mem) :
    (l : List Nat) → Decidable (QtdChain virt mem l)
  | [] => isFalse id
  | [t] => inferInstanceAs (Decidable (t ≠ 0 ∧ mem (t + QTD_NQP) &&& QTD_NQP_T ≠ 0))
  | t :: t2 :: rest =>
    have : Decidable (QtdChain virt mem (t2 :: rest)) := QtdChain.dec virt mem (t2 :: rest)
    inferInstanceAs (Decidable (t ≠ 0 ∧ mem (t + QTD_NQP) &&& QTD_NQP_T = 0 ∧
      virt (mem (t + QTD_NQP) &&& QTD_NQP_NTEP_MASK) = t2 ∧ QtdChain virt mem (t2 :: rest)))

instance (virt : Nat → Nat) (mem : Mem) (l : List Nat) : Decidable (QtdChain virt mem l) :=
  QtdChain.dec virt mem l

instance (virt : Nat → Nat) (mem : Mem) (qh : Nat) :
    (l : List Nat) → Decidable (QhQueue virt mem qh l)
  | [] => inferInstanceAs (Decidable (mem (qh + QH_OVERLAY) &&& QH_NQP_T ≠ 0))
  | t :: rest =>
    inferInstanceAs (Decidable (mem (qh + QH_OVERLAY) &&& QH_NQP_T = 0 ∧
      virt (mem (qh + QH_OVERLAY)) = t ∧ QtdChain virt mem (t :: rest)))

/-- Whether a list of nodes is the free list starting at a head can be computed. -/
def IsFreeList.dec (mem : Mem) : (head : Nat) → (l : List Nat) → Decidable (IsFreeList mem head l)
  | head, [] => inferInstanceAs (Decidable (head = 0))
  | head, n :: rest =>
    have : Decidable (IsFreeList mem (mem (n + LIST_FLINK)) rest) :=
      IsFreeList.dec mem (mem (n + LIST_FLINK)) rest
    inferInstanceAs (Decidable (head = n ∧ n ≠ 0 ∧ IsFreeList mem (mem (n + LIST_FLINK)) rest))

instance (mem : Mem) (head : Nat) (l : List Nat) : Decidable (IsFreeList mem head l) :=
  IsFreeList.dec mem head l

/-- A state whose qTD free list holds the single qTD at 0x1000, which still carries an
alternate pointer (0x2001), a token (0x80) and a first buffer pointer (0x3000) from its
earlier use. -/
def stale_qtd_state : EhciState :=
  ⟨fun a => if a = 0x1004 then 0x2001 else if a = 0x1008 then 0x80
            else if a = 0x100c then 0x3000 else 0, 0, 0x1000⟩

/-- A qTD is allocated from a freshly seeded, zero-filled pool of one, the driver stores the
token 0x80 in it, the qTD is released and then allocated again; the result of that second
allocation. -/
def reuse_qtd : Nat × EhciState :=
  let s0 := seed_qtd 0x1000 1 ⟨fun _ => 0, 0, 0⟩
  let a := sam_qtd_alloc s0
  let s2 : EhciState := { a.2 with mem := a.2.mem.write (a.1 + QTD_TOKEN) 0x80 }
  let s3 := sam_qtd_free a.1 s2
  sam_qtd_alloc s3

/-! ## Host controller registers -/

/-- The operational registers `HCOR->usbcmd` and `HCOR->usbsts`. -/
inductive Reg where
  | usbcmd : Reg
  | usbsts : Reg
  deriving DecidableEq

/-- What the driver does that the controller or the clock can observe. -/
inductive RegEvent where
  /-- A register read (`sam_getreg`) that returned `v`. -/
  | read (r : Reg) (v : Nat) : RegEvent
  /-- A register write (`sam_putreg`) of `v`. -/
  | write (r : Reg) (v : Nat) : RegEvent
  /-- A call `up_udelay(usec)`. -/
  | udelay (usec : Nat) : RegEvent
  deriving DecidableEq

/-- The behaviour of the controller as the driver sees it: the value each register returns
on its first, second, third, ... read.  Any reaction of the hardware to time or to the
writes of the driver is some such pair of sequences. -/
structure Hw where
  /-- Value returned by the `n`-th read of USBCMD (counting from 0). -/
  usbcmd : Nat → Nat
  /-- Value returned by the `n`-th read of USBSTS (counting from 0). -/
  usbsts : Nat → Nat

/-- The 32-bit value returned by the `n`-th read of register `r`. -/
def Hw.read (hw : Hw) : Reg → Nat → Nat
  | Reg.usbcmd, n => hw.usbcmd n % 2 ^ 32
  | Reg.usbsts, n => hw.usbsts n % 2 ^ 32

/-- How many times each register has been read so far, and everything the driver did so
far, oldest first. -/
structure RegAccess where
  /-- Number of reads of each register so far. -/
  reads : Reg → Nat
  /-- Register accesses and delays so far. -/
  trace : List RegEvent

/-- No register access has happened yet. -/
def RegAccess.init : RegAccess := ⟨fun _ => 0, []⟩

/-- Get the contents of a register. -/
def sam_getreg (hw : Hw) (r : Reg) (io : RegAccess) : Nat × RegAccess :=
  let regval := hw.read r (io.reads r)
  (regval, ⟨Function.update io.reads r (io.reads r + 1), io.trace ++ [RegEvent.read r regval]⟩)

/-- Set the contents of a register to a value. -/
def sam_putreg (regval : Nat) (r : Reg) (io : RegAccess) : RegAccess :=
  { io with trace := io.trace ++ [RegEvent.write r regval] }

/-- The call `up_udelay(usec)`: busy-wait for `usec` microseconds. -/
def up_udelay (usec : Nat) (io : RegAccess) : RegAccess :=
  { io with trace := io.trace ++ [RegEvent.udelay usec] }

/-- Modelled from the spec: `EHCI_INT_SYSERROR`, the host system error bit (bit 4) of
USBSTS (include/nuttx/usb/ehci.h is not among the sources). -/
def EHCI_INT_SYSERROR : Nat := 16

/-- Modelled from the spec: `EHCI_USBSTS_HALTED`, the HCHalted bit (bit 12) of USBSTS. -/
def EHCI_USBSTS_HALTED : Nat := 4096

/-- Modelled from the spec: `EHCI_USBCMD_HCRESET`, the host controller reset bit (bit 1) of
USBCMD. -/
def EHCI_USBCMD_HCRESET : Nat := 2

/-- Modelled from the spec: the errno value `EIO` (include/errno.h is not among the
sources). -/
def EIO : Int := 5

/-- Modelled from the spec: the errno value `ETIMEDOUT`. -/
def ETIMEDOUT : Int := 110

/-- Modelled from the spec: the errno value `ENODEV`. -/
def ENODEV : Int := 19

/-- The `do ... while` loop of `ehci_wait_usbsts`; `timeout` is the `unsigned int` counter.
The first argument bounds the number of iterations. -/
def ehci_wait_usbsts_loop (hw : Hw) (maskbits donebits delay : Nat) :
    Nat → Nat → RegAccess → Option (Int × RegAccess)
  | 0, _, _ => none
  | fuel + 1, timeout, io =>
    let io1 := up_udelay 5 io
    let timeout1 := (timeout + 5) % 2 ^ 32
    let r := sam_getreg hw Reg.usbsts io1
    if r.1 &&& EHCI_INT_SYSERROR ≠ 0 then some (- EIO, r.2)
    else
      let regval := r.1 &&& maskbits
      if regval ≠ donebits ∧ timeout1 < delay then
        ehci_wait_usbsts_loop hw maskbits donebits delay fuel timeout1 r.2
      else some (if regval = donebits then OK else -ETIMEDOUT, r.2)

/-- Wait for either a field in the USBSTS register to take a specific value, for a timeout
to occur, or for an error to occur. -/
def ehci_wait_usbsts (hw : Hw) (maskbits donebits delay : Nat) (fuel : Nat) (io : RegAccess) :
    Option (Int × RegAccess) :=
  ehci_wait_usbsts_loop hw maskbits donebits delay fuel 0 io

/-- The first `do ... while` loop of `sam_reset` (wait for HCHalted); yields the last
`regval`, the `timeout` counter and the register state. -/
def sam_reset_halt_loop (hw : Hw) : Nat → Nat → RegAccess → Option (Nat × Nat × RegAccess)
  | 0, _, _ => none
  | fuel + 1, timeout, io =>
    let io1 := up_udelay 1 io
    let timeout1 := (timeout + 1) % 2 ^ 32
    let r := sam_getreg hw Reg.usbsts io1
    if r.1 &&& EHCI_USBSTS_HALTED = 0 ∧ timeout1 < 1000 then
      sam_reset_halt_loop hw fuel timeout1 r.2
    else some (r.1, timeout1, r.2)

/-- The second `do ... while` loop of `sam_reset` (wait for HCRESET to clear). -/
def sam_reset_wait_loop (hw : Hw) : Nat → Nat → RegAccess → Option (Nat × Nat × RegAccess)
  | 0, _, _ => none
  | fuel + 1, timeout, io =>
    let io1 := up_udelay 5 io
    let timeout1 := (timeout + 5) % 2 ^ 32
    let r := sam_getreg hw Reg.usbcmd io1
    if r.1 &&& EHCI_USBCMD_HCRESET ≠ 0 ∧ timeout1 < 1000000 then
      sam_reset_wait_loop hw fuel timeout1 r.2
    else some (r.1, timeout1, r.2)

/-- Reset the EHCI host controller.  `fuel` bounds the iterations of each loop. -/
def sam_reset (hw : Hw) (fuel : Nat) (io : RegAccess) : Option (Int × RegAccess) :=
  let io0 := sam_putreg 0 Reg.usbcmd io
  match sam_reset_halt_loop hw fuel 0 io0 with
  | none => none
  | some (regval, timeout, io1) =>
    if regval &&& EHCI_USBSTS_HALTED = 0 then some (-ETIMEDOUT, io1)
    else
      let r := sam_getreg hw Reg.usbcmd io1
      let regval2 := r.1 ||| EHCI_USBCMD_HCRESET
      let io2 := sam_putreg regval2 Reg.usbcmd r.2
      match sam_reset_wait_loop hw fuel timeout io2 with
      | none => none
      | some (regval3, _, io3) =>
        some (if regval3 &&& EHCI_USBCMD_HCRESET ≠ 0 then -ETIMEDOUT else OK, io3)

/-- How a polling loop was left. -/
structure PollExit where
  /-- The loop was left by the `return` inside its body. -/
  aborted : Bool
  /-- The last value read. -/
  regval : Nat
  /-- The `timeout` counter. -/
  timeout : Nat
  /-- The register state. -/
  io : RegAccess

/-- The common shape of the three polling loops: wait `d` microseconds, add `d` to the
counter, read `reg`; leave by `return` if `abort`, repeat while `cont` and the counter
is below `limit`.  Used to reason about the three loops at once. -/
def poll_loop (hw : Hw) (reg : Reg) (d limit : Nat) (abort cont : Nat → Bool) :
    Nat → Nat → RegAccess → Option PollExit
  | 0, _, _ => none
  | fuel + 1, timeout, io =>
    let io1 := up_udelay d io
    let timeout1 := (timeout + d) % 2 ^ 32
    let r := sam_getreg hw reg io1
    if abort r.1 = true then some ⟨true, r.1, timeout1, r.2⟩
    else if cont r.1 = true ∧ timeout1 < limit then
      poll_loop hw reg d limit abort cont fuel timeout1 r.2
    else some ⟨false, r.1, timeout1, r.2⟩

/-- The events of `p` consecutive polls of `reg`, `d` microseconds apart, the first of them
being read number `n0` of that register. -/
def poll_events (hw : Hw) (reg : Reg) (d : Nat) : Nat → Nat → List RegEvent
  | 0, _ => []
  | p + 1, n0 =>
    RegEvent.udelay d :: RegEvent.read reg (hw.read reg n0) :: poll_events hw reg d p (n0 + 1)

/-- The register state after `p` further polls of `reg`. -/
def RegAccess.after (io : RegAccess) (hw : Hw) (reg : Reg) (d p : Nat) : RegAccess :=
  ⟨Function.update io.reads reg (io.reads reg + p),
    io.trace ++ poll_events hw reg d p (io.reads reg)⟩

/-- The register writes in a trace, oldest first. -/
def writes_of : List RegEvent → List (Reg × Nat)
  | [] => []
  | RegEvent.write r v :: rest => (r, v) :: writes_of rest
  | _ :: rest => writes_of rest

/-- One step of the monitor for "HCRESET is only written while the last USBSTS read showed
HCHalted": the state is `none` once the rule was broken, otherwise `some b` where `b`
tells whether the most recent USBSTS read had HCHalted set (`false` before any read). -/
def reset_guard_step : Option Bool → RegEvent → Option Bool
  | none, _ => none
  | some _, RegEvent.read Reg.usbsts v => some (decide (v &&& EHCI_USBSTS_HALTED ≠ 0))
  | some b, RegEvent.write Reg.usbcmd v =>
    if v &&& EHCI_USBCMD_HCRESET ≠ 0 ∧ b = false then none else some b
  | some b, _ => some b

/-- Run the monitor over a trace. -/
def reset_guard (trace : List RegEvent) : Option Bool :=
  trace.foldl reset_guard_step (some false)

/-- The arguments of the `up_udelay` calls in a trace, oldest first. -/
def delays_of : List RegEvent → List Nat
  | [] => []
  | RegEvent.udelay n :: rest => n :: delays_of rest
  | _ :: rest => delays_of rest

/-- The register state of `sam_reset` when its first loop ends after `p1 + 1` polls. -/
def reset_io1 (hw : Hw) (io : RegAccess) (p1 : Nat) : RegAccess :=
  (sam_putreg 0 Reg.usbcmd io).after hw Reg.usbsts 1 (p1 + 1)

/-- The register state of `sam_reset` when its second loop ends after `p2 + 1` polls, the
first loop having made `p1 + 1` polls. -/
def reset_io3 (hw : Hw) (io : RegAccess) (p1 p2 : Nat) : RegAccess :=
  (sam_putreg (hw.read Reg.usbcmd (io.reads Reg.usbcmd) ||| EHCI_USBCMD_HCRESET) Reg.usbcmd
    (sam_getreg hw Reg.usbcmd (reset_io1 hw io p1)).2).after hw Reg.usbcmd 5 (p2 + 1)

/-! ## Cache operations -/

/-- A D-cache maintenance call over the address range from `start` up to `stop`. -/
inductive CacheOp where
  /-- The call `cp15_invalidate_dcache(start, stop)`. -/
  | invalidate (start stop : Nat) : CacheOp
  /-- The call `cp15_coherent_dcache(start, stop)` (write-back). -/
  | coherent (start stop : Nat) : CacheOp
  deriving DecidableEq

/-- Byte offset of `hw` in `struct sam_qh_s`. -/
def QH_HW : Nat := 0

/-- Byte offset of `hw` in `struct sam_qtd_s`. -/
def QTD_HW : Nat := 0

/-- The `sam_qtd_foreach` callback that invalidates the D-cache over the qTD: its return
value and the cache operation it performs (it ignores `bp` and `arg`). -/
def sam_qtd_invalidate (qtd : Nat) : Int × List CacheOp :=
  (OK, [CacheOp.invalidate (qtd + QTD_HW) (qtd + QTD_HW + SIZEOF_EHCI_QTD)])

/-- The `sam_qtd_foreach` callback that flushes the D-cache over the qTD: its return value
and the cache operation it performs (it ignores `bp` and `arg`). -/
def sam_qtd_flush (qtd : Nat) : Int × List CacheOp :=
  (OK, [CacheOp.coherent (qtd + QTD_HW) (qtd + QTD_HW + SIZEOF_EHCI_QTD)])

/-- Invalidate the Queue Head and all qTD entries in the queue: the cache operations
performed and the outcome of the traversal, whose value is returned.  The traversal is
called with a NULL handler, as in the source. -/
def sam_qh_invalidate (virt : Nat → Nat) (fuel : Nat) (qh : Nat) (s : EhciState) :
    List CacheOp × Except Fault ForeachResult :=
  ([CacheOp.invalidate (qh + QH_HW) (qh + QH_HW + SIZEOF_EHCI_QH)],
    sam_qtd_foreach virt fuel qh none 0 s)

/-- The function `sam_qh_flush`: the cache operations performed and the outcome of the
traversal, whose value is returned.  As in the source, the QH is passed to
`cp15_invalidate_dcache` and the traversal is called with a NULL handler. -/
def sam_qh_flush (virt : Nat → Nat) (fuel : Nat) (qh : Nat) (s : EhciState) :
    List CacheOp × Except Fault ForeachResult :=
  ([CacheOp.invalidate (qh + QH_HW) (qh + QH_HW + SIZEOF_EHCI_QH)],
    sam_qtd_foreach virt fuel qh none 0 s)

/-- The fault that ended a traversal, if one did. -/
def fault_of : Except Fault ForeachResult → Option Fault
  | .ok _ => none
  | .error e => some e

/-- A QH at 0x400 with an empty queue: the overlay next-qTD pointer (at 0x410) has its
terminate bit set. -/
def empty_queue_mem : Mem := fun a => if a = 0x410 then 1 else 0

/-! ## Root hub ports -/

/-- The state of one root hub port, `struct sam_rhport_s`; the embedded driver structure
`drvr` is identified with the port index. -/
structure sam_rhport_s where
  /-- Connected to device. -/
  connected : Bool
  /-- Low speed device attached. -/
  lowspeed : Bool
  /-- Root hub port index. -/
  rhpndx : Nat
  /-- The field `class`: the bound device class driver, 0 for NULL. -/
  cls : Nat

/-- The overall state of the USB host controller, `struct sam_ehci_s g_ehci` (without
`ep0`). -/
structure sam_ehci_s where
  /-- TRUE: thread is waiting for root hub event. -/
  rhwait : Bool
  /-- Count of the semaphore `exclsem`. -/
  exclsem : Int
  /-- Count of the semaphore `rhsem`. -/
  rhsem : Int
  /-- The free lists `qhfree` and `qtdfree`, and memory. -/
  pools : EhciState
  /-- Root hub ports, by index. -/
  rhport : Nat → sam_rhport_s

/-- What `sam_wait` has done after a bounded number of scans of the ports. -/
structure WaitResult where
  /-- The value returned, or `none` while `sam_wait` has not returned. -/
  ret : Option Int
  /-- The driver state at that point. -/
  state : sam_ehci_s
  /-- The states in which `sam_takesem(&g_ehci.rhsem)` was called, oldest first. -/
  blocked : List sam_ehci_s

/-- The inner `for` loop of `sam_wait` with `n` ports left to check, `rhpndx` being the
next one: the index at which the loop returns, if it does. -/
def sam_wait_scan_from (connected : Nat → Bool) (s : sam_ehci_s) : Nat → Nat → Option Nat
  | 0, _ => none
  | n + 1, rhpndx =>
    if (s.rhport rhpndx).connected ≠ connected rhpndx then some rhpndx
    else sam_wait_scan_from connected s n (rhpndx + 1)

/-- The scan `for (rhpndx = 0; rhpndx < SAM_EHCI_NRHPORT; rhpndx++)` of `sam_wait`. -/
def sam_wait_scan (nrhport : Nat) (connected : Nat → Bool) (s : sam_ehci_s) : Option Nat :=
  sam_wait_scan_from connected s nrhport 0

/-- Wait for a device to be connected or disconnected to/from a root hub port.  `nrhport`
is `SAM_EHCI_NRHPORT` (not defined in the sources); `wake k s` is the driver state when
the `k`-th call of `sam_takesem(&g_ehci.rhsem)`, entered in state `s`, returns, that is
whatever interrupts did while the caller slept; the first argument bounds the number of
scans. -/
def sam_wait (nrhport : Nat) (wake : Nat → sam_ehci_s → sam_ehci_s) (connected : Nat → Bool) :
    Nat → Nat → sam_ehci_s → WaitResult
  | 0, _, s => ⟨none, s, []⟩
  | fuel + 1, k, s =>
    match sam_wait_scan nrhport connected s with
    | some rhpndx => ⟨some (rhpndx : Int), s, []⟩
    | none =>
      let s1 : sam_ehci_s := { s with rhwait := true }
      let r := sam_wait nrhport wake connected fuel (k + 1) (wake k s1)
      ⟨r.ret, r.state, s1 :: r.blocked⟩

/-- The connected flag of each of the `nrhport` ports equals the caller's array. -/
def PortsMatch (nrhport : Nat) (connected : Nat → Bool) (s : sam_ehci_s) : Prop :=
  ∀ i, i < nrhport → (s.rhport i).connected = connected i

/-- What `sam_enumerate` does that its environment can observe. -/
inductive EnumEvent where
  /-- A call `up_mdelay(ms)`. -/
  | mdelay (ms : Nat) : EnumEvent
  /-- A call `usbhost_enumerate(&g_ehci.rhport[drvr].drvr, funcaddr,
  &g_ehci.rhport[slot].class)`. -/
  | enumerate (drvr funcaddr slot : Nat) : EnumEvent
  deriving DecidableEq

/-- Enumerate the connected device.  `usbhost_enumerate drvr funcaddr slot s` is the
collaborator of the USB host framework (not among the sources): called with the driver
structure of port `drvr`, the function address and the class slot of port `slot`, it
yields its return value and the state it leaves. -/
def sam_enumerate (usbhost_enumerate : Nat → Nat → Nat → sam_ehci_s → Int × sam_ehci_s)
    (rhpndx : Nat) (s : sam_ehci_s) : Int × sam_ehci_s × List EnumEvent :=
  let rhport := s.rhport rhpndx
  if rhport.connected = false then (-ENODEV, s, [])
  else
    let r := usbhost_enumerate rhpndx (rhpndx + 1) rhpndx s
    (r.1, r.2, [EnumEvent.mdelay 100, EnumEvent.mdelay 200,
      EnumEvent.enumerate rhpndx (rhpndx + 1) rhpndx])

/-- A driver state with three ports, none connected, no class bound, empty pools. -/
def idle_ehci : sam_ehci_s :=
  ⟨false, 1, 0, ⟨fun _ => 0, 0, 0⟩, fun i => ⟨false, false, i, 0⟩⟩

/-- The connect interrupt of port 1 arrives during the second sleep (`k = 1`): it sets the
connected flag of port 1. -/
def connect_port1_later : Nat → sam_ehci_s → sam_ehci_s := fun k s =>
  if k = 1 then
    { s with rhport := fun i => if i = 1 then { s.rhport i with connected := true }
                                else s.rhport i }
  else s

/-- A stand-in for `usbhost_enumerate` that binds class 0x5000 to the slot and returns
OK. -/
def bind_class : Nat → Nat → Nat → sam_ehci_s → Int × sam_ehci_s := fun _ _ slot s =>
  (OK, { s with rhport := fun i => if i = slot then { s.rhport i with cls := 0x5000 }
                                   else s.rhport i })

/-! ## Driver operations -/

/-- Modelled from the spec: the errno value `EPERM` (include/errno.h is not among the
sources). -/
def EPERM : Int := 1

/-- Modelled from the spec: the errno value `EAGAIN`. -/
def EAGAIN : Int := 11

/-- Modelled from the spec: the errno value `ENOMEM`. -/
def ENOMEM : Int := 12

/-- Modelled from the spec: the errno value `EPIPE`. -/
def EPIPE : Int := 32

/-- Modelled from the spec: the errno value `ENOSYS`. -/
def ENOSYS : Int := 38

/-- A call on the semaphore `g_ehci.exclsem`. -/
inductive SemOp where
  /-- The call `sam_takesem(&g_ehci.exclsem)`. -/
  | take : SemOp
  /-- The call `sam_givesem(&g_ehci.exclsem)`. -/
  | give : SemOp
  deriving DecidableEq

/-- The call `sam_takesem(&g_ehci.exclsem)`: the count goes down by one.  The wait for the
semaphore, when it is not available, is not modelled: the caller goes on once it holds
the semaphore. -/
def take_exclsem (s : sam_ehci_s) : sam_ehci_s := { s with exclsem := s.exclsem - 1 }

/-- The call `sam_givesem(&g_ehci.exclsem)`, that is `sem_post`: the count goes up by one. -/
def give_exclsem (s : sam_ehci_s) : sam_ehci_s := { s with exclsem := s.exclsem + 1 }

/-- What a driver operation leaves: its return value, the driver state, and its calls on
`exclsem`, oldest first. -/
structure DrvrResult where
  /-- The returned `int`. -/
  ret : Int
  /-- The driver state on return. -/
  state : sam_ehci_s
  /-- Calls on `g_ehci.exclsem`, oldest first. -/
  semops : List SemOp

/-- Configure endpoint 0 (the logic is missing in the source). -/
def sam_ep0configure (s : sam_ehci_s) : DrvrResult :=
  let s1 := take_exclsem s
  let s2 := give_exclsem s1
  ⟨-ENOSYS, s2, [SemOp.take, SemOp.give]⟩

/-- What `sam_epalloc` leaves. -/
structure EpallocResult where
  /-- The returned `int`. -/
  ret : Int
  /-- The driver state on return. -/
  state : sam_ehci_s
  /-- The caller's endpoint handle `*ep` on return. -/
  ep : Nat
  /-- The count of `epinfo->wsem` after `sem_init`, when a container was allocated. -/
  wsem : Option Int
  /-- Calls on `g_ehci.exclsem`, oldest first. -/
  semops : List SemOp

/-- Allocate and configure one endpoint.  `kzalloc` is what the call
`kzalloc(sizeof(struct sam_epinfo_s))` returns (0 for NULL) and `ep` the value of the
caller's handle `*ep` on entry. -/
def sam_epalloc (kzalloc : Nat) (ep : Nat) (s : sam_ehci_s) : EpallocResult :=
  let ret := -ENOMEM
  let epinfo := kzalloc
  if epinfo = 0 then ⟨ret, s, ep, none, []⟩
  else
    let wsem : Int := 0
    let s1 := take_exclsem s
    let ep1 := epinfo
    let s2 := give_exclsem s1
    ⟨OK, s2, ep1, some wsem, [SemOp.take, SemOp.give]⟩

/-- Free an endpoint previously allocated by `sam_epalloc` (the logic is missing in the
source; the container is freed). -/
def sam_epfree (s : sam_ehci_s) : DrvrResult :=
  let s1 := take_exclsem s
  let ret := -ENOSYS
  let s2 := give_exclsem s1
  ⟨ret, s2, [SemOp.take, SemOp.give]⟩

/-- Process an IN request on the control endpoint (the transfer logic is missing in the
source). -/
def sam_ctrlin (s : sam_ehci_s) : DrvrResult :=
  let s1 := take_exclsem s
  let ret := -ENOSYS
  let s2 := give_exclsem s1
  ⟨ret, s2, [SemOp.take, SemOp.give]⟩

/-- Process an OUT request on the control endpoint: `sam_ctrlin` handles both directions. -/
def sam_ctrlout (s : sam_ehci_s) : DrvrResult :=
  sam_ctrlin s

/-- Process a request to handle a transfer descriptor (the transfer logic is missing in
the source); the endpoint, the buffer and its length are not used. -/
def sam_transfer (ep buffer buflen : Nat) (s : sam_ehci_s) : DrvrResult :=
  let _unused := (ep, buffer, buflen)
  let s1 := take_exclsem s
  let ret := -ENOSYS
  let s2 := give_exclsem s1
  ⟨ret, s2, [SemOp.take, SemOp.give]⟩

/-- The driver has been disconnected: unbind the class of the port whose driver structure
is passed (identified by the port index). -/
def sam_disconnect (rhpndx : Nat) (s : sam_ehci_s) : sam_ehci_s :=
  { s with rhport := fun i => if i = rhpndx then { s.rhport i with cls := 0 } else s.rhport i }

/-! ## Register access logging -/

/-- A line of the debug log. -/
inductive LogLine where
  /-- The line printed by `sam_printreg`: address, direction, value. -/
  | access (regaddr regval : Nat) (iswrite : Bool) : LogLine
  /-- The line `[repeats <count> more times]`. -/
  | repeats (count : Nat) : LogLine
  deriving DecidableEq

/-- The static variables of `sam_checkreg`. -/
structure CheckState where
  /-- The variable `prevaddr`. -/
  prevaddr : Nat
  /-- The variable `preval`. -/
  preval : Nat
  /-- The variable `count`, a `uint32_t`. -/
  count : Nat
  /-- The variable `prevwrite`. -/
  prevwrite : Bool

/-- The initial values of the static variables of `sam_checkreg`. -/
def CheckState.init : CheckState := ⟨0, 0, 0, false⟩

/-- Check if it is time to output debug information for an access to a register: the new
values of the static variables and the lines printed by this call. -/
def sam_checkreg (st : CheckState) (regaddr regval : Nat) (iswrite : Bool) :
    CheckState × List LogLine :=
  if regaddr = st.prevaddr ∧ regval = st.preval ∧ st.prevwrite = iswrite then
    ({ st with count := (st.count + 1) % 2 ^ 32 }, [])
  else
    let pending : List LogLine :=
      if st.count > 0 then
        if st.count = 1 then [LogLine.access st.prevaddr st.preval st.prevwrite]
        else [LogLine.repeats st.count]
      else []
    (⟨regaddr, regval, 0, iswrite⟩, pending ++ [LogLine.access regaddr regval iswrite])

/-- A sequence of `n` calls of `sam_checkreg` for the same access: the state it leaves and
the lines printed. -/
def checkreg_run (regaddr regval : Nat) (iswrite : Bool) : Nat → CheckState →
    CheckState × List LogLine
  | 0, st => (st, [])
  | n + 1, st =>
    let r := sam_checkreg st regaddr regval iswrite
    let rest := checkreg_run regaddr regval iswrite n r.1
    (rest.1, r.2 ++ rest.2)

/-- The lines printed for a run of `n` calls for the access `(a, v, w)` followed by one call
for the access `(a2, v2, w2)`. -/
def log_of_run (st : CheckState) (a v : Nat) (w : Bool) (n : Nat) (a2 v2 : Nat) (w2 : Bool) :
    List LogLine :=
  (checkreg_run a v w n st).2 ++ (sam_checkreg (checkreg_run a v w n st).1 a2 v2 w2).2

/-! ## Little-endian accessors -/

/-- Byte-granular memory: address to byte. -/
abbrev ByteMem := Nat → Nat

/-- A 16-bit load `*addr` as the host performs it; `big` tells whether the host is big
endian. -/
def load16 (big : Bool) (m : ByteMem) (addr : Nat) : Nat :=
  if big then 256 * (m addr % 256) + m (addr + 1) % 256
  else m addr % 256 + 256 * (m (addr + 1) % 256)

/-- A 16-bit store `*addr = v` as the host performs it. -/
def store16 (big : Bool) (v : Nat) (addr : Nat) (m : ByteMem) : ByteMem :=
  fun x =>
    if x = addr then (if big then (v / 256) % 256 else v % 256)
    else if x = addr + 1 then (if big then v % 256 else (v / 256) % 256)
    else m x

/-- Read 16-bit little endian data; `big` selects the `CONFIG_ENDIAN_BIG` variant (and a
big-endian host). -/
def sam_read16 (big : Bool) (m : ByteMem) (addr : Nat) : Nat :=
  if big then
    (((m (addr + 1) % 256) <<< 8) ||| load16 true m addr) % 2 ^ 16
  else load16 false m addr

/-- Write 16-bit little endian data; `big` selects the `CONFIG_ENDIAN_BIG` variant (and a
big-endian host). -/
def sam_write16 (big : Bool) (memval : Nat) (addr : Nat) (m : ByteMem) : ByteMem :=
  if big then
    fun x =>
      if x = addr + 1 then (memval >>> 8) % 256
      else if x = addr then (memval &&& 0xff) % 256
      else m x
  else store16 false memval addr m

/-- The lines `sam_checkreg` prints for the previous accesses when a different access
arrives: none if the last access was not repeated, the access line again if it was
repeated once, otherwise the repeat message with the count. -/
def pending_lines (st : CheckState) : List LogLine :=
  if st.count > 0 then
    if st.count = 1 then [LogLine.access st.prevaddr st.preval st.prevwrite]
    else [LogLine.repeats st.count]
  else []

/-- The access is the one recorded in the static variables of `sam_checkreg`. -/
def SameAccess (st : CheckState) (regaddr regval : Nat) (iswrite : Bool) : Prop :=
  regaddr = st.prevaddr ∧ regval = st.preval ∧ st.prevwrite = iswrite

/-- A driver state in which class 0x5000 is bound to port 1 and class 0x6000 to port 2,
port 1 being connected. -/
def bound_ehci : sam_ehci_s :=
  ⟨false, 1, 0, ⟨fun _ => 0, 0x2000, 0x1000⟩,
    fun i => ⟨decide (i = 1), false, i, if i = 1 then 0x5000 else if i = 2 then 0x6000 else 0⟩⟩

/-- Two bytes in memory: 0x34 at address 0x100 and 0x12 at address 0x101. -/
def two_bytes : ByteMem := fun a => if a = 0x100 then 0x34 else if a = 0x101 then 0x12 else 0

end SamEhci

namespace SamSpi

/-! # SPI driver (nuttx/arch/arm/src/sam34/sam_spi.c) -/

/-- Map the chip select number to the bit-set PCS field used in the SPI registers:
`((uint32_t)1 << (priv->cs)) - 1` in 32-bit arithmetic. -/
def spi_cs2pcs (cs : Nat) : Nat :=
  ((1 <<< cs) % 2 ^ 32 + 2 ^ 32 - 1) % 2 ^ 32

/-- The fields of `struct sam_spidev_s` used by `spi_setfrequency`. -/
structure sam_spidev_s where
  /-- Requested clock frequency. -/
  frequency : Nat
  /-- Actual clock frequency. -/
  actual : Nat
  /-- Chip select number. -/
  cs : Nat

/-- Modelled from the spec: `SPI_CSR_SCBR_SHIFT` (chip/sam_spi.h is not among the sources);
the serial clock baud rate field is bits 8-15 of the chip select register. -/
def SPI_CSR_SCBR_SHIFT : Nat := 8

/-- Modelled from the spec: `SPI_CSR_SCBR_MASK`. -/
def SPI_CSR_SCBR_MASK : Nat := 0xff <<< 8

/-- Modelled from the spec: `SPI_CSR_DLYBS_SHIFT`; the delay-before-SPCK field is bits
16-23. -/
def SPI_CSR_DLYBS_SHIFT : Nat := 16

/-- Modelled from the spec: `SPI_CSR_DLYBS_MASK`. -/
def SPI_CSR_DLYBS_MASK : Nat := 0xff <<< 16

/-- Modelled from the spec: `SPI_CSR_DLYBCT_SHIFT`; the delay-between-transfers field is
bits 24-31. -/
def SPI_CSR_DLYBCT_SHIFT : Nat := 24

/-- Modelled from the spec: `SPI_CSR_DLYBCT_MASK`. -/
def SPI_CSR_DLYBCT_MASK : Nat := 0xff <<< 24

/-- What `spi_setfrequency` leaves. -/
structure SetFreqResult where
  /-- The returned actual frequency. -/
  actual : Nat
  /-- The device state. -/
  priv : sam_spidev_s
  /-- The content of the chip select register `g_csraddr[priv->cs]`. -/
  csr : Nat
  /-- The divider `scbr` that was programmed, if the register was written. -/
  scbr : Option Nat

/-- Set the SPI frequency (the variant without `CONFIG_SPI_OWNBUS`).  `clock` is
`SAM_SPI_CLOCK` (a board constant, not among the sources), `csr` the content of the chip
select register of the device; `frequency` is positive. -/
def spi_setfrequency (clock : Nat) (priv : sam_spidev_s) (csr : Nat) (frequency : Nat) :
    SetFreqResult :=
  if priv.frequency = frequency then ⟨priv.actual, priv, csr, none⟩
  else
    let scbr0 := clock / frequency
    let scbr1 := if scbr0 < 8 then 8 else if scbr0 > 254 then 254 else scbr0
    let scbr := (scbr1 + 1) % 2 ^ 32 &&& (2 ^ 32 - 2)
    let regval0 := csr % 2 ^ 32
    let regval1 := regval0 &&&
      (2 ^ 32 - 1 - (SPI_CSR_SCBR_MASK ||| SPI_CSR_DLYBS_MASK ||| SPI_CSR_DLYBCT_MASK))
    let regval2 := regval1 ||| (scbr <<< SPI_CSR_SCBR_SHIFT) % 2 ^ 32
    let dlybs := clock / 500000
    let regval3 := regval2 ||| (dlybs <<< SPI_CSR_DLYBS_SHIFT) % 2 ^ 32
    let dlybct := clock / 200000 / 32
    let regval4 := regval3 ||| (dlybct <<< SPI_CSR_DLYBCT_SHIFT) % 2 ^ 32
    let actual := clock / scbr
    ⟨actual, { priv with frequency := frequency, actual := actual }, regval4, some scbr⟩

/-- The distance between two frequencies. -/
def freq_dist (a b : Nat) : Nat := if a ≤ b then b - a else a - b

end SamSpi

/-! # Theorems -/

namespace SamEhci

/-! ## Memory and free-list lemmas -/

theorem write_same (m : Mem) (a v : Nat) : m.write a v a = v := by
  simp [Mem.write]

theorem write_other (m : Mem) (a v x : Nat) (h : x ≠ a) : m.write a v x = m x := by
  simp [Mem.write, h]

theorem memset0_inside (m : Mem) (p n x : Nat) (h1 : p ≤ x) (h2 : x < p + n) :
    m.memset0 p n x = 0 := by
  simp [Mem.memset0, h1, h2]

theorem memset0_outside (m : Mem) (p n x : Nat) (h : ¬ (p ≤ x ∧ x < p + n)) :
    m.memset0 p n x = m x := by
  simp only [Mem.memset0]
  rw [if_neg h]

theorem isFreeList_congr (m1 m2 : Mem) (l : List Nat) :
    ∀ head, (∀ n ∈ l, m2 (n + LIST_FLINK) = m1 (n + LIST_FLINK)) →
      IsFreeList m1 head l → IsFreeList m2 head l := by
  induction l with
  | nil => intro head _ h; exact h
  | cons a rest ih =>
    intro head hm h
    obtain ⟨h1, h2, h3⟩ := h
    refine ⟨h1, h2, ?_⟩
    rw [hm a (List.mem_cons_self a rest)]
    exact ih _ (fun n hn => hm n (List.mem_cons_of_mem a hn)) h3

theorem isFreeList_ne_zero (m : Mem) (l : List Nat) :
    ∀ head, IsFreeList m head l → ∀ n ∈ l, n ≠ 0 := by
  induction l with
  | nil => intro _ _ n hn; cases hn
  | cons a rest ih =>
    intro head h n hn
    obtain ⟨_, h2, h3⟩ := h
    rcases List.mem_cons.mp hn with rfl | hmem
    · exact h2
    · exact ih _ h3 n hmem

theorem isFreeList_functional (m : Mem) (l1 : List Nat) :
    ∀ (l2 : List Nat) head, IsFreeList m head l1 → IsFreeList m head l2 → l1 = l2 := by
  induction l1 with
  | nil =>
    intro l2 head h1 h2
    cases l2 with
    | nil => rfl
    | cons b r2 =>
      obtain ⟨hb, hb0, _⟩ := h2
      exact absurd (hb.symm.trans h1) hb0
  | cons a r1 ih =>
    intro l2 head h1 h2
    obtain ⟨ha, ha0, h1r⟩ := h1
    cases l2 with
    | nil => exact absurd (ha.symm.trans h2) ha0
    | cons b r2 =>
      obtain ⟨hb, _, h2r⟩ := h2
      have hab : a = b := ha.symm.trans hb
      subst hab
      rw [ih r2 _ h1r h2r]

theorem qtd_isPool : IsPool (fun s => s.qtdfree) sam_qtd_alloc sam_qtd_free SIZEOF_SAM_LIST where
  alloc_null := by
    intro s h
    have h0 : s.qtdfree = 0 := h
    simp only [sam_qtd_alloc]
    rw [if_neg (by simp [h0]), h0]
  alloc_ret := by intro s h; simp only [sam_qtd_alloc]; split <;> rfl
  alloc_mem := by intro s h; simp only [sam_qtd_alloc]; rw [if_pos h]
  alloc_hd := by intro s h; simp only [sam_qtd_alloc]; rw [if_pos h]
  free_mem := by intro n s; rfl
  free_hd := by intro n s; rfl

theorem qh_isPool : IsPool (fun s => s.qhfree) sam_qh_alloc sam_qh_free SIZEOF_SAM_QH where
  alloc_null := by
    intro s h
    have h0 : s.qhfree = 0 := h
    simp only [sam_qh_alloc]
    rw [if_neg (by simp [h0]), h0]
  alloc_ret := by intro s h; simp only [sam_qh_alloc]; split <;> rfl
  alloc_mem := by intro s h; simp only [sam_qh_alloc]; rw [if_pos h]
  alloc_hd := by intro s h; simp only [sam_qh_alloc]; rw [if_pos h]
  free_mem := by intro n s; rfl
  free_hd := by intro n s; rfl

/-! ## The pool invariant -/

theorem pool_alloc_inv {hd : EhciState → Nat} {alloc : EhciState → Nat × EhciState}
    {free : Nat → EhciState → EhciState} {z : Nat} (P : IsPool hd alloc free z)
    (pool : List Nat) (hsp : Spaced z pool) (s : EhciState) (held : List Nat)
    (hinv : PoolInv s.mem (hd s) pool held) :
    PoolInv (alloc s).2.mem (hd (alloc s).2) pool
      (if (alloc s).1 = 0 then held else (alloc s).1 :: held) := by
  obtain ⟨l, hl, hnd, hdisj, hperm⟩ := hinv
  by_cases h0 : hd s = 0
  · rw [P.alloc_null s h0]
    simp only [if_true]
    exact ⟨l, hl, hnd, hdisj, hperm⟩
  · cases l with
    | nil => exact absurd hl h0
    | cons q rest =>
      obtain ⟨hq, hq0, hrest⟩ := hl
      have hret : (alloc s).1 = q := (P.alloc_ret s h0).trans hq
      have hmem := P.alloc_mem s h0
      have hhd := P.alloc_hd s h0
      rw [hq] at hmem hhd
      rw [hret, if_neg hq0, hmem, hhd]
      have hqpool : q ∈ pool := hperm.subset (by simp)
      have hndr := (List.nodup_cons.mp hnd)
      refine ⟨rest, ?_, hndr.2, ?_, ?_⟩
      · refine isFreeList_congr s.mem _ rest _ ?_ hrest
        intro n hn
        have hnpool : n ∈ pool := hperm.subset (by simp [hn])
        have hne : q ≠ n := fun h => hndr.1 (h ▸ hn)
        have := hsp q hqpool n hnpool hne
        exact memset0_outside _ _ _ _ (by simpa [LIST_FLINK] using this)
      · intro n hn hmemn
        rcases List.mem_cons.mp hmemn with h | h
        · exact hndr.1 (h ▸ hn)
        · exact hdisj n (List.mem_cons_of_mem q hn) h
      · exact (List.perm_middle).trans hperm

theorem pool_free_inv {hd : EhciState → Nat} {alloc : EhciState → Nat × EhciState}
    {free : Nat → EhciState → EhciState} {z : Nat} (P : IsPool hd alloc free z)
    (pool : List Nat) (hnz : ∀ p ∈ pool, p ≠ 0) (hpn : pool.Nodup)
    (s : EhciState) (held : List Nat) (n : Nat) (hn : n ∈ held)
    (hinv : PoolInv s.mem (hd s) pool held) :
    PoolInv (free n s).mem (hd (free n s)) pool (held.erase n) := by
  obtain ⟨l, hl, hnd, hdisj, hperm⟩ := hinv
  rw [P.free_mem, P.free_hd]
  have hnl : n ∉ l := fun h => hdisj n h hn
  have hn0 : n ≠ 0 := hnz n (hperm.subset (by simp [hn]))
  have hheld : held.Nodup := (List.nodup_append.mp (hperm.nodup_iff.mpr hpn)).2.1
  refine ⟨n :: l, ⟨rfl, hn0, ?_⟩, List.nodup_cons.mpr ⟨hnl, hnd⟩, ?_, ?_⟩
  · rw [write_same]
    refine isFreeList_congr s.mem _ l _ ?_ hl
    intro x hx
    exact write_other _ _ _ _ (by
      have : x ≠ n := fun h => hnl (h ▸ hx)
      simpa [LIST_FLINK] using this)
  · intro x hx hxe
    rcases List.mem_cons.mp hx with h | h
    · subst h
      exact (hheld.mem_erase_iff.mp hxe).1 rfl
    · exact hdisj x h (List.mem_of_mem_erase hxe)
  · have h1 : (l ++ held).Perm (l ++ n :: held.erase n) :=
      List.Perm.append_left l (List.perm_cons_erase hn)
    have h2 : (l ++ n :: held.erase n).Perm (n :: (l ++ held.erase n)) := List.perm_middle
    exact (h2.symm.trans h1.symm).trans hperm

theorem pool_run_inv {hd : EhciState → Nat} {alloc : EhciState → Nat × EhciState}
    {free : Nat → EhciState → EhciState} {z : Nat} (P : IsPool hd alloc free z)
    (pool : List Nat) (hsp : Spaced z pool) (hnz : ∀ p ∈ pool, p ≠ 0) (hpn : pool.Nodup)
    (ops : List PoolOp) :
    ∀ r : PoolRun, PoolInv r.state.mem (hd r.state) pool r.held →
      ReleasesHeld alloc free r ops →
      PoolInv (pool_run alloc free r ops).state.mem (hd (pool_run alloc free r ops).state)
        pool (pool_run alloc free r ops).held := by
  induction ops with
  | nil => intro r hinv _; exact hinv
  | cons op rest ih =>
    intro r hinv hval
    cases op with
    | alloc =>
      exact ih _ (pool_alloc_inv P pool hsp r.state r.held hinv) hval
    | release n =>
      exact ih _ (pool_free_inv P pool hnz hpn r.state r.held n hval.1 hinv) hval.2

theorem releasesHeld_take (alloc : EhciState → Nat × EhciState)
    (free : Nat → EhciState → EhciState) (ops : List PoolOp) :
    ∀ (r : PoolRun) (k : Nat), ReleasesHeld alloc free r ops →
      ReleasesHeld alloc free r (ops.take k) := by
  induction ops with
  | nil => intro r k h; simpa using h
  | cons op rest ih =>
    intro r k h
    cases k with
    | zero => trivial
    | succ k =>
      cases op with
      | alloc => exact ih _ k h
      | release n => exact ⟨h.1, ih _ k h.2⟩

theorem releasesHeld_append (alloc : EhciState → Nat × EhciState)
    (free : Nat → EhciState → EhciState) (ops : List PoolOp) :
    ∀ (r : PoolRun) (ops2 : List PoolOp), ReleasesHeld alloc free r (ops ++ ops2) →
      ReleasesHeld alloc free r ops ∧
        ReleasesHeld alloc free (pool_run alloc free r ops) ops2 := by
  induction ops with
  | nil => intro r ops2 h; exact ⟨trivial, h⟩
  | cons op rest ih =>
    intro r ops2 h
    cases op with
    | alloc => exact ih _ ops2 h
    | release n =>
      have := ih _ ops2 h.2
      exact ⟨⟨h.1, this.1⟩, this.2⟩

/-! ## Seeding and draining a pool -/

theorem seed_isFreeList {hd : EhciState → Nat} {alloc : EhciState → Nat × EhciState}
    {free : Nat → EhciState → EhciState} {z : Nat} (P : IsPool hd alloc free z)
    (g : Nat → Nat) (hg0 : ∀ i, g i ≠ 0) (hinj : ∀ i j, g i = g j → i = j)
    (s : EhciState) (hs : hd s = 0) (n : Nat) :
    IsFreeList ((List.range n).foldl (fun st i => free (g i) st) s).mem
      (hd ((List.range n).foldl (fun st i => free (g i) st) s))
      ((List.range n).map g).reverse := by
  induction n with
  | zero => simpa [IsFreeList] using hs
  | succ n ih =>
    rw [List.range_succ, List.foldl_append, List.map_append, List.reverse_append]
    simp only [List.foldl_cons, List.foldl_nil, List.map_cons, List.map_nil,
      List.reverse_cons, List.reverse_nil, List.nil_append, List.singleton_append]
    rw [P.free_mem, P.free_hd]
    refine ⟨rfl, hg0 n, ?_⟩
    rw [write_same]
    refine isFreeList_congr _ _ _ _ ?_ ih
    intro x hx
    refine write_other _ _ _ _ ?_
    have hx2 : x ∈ (List.range n).map g := List.mem_reverse.mp hx
    obtain ⟨i, hi, hgi⟩ := List.mem_map.mp hx2
    have hin : i < n := List.mem_range.mp hi
    intro h
    have : g i = g n := by
      have h2 : x = g n := by simpa [LIST_FLINK] using h
      rw [hgi, h2]
    have := hinj i n this
    omega

theorem alloc_n_drains {hd : EhciState → Nat} {alloc : EhciState → Nat × EhciState}
    {free : Nat → EhciState → EhciState} {z : Nat} (P : IsPool hd alloc free z)
    (l : List Nat) :
    ∀ s : EhciState, IsFreeList s.mem (hd s) l → l.Nodup → Spaced z l →
      (alloc_n alloc l.length s).1 = l ∧ hd (alloc_n alloc l.length s).2 = 0 := by
  induction l with
  | nil => intro s h _ _; exact ⟨rfl, h⟩
  | cons q rest ih =>
    intro s h hnd hsp
    obtain ⟨hq, hq0, hrest⟩ := h
    have h0 : hd s ≠ 0 := by rw [hq]; exact hq0
    have hret : (alloc s).1 = q := (P.alloc_ret s h0).trans hq
    have hmem := P.alloc_mem s h0
    have hhd := P.alloc_hd s h0
    rw [hq] at hmem hhd
    have hndr := List.nodup_cons.mp hnd
    have hrest2 : IsFreeList (alloc s).2.mem (hd (alloc s).2) rest := by
      rw [hmem, hhd]
      refine isFreeList_congr s.mem _ rest _ ?_ hrest
      intro n hn
      have hne : q ≠ n := fun h => hndr.1 (h ▸ hn)
      have := hsp q (List.mem_cons_self q rest) n (List.mem_cons_of_mem q hn) hne
      exact memset0_outside _ _ _ _ (by simpa [LIST_FLINK] using this)
    have hsp2 : Spaced z rest := fun a ha b hb hab =>
      hsp a (List.mem_cons_of_mem q ha) b (List.mem_cons_of_mem q hb) hab
    have := ih (alloc s).2 hrest2 hndr.2 hsp2
    simp only [List.length_cons, alloc_n]
    exact ⟨by rw [hret, this.1], this.2⟩

theorem g_qtdpool_ne_zero (base : Nat) (hb : base ≠ 0) (i : Nat) : g_qtdpool base i ≠ 0 := by
  simp only [g_qtdpool]; omega

theorem g_ghpool_ne_zero (base : Nat) (hb : base ≠ 0) (i : Nat) : g_ghpool base i ≠ 0 := by
  simp only [g_ghpool]; omega

theorem g_qtdpool_inj (base i j : Nat) (h : g_qtdpool base i = g_qtdpool base j) : i = j := by
  simp only [g_qtdpool, SIZEOF_SAM_QTD, SIZEOF_EHCI_QTD] at h; omega

theorem g_ghpool_inj (base i j : Nat) (h : g_ghpool base i = g_ghpool base j) : i = j := by
  simp only [g_ghpool, SIZEOF_SAM_QH, SIZEOF_EHCI_QH] at h; omega

theorem qtd_pool_nodup (base n : Nat) : (qtd_pool base n).Nodup :=
  (List.nodup_range n).map (fun i j h => g_qtdpool_inj base i j h)

theorem qh_pool_nodup (base n : Nat) : (qh_pool base n).Nodup :=
  (List.nodup_range n).map (fun i j h => g_ghpool_inj base i j h)

theorem qtd_pool_spaced (base n : Nat) : Spaced SIZEOF_SAM_LIST (qtd_pool base n) := by
  intro a ha b hb hab
  obtain ⟨i, _, rfl⟩ := List.mem_map.mp ha
  obtain ⟨j, _, rfl⟩ := List.mem_map.mp hb
  simp only [g_qtdpool, SIZEOF_SAM_QTD, SIZEOF_EHCI_QTD, SIZEOF_SAM_LIST] at hab ⊢
  omega

theorem qh_pool_spaced (base n : Nat) : Spaced SIZEOF_SAM_QH (qh_pool base n) := by
  intro a ha b hb hab
  obtain ⟨i, _, rfl⟩ := List.mem_map.mp ha
  obtain ⟨j, _, rfl⟩ := List.mem_map.mp hb
  simp only [g_ghpool, SIZEOF_SAM_QH, SIZEOF_EHCI_QH] at hab ⊢
  omega

theorem spaced_of_perm (z : Nat) (l1 l2 : List Nat) (h : l1.Perm l2) (hs : Spaced z l2) :
    Spaced z l1 :=
  fun a ha b hb hab => hs a (h.subset ha) b (h.subset hb) hab

theorem seed_qtd_inv (base n : Nat) (hb : base ≠ 0) (s : EhciState) (hs : s.qtdfree = 0) :
    IsFreeList (seed_qtd base n s).mem (seed_qtd base n s).qtdfree (qtd_pool base n).reverse :=
  seed_isFreeList qtd_isPool (g_qtdpool base) (g_qtdpool_ne_zero base hb)
    (g_qtdpool_inj base) s hs n

theorem seed_qh_inv (base n : Nat) (hb : base ≠ 0) (s : EhciState) (hs : s.qhfree = 0) :
    IsFreeList (seed_qh base n s).mem (seed_qh base n s).qhfree (qh_pool base n).reverse :=
  seed_isFreeList qh_isPool (g_ghpool base) (g_ghpool_ne_zero base hb)
    (g_ghpool_inj base) s hs n

theorem alloc_not_held {hd : EhciState → Nat} {alloc : EhciState → Nat × EhciState}
    {free : Nat → EhciState → EhciState} {z : Nat} (P : IsPool hd alloc free z)
    (pool : List Nat) (hnz : ∀ p ∈ pool, p ≠ 0) (s : EhciState) (held : List Nat)
    (hinv : PoolInv s.mem (hd s) pool held) : (alloc s).1 ∉ held := by
  obtain ⟨l, hl, _, hdisj, hperm⟩ := hinv
  by_cases h0 : hd s = 0
  · rw [P.alloc_null s h0]
    intro h
    exact hnz 0 (hperm.subset (by simp [h])) rfl
  · rw [P.alloc_ret s h0]
    cases l with
    | nil => exact absurd hl h0
    | cons q rest =>
      rw [hl.1]
      exact hdisj q (List.mem_cons_self q rest)

theorem pool_sound {hd : EhciState → Nat} {alloc : EhciState → Nat × EhciState}
    {free : Nat → EhciState → EhciState} {z : Nat} (P : IsPool hd alloc free z)
    (pool : List Nat) (hsp : Spaced z pool) (hnz : ∀ p ∈ pool, p ≠ 0) (hpn : pool.Nodup)
    (s0 : EhciState) (h0 : PoolInv s0.mem (hd s0) pool [])
    (ops : List PoolOp) (hv : ReleasesHeld alloc free ⟨s0, []⟩ ops) :
    (∀ k : Nat,
      PoolInv (pool_run alloc free ⟨s0, []⟩ (ops.take k)).state.mem
          (hd (pool_run alloc free ⟨s0, []⟩ (ops.take k)).state) pool
          (pool_run alloc free ⟨s0, []⟩ (ops.take k)).held ∧
        (alloc (pool_run alloc free ⟨s0, []⟩ (ops.take k)).state).1 ∉
          (pool_run alloc free ⟨s0, []⟩ (ops.take k)).held) ∧
    (∀ (k n : Nat), ops.get? k = some (PoolOp.release n) →
      (alloc (pool_run alloc free ⟨s0, []⟩ (ops.take (k + 1))).state).1 = n) := by
  have hinv : ∀ k : Nat,
      PoolInv (pool_run alloc free ⟨s0, []⟩ (ops.take k)).state.mem
          (hd (pool_run alloc free ⟨s0, []⟩ (ops.take k)).state) pool
          (pool_run alloc free ⟨s0, []⟩ (ops.take k)).held := fun k =>
    pool_run_inv P pool hsp hnz hpn (ops.take k) ⟨s0, []⟩ h0
      (releasesHeld_take alloc free ops _ k hv)
  refine ⟨fun k => ⟨hinv k, alloc_not_held P pool hnz _ _ (hinv k)⟩, ?_⟩
  intro k n hk
  have htake : ops.take (k + 1) = ops.take k ++ [PoolOp.release n] := by
    rw [List.take_succ]
    have : ops[k]? = some (PoolOp.release n) := by simpa using hk
    rw [this]; rfl
  have hv2 := releasesHeld_take alloc free ops _ (k + 1) hv
  rw [htake] at hv2 ⊢
  have hsplit := releasesHeld_append alloc free (ops.take k) _ _ hv2
  have hheld : n ∈ (pool_run alloc free ⟨s0, []⟩ (ops.take k)).held := hsplit.2.1
  obtain ⟨l, _, _, _, hperm⟩ := hinv k
  have hn0 : n ≠ 0 := hnz n (hperm.subset (by simp [hheld]))
  have hrun : (pool_run alloc free ⟨s0, []⟩ (ops.take k ++ [PoolOp.release n])).state
      = free n (pool_run alloc free ⟨s0, []⟩ (ops.take k)).state := by
    simp [pool_run, List.foldl_append, pool_step]
  rw [hrun, P.alloc_ret _ (by rw [P.free_hd]; exact hn0), P.free_hd]

theorem seeded_poolInv (hd : EhciState → Nat) (s : EhciState) (pool : List Nat)
    (hpn : pool.Nodup) (h : IsFreeList s.mem (hd s) pool.reverse) :
    PoolInv s.mem (hd s) pool [] := by
  refine ⟨pool.reverse, h, List.nodup_reverse.mpr hpn, ?_, ?_⟩
  · intro n _ hn
    cases hn
  · simp

theorem qtd_pool_ne_zero (base n : Nat) (hb : base ≠ 0) : ∀ p ∈ qtd_pool base n, p ≠ 0 := by
  intro p hp
  obtain ⟨i, _, rfl⟩ := List.mem_map.mp hp
  exact g_qtdpool_ne_zero base hb i

theorem qh_pool_ne_zero (base n : Nat) (hb : base ≠ 0) : ∀ p ∈ qh_pool base n, p ≠ 0 := by
  intro p hp
  obtain ⟨i, _, rfl⟩ := List.mem_map.mp hp
  exact g_ghpool_ne_zero base hb i

theorem qtd_pool_length (base n : Nat) : (qtd_pool base n).reverse.length = n := by
  simp [qtd_pool]

theorem qh_pool_length (base n : Nat) : (qh_pool base n).reverse.length = n := by
  simp [qh_pool]

theorem qtd_drain (base N : Nat) (hb : base ≠ 0) (mem : Mem) (qhf : Nat) :
    (alloc_n sam_qtd_alloc N (seed_qtd base N ⟨mem, qhf, 0⟩)).1 = (qtd_pool base N).reverse ∧
      (alloc_n sam_qtd_alloc N (seed_qtd base N ⟨mem, qhf, 0⟩)).2.qtdfree = 0 := by
  have h := alloc_n_drains qtd_isPool (qtd_pool base N).reverse _
    (seed_qtd_inv base N hb ⟨mem, qhf, 0⟩ rfl)
    (List.nodup_reverse.mpr (qtd_pool_nodup base N))
    (spaced_of_perm _ _ _ (List.reverse_perm _) (qtd_pool_spaced base N))
  rw [qtd_pool_length] at h
  exact h

theorem qh_drain (base N : Nat) (hb : base ≠ 0) (mem : Mem) (qtdf : Nat) :
    (alloc_n sam_qh_alloc N (seed_qh base N ⟨mem, 0, qtdf⟩)).1 = (qh_pool base N).reverse ∧
      (alloc_n sam_qh_alloc N (seed_qh base N ⟨mem, 0, qtdf⟩)).2.qhfree = 0 := by
  have h := alloc_n_drains qh_isPool (qh_pool base N).reverse _
    (seed_qh_inv base N hb ⟨mem, 0, qtdf⟩ rfl)
    (List.nodup_reverse.mpr (qh_pool_nodup base N))
    (spaced_of_perm _ _ _ (List.reverse_perm _) (qh_pool_spaced base N))
  rw [qh_pool_length] at h
  exact h

/-! ## Claims about the allocators -/

/-- C1: for every pool size `N` (the pool array being at a non-NULL address), after the free
list is seeded as `sam_ehci_initialize` does, starting from an empty list, `N` consecutive
allocations return `N` non-NULL, pairwise distinct nodes (the pool elements, last seeded
first), and the next allocation returns NULL.  This holds for the qTD pool and for the QH
pool. -/
theorem pool_exhaustion (N base : Nat) (hb : base ≠ 0) (mem : Mem) (qhf qtdf : Nat) :
    ((alloc_n sam_qtd_alloc N (seed_qtd base N ⟨mem, qhf, 0⟩)).1.length = N ∧
      (∀ n ∈ (alloc_n sam_qtd_alloc N (seed_qtd base N ⟨mem, qhf, 0⟩)).1, n ≠ 0) ∧
      (alloc_n sam_qtd_alloc N (seed_qtd base N ⟨mem, qhf, 0⟩)).1.Nodup ∧
      (alloc_n sam_qtd_alloc N (seed_qtd base N ⟨mem, qhf, 0⟩)).1 = (qtd_pool base N).reverse ∧
      (sam_qtd_alloc (alloc_n sam_qtd_alloc N (seed_qtd base N ⟨mem, qhf, 0⟩)).2).1 = 0) ∧
    ((alloc_n sam_qh_alloc N (seed_qh base N ⟨mem, 0, qtdf⟩)).1.length = N ∧
      (∀ n ∈ (alloc_n sam_qh_alloc N (seed_qh base N ⟨mem, 0, qtdf⟩)).1, n ≠ 0) ∧
      (alloc_n sam_qh_alloc N (seed_qh base N ⟨mem, 0, qtdf⟩)).1.Nodup ∧
      (alloc_n sam_qh_alloc N (seed_qh base N ⟨mem, 0, qtdf⟩)).1 = (qh_pool base N).reverse ∧
      (sam_qh_alloc (alloc_n sam_qh_alloc N (seed_qh base N ⟨mem, 0, qtdf⟩)).2).1 = 0) := by
  obtain ⟨h1, h2⟩ := qtd_drain base N hb mem qhf
  obtain ⟨h3, h4⟩ := qh_drain base N hb mem qtdf
  refine ⟨⟨?_, ?_, ?_, h1, ?_⟩, ⟨?_, ?_, ?_, h3, ?_⟩⟩
  · rw [h1]; exact qtd_pool_length base N
  · rw [h1]; intro n hn; exact qtd_pool_ne_zero base N hb n (List.mem_reverse.mp hn)
  · rw [h1]; exact List.nodup_reverse.mpr (qtd_pool_nodup base N)
  · rw [qtd_isPool.alloc_null _ h2]
  · rw [h3]; exact qh_pool_length base N
  · rw [h3]; intro n hn; exact qh_pool_ne_zero base N hb n (List.mem_reverse.mp hn)
  · rw [h3]; exact List.nodup_reverse.mpr (qh_pool_nodup base N)
  · rw [qh_isPool.alloc_null _ h4]

/-- Witness for C1: a pool of three nodes at address 0x1000. -/
theorem pool_exhaustion_witness :
    (0x1000 : Nat) ≠ 0 ∧
      (alloc_n sam_qtd_alloc 3 (seed_qtd 0x1000 3 ⟨fun _ => 7, 0, 0⟩)).1 =
        [0x1040, 0x1020, 0x1000] ∧
      (sam_qtd_alloc (alloc_n sam_qtd_alloc 3 (seed_qtd 0x1000 3 ⟨fun _ => 7, 0, 0⟩)).2).1
        = 0 :=
  ⟨by decide,
    (pool_exhaustion 3 0x1000 (by decide) (fun _ => 7) 0 0).1.2.2.2.1.trans (by decide),
    (pool_exhaustion 3 0x1000 (by decide) (fun _ => 7) 0 0).1.2.2.2.2⟩

theorem release_alloc_generic {hd : EhciState → Nat} {alloc : EhciState → Nat × EhciState}
    {free : Nat → EhciState → EhciState} {z : Nat} (P : IsPool hd alloc free z)
    (s : EhciState) (n : Nat) (hn : n ≠ 0) :
    (alloc (free n s)).1 = n ∧ hd (alloc (free n s)).2 = hd s := by
  have h0 : hd (free n s) ≠ 0 := by rw [P.free_hd]; exact hn
  refine ⟨(P.alloc_ret _ h0).trans (P.free_hd n s), ?_⟩
  rw [P.alloc_hd _ h0, P.free_hd, P.free_mem, write_same]

/-- C2: for every state and every (non-NULL) node `n`, `sam_qtd_free(n)` immediately followed
by `sam_qtd_alloc()` returns exactly `n` and leaves the free-list head as it was before the
release; the same holds for `sam_qh_free` / `sam_qh_alloc`.  In particular, once a seeded
pool of three qTDs is fully allocated (the fourth allocation returns NULL), releasing any
of the three makes the next allocation return that node. -/
theorem release_then_alloc (s : EhciState) (n : Nat) (hn : n ≠ 0) :
    (sam_qtd_alloc (sam_qtd_free n s)).1 = n ∧
    (sam_qtd_alloc (sam_qtd_free n s)).2.qtdfree = s.qtdfree ∧
    (sam_qh_alloc (sam_qh_free n s)).1 = n ∧
    (sam_qh_alloc (sam_qh_free n s)).2.qhfree = s.qhfree ∧
    (∀ (base : Nat) (mem : Mem) (qhf : Nat), base ≠ 0 →
      (alloc_n sam_qtd_alloc 3 (seed_qtd base 3 ⟨mem, qhf, 0⟩)).1.length = 3 ∧
      (sam_qtd_alloc (alloc_n sam_qtd_alloc 3 (seed_qtd base 3 ⟨mem, qhf, 0⟩)).2).1 = 0 ∧
      ∀ x ∈ (alloc_n sam_qtd_alloc 3 (seed_qtd base 3 ⟨mem, qhf, 0⟩)).1,
        (sam_qtd_alloc
          (sam_qtd_free x (alloc_n sam_qtd_alloc 3 (seed_qtd base 3 ⟨mem, qhf, 0⟩)).2)).1
          = x) := by
  have h1 := release_alloc_generic qtd_isPool s n hn
  have h2 := release_alloc_generic qh_isPool s n hn
  refine ⟨h1.1, h1.2, h2.1, h2.2, ?_⟩
  intro base mem qhf hb
  obtain ⟨hd1, hd2⟩ := qtd_drain base 3 hb mem qhf
  refine ⟨?_, ?_, ?_⟩
  · rw [hd1]; exact qtd_pool_length base 3
  · rw [qtd_isPool.alloc_null _ hd2]
  · intro x hx
    rw [hd1] at hx
    have hx0 : x ≠ 0 := qtd_pool_ne_zero base 3 hb x (List.mem_reverse.mp hx)
    exact (release_alloc_generic qtd_isPool _ x hx0).1

/-- Witness for C2: release of the node at 0x1020 into a free list headed by 0x1000. -/
theorem release_then_alloc_witness :
    (0x1020 : Nat) ≠ 0 ∧
      (sam_qtd_alloc (sam_qtd_free 0x1020 ⟨fun _ => 0, 0, 0x1000⟩)).1 = 0x1020 ∧
      (sam_qtd_alloc (sam_qtd_free 0x1020 ⟨fun _ => 0, 0, 0x1000⟩)).2.qtdfree = 0x1000 :=
  ⟨by decide, (release_then_alloc ⟨fun _ => 0, 0, 0x1000⟩ 0x1020 (by decide)).1,
    (release_then_alloc ⟨fun _ => 0, 0, 0x1000⟩ 0x1020 (by decide)).2.1⟩

/-- C3: pool invariant.  On a seeded pool of `N` nodes (qTD pool or QH pool), for every
sequence of allocations and releases in which a release is only applied to a node that is
currently held, after every step (after the first `k` operations, for every `k`) the free
list has no node twice, no free node is held, and the free nodes together with the held
nodes are exactly the `N` pool nodes; an allocation made then does not return a held node;
and right after the release of a node the next allocation returns that node. -/
theorem pool_invariant (N base : Nat) (hb : base ≠ 0) (mem : Mem) (qhf qtdf : Nat)
    (ops : List PoolOp) :
    (ReleasesHeld sam_qtd_alloc sam_qtd_free ⟨seed_qtd base N ⟨mem, qhf, 0⟩, []⟩ ops →
      (∀ k : Nat,
        PoolInv
          (pool_run sam_qtd_alloc sam_qtd_free
            ⟨seed_qtd base N ⟨mem, qhf, 0⟩, []⟩ (ops.take k)).state.mem
          (pool_run sam_qtd_alloc sam_qtd_free
            ⟨seed_qtd base N ⟨mem, qhf, 0⟩, []⟩ (ops.take k)).state.qtdfree
          (qtd_pool base N)
          (pool_run sam_qtd_alloc sam_qtd_free
            ⟨seed_qtd base N ⟨mem, qhf, 0⟩, []⟩ (ops.take k)).held ∧
        (sam_qtd_alloc (pool_run sam_qtd_alloc sam_qtd_free
            ⟨seed_qtd base N ⟨mem, qhf, 0⟩, []⟩ (ops.take k)).state).1 ∉
          (pool_run sam_qtd_alloc sam_qtd_free
            ⟨seed_qtd base N ⟨mem, qhf, 0⟩, []⟩ (ops.take k)).held) ∧
      (∀ (k n : Nat), ops.get? k = some (PoolOp.release n) →
        (sam_qtd_alloc (pool_run sam_qtd_alloc sam_qtd_free
            ⟨seed_qtd base N ⟨mem, qhf, 0⟩, []⟩ (ops.take (k + 1))).state).1 = n)) ∧
    (ReleasesHeld sam_qh_alloc sam_qh_free ⟨seed_qh base N ⟨mem, 0, qtdf⟩, []⟩ ops →
      (∀ k : Nat,
        PoolInv
          (pool_run sam_qh_alloc sam_qh_free
            ⟨seed_qh base N ⟨mem, 0, qtdf⟩, []⟩ (ops.take k)).state.mem
          (pool_run sam_qh_alloc sam_qh_free
            ⟨seed_qh base N ⟨mem, 0, qtdf⟩, []⟩ (ops.take k)).state.qhfree
          (qh_pool base N)
          (pool_run sam_qh_alloc sam_qh_free
            ⟨seed_qh base N ⟨mem, 0, qtdf⟩, []⟩ (ops.take k)).held ∧
        (sam_qh_alloc (pool_run sam_qh_alloc sam_qh_free
            ⟨seed_qh base N ⟨mem, 0, qtdf⟩, []⟩ (ops.take k)).state).1 ∉
          (pool_run sam_qh_alloc sam_qh_free
            ⟨seed_qh base N ⟨mem, 0, qtdf⟩, []⟩ (ops.take k)).held) ∧
      (∀ (k n : Nat), ops.get? k = some (PoolOp.release n) →
        (sam_qh_alloc (pool_run sam_qh_alloc sam_qh_free
            ⟨seed_qh base N ⟨mem, 0, qtdf⟩, []⟩ (ops.take (k + 1))).state).1 = n)) := by
  constructor
  · intro hv
    exact pool_sound qtd_isPool (qtd_pool base N) (qtd_pool_spaced base N)
      (qtd_pool_ne_zero base N hb) (qtd_pool_nodup base N) _
      (seeded_poolInv (fun s => s.qtdfree) _ _ (qtd_pool_nodup base N)
        (seed_qtd_inv base N hb ⟨mem, qhf, 0⟩ rfl)) ops hv
  · intro hv
    exact pool_sound qh_isPool (qh_pool base N) (qh_pool_spaced base N)
      (qh_pool_ne_zero base N hb) (qh_pool_nodup base N) _
      (seeded_poolInv (fun s => s.qhfree) _ _ (qh_pool_nodup base N)
        (seed_qh_inv base N hb ⟨mem, 0, qtdf⟩ rfl)) ops hv

/-- Witness for C3: a pool of two qTDs at 0x1000; allocate both, release 0x1020,
allocate again. -/
theorem pool_invariant_witness :
    (0x1000 : Nat) ≠ 0 ∧
      ReleasesHeld sam_qtd_alloc sam_qtd_free ⟨seed_qtd 0x1000 2 ⟨fun _ => 0, 0, 0⟩, []⟩
        [PoolOp.alloc, PoolOp.alloc, PoolOp.release 0x1020, PoolOp.alloc] ∧
      (sam_qtd_alloc (pool_run sam_qtd_alloc sam_qtd_free
        ⟨seed_qtd 0x1000 2 ⟨fun _ => 0, 0, 0⟩, []⟩
        ([PoolOp.alloc, PoolOp.alloc, PoolOp.release 0x1020, PoolOp.alloc].take (2 + 1))).state).1
        = 0x1020 := by
  have hv : ReleasesHeld sam_qtd_alloc sam_qtd_free
      ⟨seed_qtd 0x1000 2 ⟨fun _ => 0, 0, 0⟩, []⟩
      [PoolOp.alloc, PoolOp.alloc, PoolOp.release 0x1020, PoolOp.alloc] := by
    simp [ReleasesHeld, pool_step, seed_qtd, sam_qtd_alloc, sam_qtd_free, g_qtdpool,
      List.range, List.range.loop, Mem.write, Mem.memset0, LIST_FLINK, SIZEOF_SAM_QTD,
      SIZEOF_EHCI_QTD, SIZEOF_SAM_LIST]
  exact ⟨by decide, hv,
    ((pool_invariant 2 0x1000 (by decide) (fun _ => 0) 0 0
      [PoolOp.alloc, PoolOp.alloc, PoolOp.release 0x1020, PoolOp.alloc]).1 hv).2 2 0x1020 rfl⟩

/-- C4 (evaluation at the failing input): the free qTD at 0x1000 still holds an alternate
pointer, a token and a buffer pointer from its earlier use.  `sam_qtd_alloc` returns it
with only its first word cleared (`memset` over `sizeof(struct sam_list_s)`); the other
hardware-visible fields keep their old, non-zero values.  Such a state is reached through
the allocator itself: a qTD that was allocated, given a token, released and allocated
again comes back with that token. -/
theorem qtd_alloc_keeps_stale_fields :
    (sam_qtd_alloc stale_qtd_state).1 = 0x1000 ∧
      (sam_qtd_alloc stale_qtd_state).2.mem (0x1000 + QTD_NQP) = 0 ∧
      (sam_qtd_alloc stale_qtd_state).2.mem (0x1000 + QTD_ALT) = 0x2001 ∧
      (sam_qtd_alloc stale_qtd_state).2.mem (0x1000 + QTD_TOKEN) = 0x80 ∧
      (sam_qtd_alloc stale_qtd_state).2.mem (0x1000 + QTD_BPL 0) = 0x3000 ∧
      reuse_qtd.1 = 0x1000 ∧
      reuse_qtd.2.mem (0x1000 + QTD_TOKEN) = 0x80 := by
  decide

/-- Supplement to C4: `sam_qtd_alloc` changes no word of the returned qTD other than the
first one, so every hardware-visible field past `nqp` is returned as it was. -/
theorem qtd_alloc_clears_first_word_only (s : EhciState) (off : Nat)
    (hoff : SIZEOF_SAM_LIST ≤ off) :
    (sam_qtd_alloc s).2.mem (s.qtdfree + off) = s.mem (s.qtdfree + off) := by
  simp only [sam_qtd_alloc]
  split
  · exact memset0_outside _ _ _ _ (by simp only [SIZEOF_SAM_LIST] at hoff ⊢; omega)
  · rfl

/-- C5: for every non-empty QH free list, whatever the contents of memory, `sam_qh_alloc`
returns the head node with every word of its `struct sam_qh_s` zero (horizontal link
pointer, endpoint characteristics, endpoint capabilities, current qTD pointer, the eight
overlay words and the sixteen padding words), and the free-list head becomes the former
second node (the `flink` of the former head). -/
theorem qh_alloc_zeroes (s : EhciState) (h : s.qhfree ≠ 0) :
    (sam_qh_alloc s).1 = s.qhfree ∧
    (∀ a, s.qhfree ≤ a → a < s.qhfree + SIZEOF_SAM_QH → (sam_qh_alloc s).2.mem a = 0) ∧
    (sam_qh_alloc s).2.mem ((sam_qh_alloc s).1 + QH_HLP) = 0 ∧
    (sam_qh_alloc s).2.mem ((sam_qh_alloc s).1 + QH_EPCHAR) = 0 ∧
    (sam_qh_alloc s).2.mem ((sam_qh_alloc s).1 + QH_EPCAPS) = 0 ∧
    (sam_qh_alloc s).2.mem ((sam_qh_alloc s).1 + QH_CQP) = 0 ∧
    (∀ i, i < 8 → (sam_qh_alloc s).2.mem ((sam_qh_alloc s).1 + QH_OVERLAY + 4 * i) = 0) ∧
    (∀ i, i < 16 → (sam_qh_alloc s).2.mem ((sam_qh_alloc s).1 + QH_PAD + 4 * i) = 0) ∧
    (sam_qh_alloc s).2.qhfree = s.mem (s.qhfree + LIST_FLINK) ∧
    (∀ q q2 rest, IsFreeList s.mem s.qhfree (q :: q2 :: rest) →
      (sam_qh_alloc s).1 = q ∧ (sam_qh_alloc s).2.qhfree = q2) := by
  have hall : ∀ a, s.qhfree ≤ a → a < s.qhfree + SIZEOF_SAM_QH →
      (sam_qh_alloc s).2.mem a = 0 := by
    intro a h1 h2
    simp only [sam_qh_alloc]
    rw [if_pos h]
    exact memset0_inside _ _ _ _ h1 h2
  have hret : (sam_qh_alloc s).1 = s.qhfree := by
    simp only [sam_qh_alloc]; split <;> rfl
  have hhead : (sam_qh_alloc s).2.qhfree = s.mem (s.qhfree + LIST_FLINK) := by
    simp only [sam_qh_alloc]; rw [if_pos h]
  refine ⟨hret, hall, ?_, ?_, ?_, ?_, ?_, ?_, hhead, ?_⟩
  · exact hall _ (by rw [hret]; omega)
      (by rw [hret]; simp only [QH_HLP, SIZEOF_SAM_QH, SIZEOF_EHCI_QH]; omega)
  · exact hall _ (by rw [hret]; omega)
      (by rw [hret]; simp only [QH_EPCHAR, SIZEOF_SAM_QH, SIZEOF_EHCI_QH]; omega)
  · exact hall _ (by rw [hret]; omega)
      (by rw [hret]; simp only [QH_EPCAPS, SIZEOF_SAM_QH, SIZEOF_EHCI_QH]; omega)
  · exact hall _ (by rw [hret]; omega)
      (by rw [hret]; simp only [QH_CQP, SIZEOF_SAM_QH, SIZEOF_EHCI_QH]; omega)
  · intro i hi
    exact hall _ (by rw [hret]; omega)
      (by rw [hret]; simp only [QH_OVERLAY, SIZEOF_SAM_QH, SIZEOF_EHCI_QH]; omega)
  · intro i hi
    exact hall _ (by rw [hret]; omega)
      (by rw [hret]; simp only [QH_PAD, SIZEOF_SAM_QH, SIZEOF_EHCI_QH]; omega)
  · intro q q2 rest hl
    obtain ⟨hq, _, hq2, _, _⟩ := hl
    refine ⟨hret.trans hq, ?_⟩
    rw [hhead, hq]
    exact hq2

/-- Witness for C5: a free list 0x2000 -> 0x2070 whose head node is full of stale data. -/
theorem qh_alloc_zeroes_witness :
    (0x2000 : Nat) ≠ 0 ∧
      (sam_qh_alloc ⟨fun a => if a = 0x2000 then 0x2070 else 0xdeadbeef, 0x2000, 0⟩).1
        = 0x2000 ∧
      (sam_qh_alloc ⟨fun a => if a = 0x2000 then 0x2070 else 0xdeadbeef, 0x2000, 0⟩).2.mem
        (0x2000 + QH_EPCHAR) = 0 ∧
      (sam_qh_alloc ⟨fun a => if a = 0x2000 then 0x2070 else 0xdeadbeef, 0x2000, 0⟩).2.qhfree
        = 0x2070 :=
  ⟨by decide,
    (qh_alloc_zeroes ⟨fun a => if a = 0x2000 then 0x2070 else 0xdeadbeef, 0x2000, 0⟩
      (by decide)).1,
    (qh_alloc_zeroes ⟨fun a => if a = 0x2000 then 0x2070 else 0xdeadbeef, 0x2000, 0⟩
      (by decide)).2.2.2.1,
    ((qh_alloc_zeroes ⟨fun a => if a = 0x2000 then 0x2070 else 0xdeadbeef, 0x2000, 0⟩
      (by decide)).2.2.2.2.2.2.2.2.1).trans (by decide)⟩

/-! ## List traversal lemmas -/

theorem sam_qh_foreach_eq (virt : Nat → Nat) (handler : Option foreach_t) (arg : Nat) :
    ∀ (fuel qh bp : Nat) (s : EhciState),
      sam_qh_foreach virt handler arg fuel qh bp s =
        foreach_loop (qh_next virt) handler arg fuel qh bp s := by
  intro fuel
  induction fuel with
  | zero => intro qh bp s; rfl
  | succ f ih =>
    intro qh bp s
    simp only [sam_qh_foreach, foreach_loop]
    split
    · rfl
    · cases handler with
      | none => rfl
      | some h =>
        simp only []
        split
        · rfl
        · rw [ih]

theorem sam_qtd_foreach_loop_eq (virt : Nat → Nat) (handler : Option foreach_t) (arg : Nat) :
    ∀ (fuel qtd bp : Nat) (s : EhciState),
      sam_qtd_foreach_loop virt handler arg fuel qtd bp s =
        foreach_loop (qtd_next virt) handler arg fuel qtd bp s := by
  intro fuel
  induction fuel with
  | zero => intro qtd bp s; rfl
  | succ f ih =>
    intro qtd bp s
    simp only [sam_qtd_foreach_loop, foreach_loop]
    split
    · rfl
    · cases handler with
      | none => rfl
      | some h =>
        simp only []
        split
        · rfl
        · rw [ih]

theorem foreach_loop_null (next : Mem → Nat → Nat) (handler : Option foreach_t)
    (arg fuel bp : Nat) (s : EhciState) :
    foreach_loop next handler arg fuel 0 bp s = .ok ⟨OK, s, []⟩ := by
  cases fuel <;> simp [foreach_loop]

theorem qhChain_linkChain (virt : Nat → Nat) (mem : Mem) (l : List Nat) :
    QhChain virt mem l → LinkChain (qh_next virt) mem l := by
  induction l with
  | nil => intro h; exact h
  | cons q rest ih =>
    cases rest with
    | nil =>
      intro h
      exact ⟨h.1, by simp only [qh_next]; rw [if_pos h.2]⟩
    | cons q2 rest2 =>
      intro h
      obtain ⟨h1, h2, h3, h4⟩ := h
      refine ⟨h1, ?_, ih h4⟩
      simp only [qh_next]
      rw [if_neg (by simp [h2])]
      exact h3

theorem qtdChain_linkChain (virt : Nat → Nat) (mem : Mem) (l : List Nat) :
    QtdChain virt mem l → LinkChain (qtd_next virt) mem l := by
  induction l with
  | nil => intro h; exact h
  | cons q rest ih =>
    cases rest with
    | nil =>
      intro h
      exact ⟨h.1, by simp only [qtd_next]; rw [if_pos h.2]⟩
    | cons q2 rest2 =>
      intro h
      obtain ⟨h1, h2, h3, h4⟩ := h
      refine ⟨h1, ?_, ih h4⟩
      simp only [qtd_next]
      rw [if_neg (by simp [h2])]
      exact h3

theorem linkChain_congr (next : Mem → Nat → Nat) (m1 m2 : Mem) (l : List Nat)
    (hm : ∀ q ∈ l, next m2 q = next m1 q) : LinkChain next m1 l → LinkChain next m2 l := by
  induction l with
  | nil => intro h; exact h
  | cons q rest ih =>
    cases rest with
    | nil =>
      intro h
      exact ⟨h.1, (hm q (List.mem_cons_self q [])).trans h.2⟩
    | cons q2 rest2 =>
      intro h
      obtain ⟨h1, h2, h3⟩ := h
      exact ⟨h1, (hm q (List.mem_cons_self q _)).trans h2,
        ih (fun x hx => hm x (List.mem_cons_of_mem q hx)) h3⟩

theorem linkChain_head_ne_zero (next : Mem → Nat → Nat) (m : Mem) (q : Nat) (rest : List Nat)
    (h : LinkChain next m (q :: rest)) : q ≠ 0 := by
  cases rest with
  | nil => exact h.1
  | cons q2 r => exact h.1

/-- All callouts return zero: the loop visits the whole chain and returns `OK`. -/
theorem foreach_loop_all (next : Mem → Nat → Nat) (off : Nat)
    (hnext : ∀ (m1 m2 : Mem) (q : Nat), m2 (q + off) = m1 (q + off) → next m2 q = next m1 q)
    (h : foreach_t) (arg : Nat) (rest : List Nat) :
    ∀ (q bp fuel : Nat) (s : EhciState),
      LinkChain next s.mem (q :: rest) →
      (∀ x ∈ q :: rest, ∀ (b : Nat) (t : EhciState), (h x b arg t).ret = 0) →
      KeepsLaterLinks h arg off (q :: rest) →
      (q :: rest).length ≤ fuel →
      observed (foreach_loop next (some h) arg fuel q bp s) = some (0, q :: rest) := by
  induction rest with
  | nil =>
    intro q bp fuel s hc hret _ hfuel
    cases fuel with
    | zero => simp at hfuel
    | succ f =>
      have hq0 : q ≠ 0 := hc.1
      have hn : next s.mem q = 0 := hc.2
      have hr := hret q (List.mem_cons_self q []) bp s
      simp only [foreach_loop]
      rw [if_neg hq0, if_neg (by simp [hr]), hn, foreach_loop_null]
      simp [observed, hr, OK]
  | cons q2 rest2 ih =>
    intro q bp fuel s hc hret hkeep hfuel
    cases fuel with
    | zero => simp at hfuel
    | succ f =>
      obtain ⟨hq0, hn, hc2⟩ := hc
      have hr := hret q (List.mem_cons_self q _) bp s
      have hc3 : LinkChain next (h q bp arg s).state.mem (q2 :: rest2) :=
        linkChain_congr next s.mem _ _
          (fun x hx => hnext _ _ x (hkeep.1 x hx bp s)) hc2
      have hrec := ih q2 (h q bp arg s).bp f (h q bp arg s).state hc3
        (fun x hx => hret x (List.mem_cons_of_mem q hx)) hkeep.2
        (by simp only [List.length_cons] at hfuel ⊢; omega)
      simp only [foreach_loop]
      rw [if_neg hq0, if_neg (by simp [hr]), hn]
      revert hrec
      cases foreach_loop next (some h) arg f q2 (h q bp arg s).bp (h q bp arg s).state with
      | error e => intro hrec; simp [observed] at hrec
      | ok res =>
        intro hrec
        simp only [observed, Option.some.injEq, Prod.mk.injEq] at hrec ⊢
        exact ⟨hrec.1, by rw [hrec.2]⟩

/-- The callout returns zero on the first `i - 1` nodes and `r`, non-zero, on the `i`-th:
the loop visits exactly the first `i` nodes and returns `r`. -/
theorem foreach_loop_abort (next : Mem → Nat → Nat) (off : Nat)
    (hnext : ∀ (m1 m2 : Mem) (q : Nat), m2 (q + off) = m1 (q + off) → next m2 q = next m1 q)
    (h : foreach_t) (arg : Nat) (r : Int) (hr0 : r ≠ 0) (rest : List Nat) :
    ∀ (q bp fuel i : Nat) (s : EhciState),
      LinkChain next s.mem (q :: rest) →
      1 ≤ i → i ≤ (q :: rest).length →
      (∀ x ∈ (q :: rest).take (i - 1), ∀ (b : Nat) (t : EhciState), (h x b arg t).ret = 0) →
      (∀ x, (q :: rest).get? (i - 1) = some x →
        ∀ (b : Nat) (t : EhciState), (h x b arg t).ret = r) →
      KeepsLaterLinks h arg off (q :: rest) →
      i ≤ fuel →
      observed (foreach_loop next (some h) arg fuel q bp s) = some (r, (q :: rest).take i) := by
  induction rest with
  | nil =>
    intro q bp fuel i s hc hi1 hik _ hretr _ hfuel
    have hi : i = 1 := by simp only [List.length_cons, List.length_nil] at hik; omega
    subst hi
    cases fuel with
    | zero => simp at hfuel
    | succ f =>
      have hq0 : q ≠ 0 := hc.1
      have hr := hretr q rfl bp s
      simp only [foreach_loop]
      rw [if_neg hq0, if_pos (by rw [hr]; exact hr0)]
      simp [observed, hr]
  | cons q2 rest2 ih =>
    intro q bp fuel i s hc hi1 hik hret0 hretr hkeep hfuel
    cases fuel with
    | zero => omega
    | succ f =>
      obtain ⟨hq0, hn, hc2⟩ := hc
      cases i with
      | zero => omega
      | succ j =>
        cases j with
        | zero =>
          have hr := hretr q rfl bp s
          simp only [foreach_loop]
          rw [if_neg hq0, if_pos (by rw [hr]; exact hr0)]
          simp [observed, hr]
        | succ j =>
          have hr := hret0 q (by simp) bp s
          have hc3 : LinkChain next (h q bp arg s).state.mem (q2 :: rest2) :=
            linkChain_congr next s.mem _ _
              (fun x hx => hnext _ _ x (hkeep.1 x hx bp s)) hc2
          have hrec := ih q2 (h q bp arg s).bp f (j + 1) (h q bp arg s).state hc3
            (by omega) (by simp only [List.length_cons] at hik ⊢; omega)
            (fun x hx => hret0 x (by
              simp only [Nat.add_sub_cancel, List.take_succ_cons] at hx ⊢
              exact List.mem_cons_of_mem q hx))
            (fun x hx => hretr x (by
              simp only [Nat.add_sub_cancel] at hx ⊢
              simpa using hx))
            hkeep.2 (by omega)
          simp only [foreach_loop]
          rw [if_neg hq0, if_neg (by simp [hr]), hn]
          revert hrec
          cases foreach_loop next (some h) arg f q2 (h q bp arg s).bp (h q bp arg s).state with
          | error e => intro hrec; simp [observed] at hrec
          | ok res =>
            intro hrec
            simp only [observed, Option.some.injEq, Prod.mk.injEq] at hrec ⊢
            exact ⟨hrec.1, by rw [hrec.2]; rfl⟩

theorem qh_next_congr (virt : Nat → Nat) (m1 m2 : Mem) (q : Nat)
    (h : m2 (q + QH_HLP) = m1 (q + QH_HLP)) : qh_next virt m2 q = qh_next virt m1 q := by
  simp only [qh_next, h]

theorem qtd_next_congr (virt : Nat → Nat) (m1 m2 : Mem) (q : Nat)
    (h : m2 (q + QTD_NQP) = m1 (q + QTD_NQP)) : qtd_next virt m2 q = qtd_next virt m1 q := by
  simp only [qtd_next, h]

theorem keepsLater_of_modifiesOnly (h : foreach_t) (arg size : Nat) (hsize : 0 < size)
    (hmod : ModifiesOnlyNode h arg size) (l : List Nat) :
    l.Pairwise (Apart size) → KeepsLaterLinks h arg 0 l := by
  induction l with
  | nil => intro _; trivial
  | cons q rest ih =>
    intro hp
    obtain ⟨hq, hrest⟩ := List.pairwise_cons.mp hp
    refine ⟨?_, ih hrest⟩
    intro q2 hq2 bp s
    refine hmod q bp s (q2 + 0) ?_
    have := hq q2 hq2
    simp only [Apart] at this
    omega

theorem nodup_of_apart (size : Nat) (hsize : 0 < size) (l : List Nat) :
    l.Pairwise (Apart size) → l.Nodup := by
  intro hp
  refine List.Pairwise.imp ?_ hp
  intro a b hab
  simp only [Apart] at hab
  omega

theorem qh_foreach_all (virt : Nat → Nat) (h : foreach_t) (arg q : Nat) (rest : List Nat)
    (bp fuel : Nat) (s : EhciState)
    (hchain : QhChain virt s.mem (q :: rest))
    (hret : ∀ (x b : Nat) (t : EhciState), (h x b arg t).ret = 0)
    (hkeep : KeepsLaterLinks h arg QH_HLP (q :: rest))
    (hfuel : (q :: rest).length ≤ fuel) :
    observed (sam_qh_foreach virt (some h) arg fuel q bp s) = some (OK, q :: rest) := by
  rw [sam_qh_foreach_eq]
  exact foreach_loop_all (qh_next virt) QH_HLP (qh_next_congr virt) h arg rest q bp fuel s
    (qhChain_linkChain virt s.mem _ hchain) (fun x _ b t => hret x b t) hkeep hfuel

theorem qtd_foreach_all (virt : Nat → Nat) (h : foreach_t) (arg qh : Nat) (ts : List Nat)
    (fuel : Nat) (s : EhciState)
    (hq : QhQueue virt s.mem qh ts)
    (hret : ∀ (x b : Nat) (t : EhciState), (h x b arg t).ret = 0)
    (hkeep : KeepsLaterLinks h arg QTD_NQP ts)
    (hfuel : ts.length ≤ fuel) :
    observed (sam_qtd_foreach virt fuel qh (some h) arg s) = some (OK, ts) := by
  cases ts with
  | nil =>
    have hT : s.mem (qh + QH_OVERLAY) &&& QH_NQP_T ≠ 0 := hq
    simp only [sam_qtd_foreach]
    rw [if_pos hT]
    rfl
  | cons t rest =>
    obtain ⟨hT, hfirst, hchain⟩ := hq
    simp only [sam_qtd_foreach]
    rw [if_neg (by simp [hT]), hfirst, sam_qtd_foreach_loop_eq]
    exact foreach_loop_all (qtd_next virt) QTD_NQP (qtd_next_congr virt) h arg rest t _ fuel s
      (qtdChain_linkChain virt s.mem _ hchain) (fun x _ b u => hret x b u) hkeep hfuel

/-! ## Claims about the list traversal -/

/-- C6 (counterexample): the QHs 0x100, 0x200, 0x300 form a chain of three, and the
handler always returns 0; but called on the first QH it sets the terminate bit of the
second one, so `sam_qh_foreach` invokes it on two QHs only, not on all three. -/
theorem qh_foreach_cut_short :
    QhChain id three_qh_mem [0x100, 0x200, 0x300] ∧
      (∀ (q bp arg : Nat) (s : EhciState), (cut_list_at_arg q bp arg s).ret = 0) ∧
      observed (sam_qh_foreach id (some cut_list_at_arg) 0x200 10 0x100 0
        ⟨three_qh_mem, 0, 0⟩) = some (0, [0x100, 0x200]) ∧
      observed (sam_qh_foreach id (some cut_list_at_arg) 0x200 10 0x100 0
        ⟨three_qh_mem, 0, 0⟩) ≠ some (OK, [0x100, 0x200, 0x300]) := by
  refine ⟨by decide, fun _ _ _ _ => rfl, by decide, by decide⟩

/-- C6 (amended): for every chain of `k >= 1` QHs linked through their horizontal link
pointers, the last one having the terminate bit set, and every handler that always
returns 0 and that, called on a QH, leaves the horizontal link word of every later QH of
the chain unchanged: `sam_qh_foreach` started at the first QH (with at least `k` loop
iterations allowed) invokes the handler exactly on the `k` QHs, once each, in link order,
and returns OK. -/
theorem qh_foreach_visits_chain (virt : Nat → Nat) (h : foreach_t) (arg q : Nat)
    (rest : List Nat) (bp fuel : Nat) (s : EhciState)
    (hchain : QhChain virt s.mem (q :: rest))
    (hret : ∀ (x b a : Nat) (t : EhciState), (h x b a t).ret = 0)
    (hkeep : KeepsLaterLinks h arg QH_HLP (q :: rest))
    (hfuel : (q :: rest).length ≤ fuel) :
    observed (sam_qh_foreach virt (some h) arg fuel q bp s) = some (OK, q :: rest) :=
  qh_foreach_all virt h arg q rest bp fuel s hchain (fun x b t => hret x b arg t) hkeep hfuel

/-- Witness for C6 (amended): the three-QH chain traversed with a handler that unlinks the
QH it is passed. -/
theorem qh_foreach_visits_chain_witness :
    QhChain id three_qh_mem [0x100, 0x200, 0x300] ∧
      (∀ (x b a : Nat) (t : EhciState), (unlink_self x b a t).ret = 0) ∧
      KeepsLaterLinks unlink_self 0 QH_HLP [0x100, 0x200, 0x300] ∧
      observed (sam_qh_foreach id (some unlink_self) 0 3 0x100 0 ⟨three_qh_mem, 0, 0⟩)
        = some (OK, [0x100, 0x200, 0x300]) := by
  have hk : KeepsLaterLinks unlink_self 0 QH_HLP [0x100, 0x200, 0x300] := by
    simp [KeepsLaterLinks, unlink_self, Mem.write, QH_HLP]
  exact ⟨by decide, fun _ _ _ _ => rfl, hk,
    qh_foreach_visits_chain id unlink_self 0 0x100 [0x200, 0x300] 0 3 ⟨three_qh_mem, 0, 0⟩
      (by decide) (fun _ _ _ _ => rfl) hk (by decide)⟩

/-- C7 (counterexample): the queue of the QH at 0x400 is the chain of qTDs 0x100, 0x120,
0x140; the handler returns 0 on the first two and -5 on the third.  Called on the first
qTD it sets the terminate bit of the second one, so `sam_qtd_foreach` invokes it twice
only and returns 0, not -5. -/
theorem qtd_foreach_abort_missed :
    QhQueue id three_qtd_mem 0x400 [0x100, 0x120, 0x140] ∧
      (∀ (bp arg : Nat) (s : EhciState), (cut_queue_or_fail 0x100 bp arg s).ret = 0) ∧
      (∀ (bp arg : Nat) (s : EhciState), (cut_queue_or_fail 0x120 bp arg s).ret = 0) ∧
      (∀ (bp arg : Nat) (s : EhciState), (cut_queue_or_fail 0x140 bp arg s).ret = -5) ∧
      observed (sam_qtd_foreach id 10 0x400 (some cut_queue_or_fail) 0x120
        ⟨three_qtd_mem, 0, 0⟩) = some (0, [0x100, 0x120]) ∧
      observed (sam_qtd_foreach id 10 0x400 (some cut_queue_or_fail) 0x120
        ⟨three_qtd_mem, 0, 0⟩) ≠ some (-5, [0x100, 0x120, 0x140]) := by
  refine ⟨by decide, fun _ _ _ => rfl, fun _ _ _ => rfl, fun _ _ _ => rfl,
    by decide, by decide⟩

/-- C7 (amended): for each of `sam_qh_foreach` and `sam_qtd_foreach`, for every chain of
`k` nodes and every handler that returns 0 on the first `i - 1` nodes and a non-zero
status `r` on the `i`-th node (`1 <= i <= k`) and that, called on a node, leaves the link
word of every later node of the chain unchanged: the handler is invoked exactly on the
first `i` nodes (never on a node after the `i`-th) and the traversal returns exactly `r`. -/
theorem foreach_abort_propagates (virt : Nat → Nat) (h : foreach_t) (arg : Nat) (r : Int)
    (hr0 : r ≠ 0) (i : Nat) (hi : 1 ≤ i) :
    (∀ (q : Nat) (rest : List Nat) (bp fuel : Nat) (s : EhciState),
      QhChain virt s.mem (q :: rest) →
      i ≤ (q :: rest).length →
      (∀ x ∈ (q :: rest).take (i - 1), ∀ (b : Nat) (t : EhciState), (h x b arg t).ret = 0) →
      (∀ x, (q :: rest).get? (i - 1) = some x →
        ∀ (b : Nat) (t : EhciState), (h x b arg t).ret = r) →
      KeepsLaterLinks h arg QH_HLP (q :: rest) →
      i ≤ fuel →
      observed (sam_qh_foreach virt (some h) arg fuel q bp s) = some (r, (q :: rest).take i) ∧
        ((q :: rest).take i).length = i) ∧
    (∀ (qh : Nat) (ts : List Nat) (fuel : Nat) (s : EhciState),
      QhQueue virt s.mem qh ts →
      i ≤ ts.length →
      (∀ x ∈ ts.take (i - 1), ∀ (b : Nat) (t : EhciState), (h x b arg t).ret = 0) →
      (∀ x, ts.get? (i - 1) = some x →
        ∀ (b : Nat) (t : EhciState), (h x b arg t).ret = r) →
      KeepsLaterLinks h arg QTD_NQP ts →
      i ≤ fuel →
      observed (sam_qtd_foreach virt fuel qh (some h) arg s) = some (r, ts.take i) ∧
        (ts.take i).length = i) := by
  constructor
  · intro q rest bp fuel s hchain hik hret0 hretr hkeep hfuel
    refine ⟨?_, by rw [List.length_take]; omega⟩
    rw [sam_qh_foreach_eq]
    exact foreach_loop_abort (qh_next virt) QH_HLP (qh_next_congr virt) h arg r hr0 rest
      q bp fuel i s (qhChain_linkChain virt s.mem _ hchain) hi hik hret0 hretr hkeep hfuel
  · intro qh ts fuel s hq hik hret0 hretr hkeep hfuel
    refine ⟨?_, by rw [List.length_take]; omega⟩
    cases ts with
    | nil => simp only [List.length_nil] at hik; omega
    | cons t rest =>
      obtain ⟨hT, hfirst, hchain⟩ := hq
      simp only [sam_qtd_foreach]
      rw [if_neg (by simp [hT]), hfirst, sam_qtd_foreach_loop_eq]
      exact foreach_loop_abort (qtd_next virt) QTD_NQP (qtd_next_congr virt) h arg r hr0 rest
        t _ fuel i s (qtdChain_linkChain virt s.mem _ hchain) hi hik hret0 hretr hkeep hfuel

/-- Witness for C7 (amended): the three-qTD queue traversed with a handler that fails on
the second qTD. -/
theorem foreach_abort_propagates_witness :
    (-5 : Int) ≠ 0 ∧ 1 ≤ 2 ∧
      QhQueue id three_qtd_mem 0x400 [0x100, 0x120, 0x140] ∧
      observed (sam_qtd_foreach id 5 0x400 (some fail_at_arg) 0x120 ⟨three_qtd_mem, 0, 0⟩)
        = some (-5, [0x100, 0x120]) := by
  refine ⟨by decide, by decide, by decide, ?_⟩
  exact ((foreach_abort_propagates id fail_at_arg 0x120 (-5) (by decide) 2 (by decide)).2
    0x400 [0x100, 0x120, 0x140] 5 ⟨three_qtd_mem, 0, 0⟩ (by decide) (by decide)
    (by
      intro x hx b t
      have hx1 : x = 0x100 := by simpa using hx
      subst hx1
      rfl)
    (by
      intro x hx b t
      have hx1 : x = 0x120 := by simpa using hx.symm
      subst hx1
      rfl)
    (by simp [KeepsLaterLinks, fail_at_arg])
    (by decide)).1

/-- C8: for every QH whose overlay next-qTD pointer has the terminate bit set and every
handler (a NULL one included), `sam_qtd_foreach` returns 0 without invoking the handler
and without modifying anything: the state on return is the state on entry. -/
theorem qtd_foreach_empty_queue (virt : Nat → Nat) (fuel qh : Nat) (handler : Option foreach_t)
    (arg : Nat) (s : EhciState) (hT : s.mem (qh + QH_OVERLAY) &&& QH_NQP_T ≠ 0) :
    sam_qtd_foreach virt fuel qh handler arg s = .ok ⟨0, s, []⟩ := by
  simp only [sam_qtd_foreach]
  rw [if_pos hT]

/-- Witness for C8: a QH at 0x400 whose overlay next-qTD pointer is 1 (terminate). -/
theorem qtd_foreach_empty_queue_witness :
    (fun a => if a = 0x410 then 1 else 0 : Mem) (0x400 + QH_OVERLAY) &&& QH_NQP_T ≠ 0 ∧
      observed (sam_qtd_foreach id 0 0x400 (some unlink_self) 0
        ⟨fun a => if a = 0x410 then 1 else 0, 0, 0⟩) = some (0, []) :=
  ⟨by decide,
    congrArg observed (qtd_foreach_empty_queue id 0 0x400 (some unlink_self) 0
      ⟨fun a => if a = 0x410 then 1 else 0, 0, 0⟩ (by decide))⟩

/-- C9: for every chain of `k` nodes (distinct, non-overlapping structures) and every
handler that returns 0 and changes no memory outside the node it is passed (it may
overwrite that node's own link word and terminate bit): `sam_qh_foreach` and
`sam_qtd_foreach` invoke the handler on all `k` originally linked nodes, each exactly once,
in the original link order, and return OK. -/
theorem foreach_handler_may_modify_node (virt : Nat → Nat) (h : foreach_t) (arg : Nat)
    (hret : ∀ (x b : Nat) (t : EhciState), (h x b arg t).ret = 0) :
    (ModifiesOnlyNode h arg SIZEOF_SAM_QH →
      ∀ (q : Nat) (rest : List Nat) (bp fuel : Nat) (s : EhciState),
        QhChain virt s.mem (q :: rest) →
        (q :: rest).Pairwise (Apart SIZEOF_SAM_QH) →
        (q :: rest).length ≤ fuel →
        observed (sam_qh_foreach virt (some h) arg fuel q bp s) = some (OK, q :: rest) ∧
          (q :: rest).Nodup) ∧
    (ModifiesOnlyNode h arg SIZEOF_SAM_QTD →
      ∀ (qh : Nat) (ts : List Nat) (fuel : Nat) (s : EhciState),
        QhQueue virt s.mem qh ts →
        ts.Pairwise (Apart SIZEOF_SAM_QTD) →
        ts.length ≤ fuel →
        observed (sam_qtd_foreach virt fuel qh (some h) arg s) = some (OK, ts) ∧
          ts.Nodup) := by
  constructor
  · intro hmod q rest bp fuel s hchain hap hfuel
    exact ⟨qh_foreach_all virt h arg q rest bp fuel s hchain hret
      (keepsLater_of_modifiesOnly h arg SIZEOF_SAM_QH (by decide) hmod _ hap) hfuel,
      nodup_of_apart SIZEOF_SAM_QH (by decide) _ hap⟩
  · intro hmod qh ts fuel s hq hap hfuel
    exact ⟨qtd_foreach_all virt h arg qh ts fuel s hq hret
      (keepsLater_of_modifiesOnly h arg SIZEOF_SAM_QTD (by decide) hmod _ hap) hfuel,
      nodup_of_apart SIZEOF_SAM_QTD (by decide) _ hap⟩

/-- Witness for C9: the three-QH chain traversed with a handler that sets the terminate
bit of the QH it is passed. -/
theorem foreach_handler_may_modify_node_witness :
    (∀ (x b : Nat) (t : EhciState), (unlink_self x b 0 t).ret = 0) ∧
      ModifiesOnlyNode unlink_self 0 SIZEOF_SAM_QH ∧
      QhChain id three_qh_mem [0x100, 0x200, 0x300] ∧
      [0x100, 0x200, 0x300].Pairwise (Apart SIZEOF_SAM_QH) ∧
      observed (sam_qh_foreach id (some unlink_self) 0 3 0x100 0 ⟨three_qh_mem, 0, 0⟩)
        = some (OK, [0x100, 0x200, 0x300]) := by
  have hmod : ModifiesOnlyNode unlink_self 0 SIZEOF_SAM_QH := by
    intro q bp s a ha
    refine write_other _ _ _ _ ?_
    simp only [QH_HLP, SIZEOF_SAM_QH, SIZEOF_EHCI_QH] at ha ⊢
    omega
  have hap : [0x100, 0x200, 0x300].Pairwise (Apart SIZEOF_SAM_QH) := by
    simp [Apart, SIZEOF_SAM_QH, SIZEOF_EHCI_QH]
  exact ⟨fun _ _ _ => rfl, hmod, by decide, hap,
    ((foreach_handler_may_modify_node id unlink_self 0 (fun _ _ _ => rfl)).1 hmod
      0x100 [0x200, 0x300] 0 3 ⟨three_qh_mem, 0, 0⟩ (by decide) hap (by decide)).1⟩

/-! ## Discarding a queue -/

theorem sam_qtd_discard_ret (t bp a : Nat) (s : EhciState) :
    (sam_qtd_discard t bp a s).ret = 0 := rfl

theorem sam_qtd_discard_bp (t bp a : Nat) (s : EhciState) :
    (sam_qtd_discard t bp a s).bp = bp := rfl

theorem sam_qtd_discard_qtdfree (t bp a : Nat) (s : EhciState) :
    (sam_qtd_discard t bp a s).state.qtdfree = t := rfl

theorem sam_qtd_discard_qhfree (t bp a : Nat) (s : EhciState) :
    (sam_qtd_discard t bp a s).state.qhfree = s.qhfree := rfl

theorem sam_qtd_discard_flink (t bp a : Nat) (s : EhciState) :
    (sam_qtd_discard t bp a s).state.mem (t + LIST_FLINK) = s.qtdfree := by
  simp [sam_qtd_discard, sam_qtd_free, Mem.write]

theorem sam_qtd_discard_other (t bp a : Nat) (s : EhciState) (x : Nat) (h1 : x ≠ t)
    (h2 : x ≠ bp) : (sam_qtd_discard t bp a s).state.mem x = s.mem x := by
  simp [sam_qtd_discard, sam_qtd_free, Mem.write, LIST_FLINK, h1, h2]

/-- The loop of `sam_qtd_foreach` run with `sam_qtd_discard` pushes every qTD of the chain
on the qTD free list and changes only the qTDs and the word the back pointer refers to. -/
theorem discard_loop (virt : Nat → Nat) (rest : List Nat) :
    ∀ (t bp fuel : Nat) (s : EhciState) (L : List Nat),
      LinkChain (qtd_next virt) s.mem (t :: rest) →
      IsFreeList s.mem s.qtdfree L →
      (bp :: ((t :: rest) ++ L)).Nodup →
      (t :: rest).length ≤ fuel →
      ∃ s2 : EhciState,
        foreach_loop (qtd_next virt) (some sam_qtd_discard) 0 fuel t bp s
          = .ok ⟨OK, s2, t :: rest⟩ ∧
        IsFreeList s2.mem s2.qtdfree ((t :: rest).reverse ++ L) ∧
        s2.qhfree = s.qhfree ∧
        ∀ a, a ≠ bp → a ∉ t :: rest → s2.mem a = s.mem a := by
  induction rest with
  | nil =>
    intro t bp fuel s L hc hL hnd hfuel
    cases fuel with
    | zero => simp at hfuel
    | succ f =>
      have ht0 : t ≠ 0 := hc.1
      have hn : qtd_next virt s.mem t = 0 := hc.2
      have hnd2 : bp ∉ t :: L ∧ t ∉ L ∧ L.Nodup := by
        simpa [List.nodup_cons] using hnd
      refine ⟨(sam_qtd_discard t bp 0 s).state, ?_, ?_, rfl, ?_⟩
      · simp only [foreach_loop]
        rw [if_neg ht0, if_neg (by simp [sam_qtd_discard_ret]), hn, foreach_loop_null]
      · refine ⟨rfl, ht0, ?_⟩
        rw [sam_qtd_discard_flink]
        refine isFreeList_congr s.mem _ L _ ?_ hL
        intro n hn
        refine sam_qtd_discard_other t bp 0 s _ ?_ ?_
        · intro h
          have h2 : n = t := by simpa [LIST_FLINK] using h
          exact hnd2.2.1 (h2 ▸ hn)
        · intro h
          have h2 : n = bp := by simpa [LIST_FLINK] using h
          exact hnd2.1 (List.mem_cons_of_mem t (h2 ▸ hn))
      · intro a ha hat
        exact sam_qtd_discard_other t bp 0 s a (fun h => hat (by simp [h])) ha
  | cons t2 rest2 ih =>
    intro t bp fuel s L hc hL hnd hfuel
    cases fuel with
    | zero => simp at hfuel
    | succ f =>
      obtain ⟨ht0, hn, hc2⟩ := hc
      have hnd1 := List.nodup_cons.mp hnd
      have hnd2 := List.nodup_cons.mp hnd1.2
      have hbp_t : bp ≠ t := fun h => hnd1.1 (by simp [h])
      have hstep : ∀ x, x ≠ t → x ≠ bp →
          (sam_qtd_discard t bp 0 s).state.mem x = s.mem x :=
        fun x h1 h2 => sam_qtd_discard_other t bp 0 s x h1 h2
      have hc3 : LinkChain (qtd_next virt) (sam_qtd_discard t bp 0 s).state.mem
          (t2 :: rest2) := by
        refine linkChain_congr _ s.mem _ _ ?_ hc2
        intro x hx
        refine qtd_next_congr virt _ _ x ?_
        refine hstep _ ?_ ?_
        · intro h
          have h2 : x = t := by simpa [QTD_NQP] using h
          exact hnd2.1 (List.mem_append_left L (h2 ▸ hx))
        · intro h
          have h2 : x = bp := by simpa [QTD_NQP] using h
          exact hnd1.1 (List.mem_cons_of_mem t (List.mem_append_left L (h2 ▸ hx)))
      have hL3 : IsFreeList (sam_qtd_discard t bp 0 s).state.mem
          (sam_qtd_discard t bp 0 s).state.qtdfree (t :: L) := by
        refine ⟨rfl, ht0, ?_⟩
        rw [sam_qtd_discard_flink]
        refine isFreeList_congr s.mem _ L _ ?_ hL
        intro n hn
        refine hstep _ ?_ ?_
        · intro h
          have h2 : n = t := by simpa [LIST_FLINK] using h
          exact hnd2.1 (List.mem_append_right _ (h2 ▸ hn))
        · intro h
          have h2 : n = bp := by simpa [LIST_FLINK] using h
          exact hnd1.1 (List.mem_cons_of_mem t (List.mem_append_right _ (h2 ▸ hn)))
      have hnd3 : (bp :: ((t2 :: rest2) ++ (t :: L))).Nodup := by
        have hp : (bp :: ((t2 :: rest2) ++ (t :: L))).Perm (bp :: ((t :: t2 :: rest2) ++ L)) :=
          List.Perm.cons bp (List.perm_middle)
        exact hp.nodup_iff.mpr hnd
      obtain ⟨s2, h1, h2, h3, h4⟩ := ih t2 bp f (sam_qtd_discard t bp 0 s).state (t :: L)
        hc3 hL3 hnd3 (by simp only [List.length_cons] at hfuel ⊢; omega)
      refine ⟨s2, ?_, ?_, ?_, ?_⟩
      · simp only [foreach_loop]
        rw [if_neg ht0, if_neg (by simp [sam_qtd_discard_ret]), hn, sam_qtd_discard_bp, h1]
      · have : (t :: t2 :: rest2).reverse ++ L = (t2 :: rest2).reverse ++ (t :: L) := by
          simp
        rw [this]
        exact h2
      · rw [h3]; rfl
      · intro a ha hat
        have hat2 : a ∉ t2 :: rest2 := fun h => hat (List.mem_cons_of_mem t h)
        have hat3 : a ≠ t := fun h => hat (by simp [h])
        rw [h4 a ha hat2]
        exact hstep a hat3 ha

/-- C10: for every (non-NULL) QH whose queue holds the `k >= 0` qTDs `ts` (a chain ending
in a terminate bit), the QH, its overlay word, the qTDs and the nodes on the two free
lists being at pairwise distinct addresses: `sam_qh_discard` returns OK; afterwards the
qTD free list is the `k` qTDs (last discarded first) followed by the former qTD free list,
and the QH free list is the QH followed by the former QH free list.  So the free counts
grow by exactly `k` and 1, and every node that was free before is still free. -/
theorem qh_discard_frees_all (virt : Nat → Nat) (qh : Nat) (ts Ltd Lqh : List Nat)
    (fuel : Nat) (s : EhciState)
    (hqh : qh ≠ 0)
    (hq : QhQueue virt s.mem qh ts)
    (hftd : IsFreeList s.mem s.qtdfree Ltd)
    (hfqh : IsFreeList s.mem s.qhfree Lqh)
    (hnd : (qh :: (qh + QH_OVERLAY) :: (ts ++ Ltd ++ Lqh)).Nodup)
    (hfuel : ts.length ≤ fuel) :
    ∃ s2 : EhciState,
      sam_qh_discard virt fuel qh s = .ok (OK, s2) ∧
      IsFreeList s2.mem s2.qtdfree (ts.reverse ++ Ltd) ∧
      IsFreeList s2.mem s2.qhfree (qh :: Lqh) ∧
      (ts.reverse ++ Ltd).length = Ltd.length + ts.length ∧
      (qh :: Lqh).length = Lqh.length + 1 ∧
      (∀ t ∈ ts, t ∈ ts.reverse ++ Ltd) ∧
      (∀ n ∈ Ltd, n ∈ ts.reverse ++ Ltd) ∧
      (∀ n ∈ Lqh, n ∈ qh :: Lqh) := by
  have hnd1 := List.nodup_cons.mp hnd
  have hnd2 := List.nodup_cons.mp hnd1.2
  have hqh_not : ∀ x, x ∈ ts ++ Ltd ++ Lqh → x ≠ qh := fun x hx h =>
    hnd1.1 (List.mem_cons_of_mem _ (h ▸ hx))
  have hbp_not : ∀ x, x ∈ ts ++ Ltd ++ Lqh → x ≠ qh + QH_OVERLAY := fun x hx h =>
    hnd2.1 (h ▸ hx)
  have hnd3 : (ts ++ Ltd ++ Lqh).Nodup := hnd2.2
  have hnd4 := List.nodup_append.mp hnd3
  have hlen : (ts.reverse ++ Ltd).length = Ltd.length + ts.length := by
    simp [Nat.add_comm]
  -- the state after the traversal
  have hloop : ∃ s1 : EhciState,
      sam_qtd_foreach virt fuel qh (some sam_qtd_discard) 0 s = .ok ⟨OK, s1, ts⟩ ∧
      IsFreeList s1.mem s1.qtdfree (ts.reverse ++ Ltd) ∧
      s1.qhfree = s.qhfree ∧
      ∀ a, a ≠ qh + QH_OVERLAY → a ∉ ts → s1.mem a = s.mem a := by
    cases ts with
    | nil =>
      have hT : s.mem (qh + QH_OVERLAY) &&& QH_NQP_T ≠ 0 := hq
      refine ⟨s, ?_, by simpa using hftd, rfl, fun _ _ _ => rfl⟩
      simp only [sam_qtd_foreach]
      rw [if_pos hT]
      rfl
    | cons t rest =>
      obtain ⟨hT, hfirst, hchain⟩ := hq
      have hndl : ((qh + QH_OVERLAY) :: ((t :: rest) ++ Ltd)).Nodup := by
        refine List.nodup_cons.mpr ⟨?_, hnd4.1⟩
        intro h
        exact hnd2.1 (List.mem_append_left Lqh h)
      obtain ⟨s1, h1, h2, h3, h4⟩ := discard_loop virt rest t (qh + QH_OVERLAY) fuel s Ltd
        (qtdChain_linkChain virt s.mem _ hchain) hftd hndl hfuel
      refine ⟨s1, ?_, h2, h3, h4⟩
      simp only [sam_qtd_foreach]
      rw [if_neg (by simp [hT]), hfirst, sam_qtd_foreach_loop_eq]
      exact h1
  obtain ⟨s1, h1, h2, h3, h4⟩ := hloop
  refine ⟨sam_qh_free qh s1, ?_, ?_, ?_, hlen, rfl, ?_, ?_, ?_⟩
  · simp only [sam_qh_discard]
    rw [h1]
  · refine isFreeList_congr s1.mem _ _ _ ?_ h2
    intro n hn
    refine write_other _ _ _ _ ?_
    have hmem : n ∈ ts ++ Ltd ++ Lqh := by
      rcases List.mem_append.mp hn with h | h
      · exact List.mem_append_left _ (List.mem_append_left _ (List.mem_reverse.mp h))
      · exact List.mem_append_left _ (List.mem_append_right _ h)
    have := hqh_not n hmem
    simpa [LIST_FLINK] using this
  · refine ⟨rfl, hqh, ?_⟩
    have hw : (sam_qh_free qh s1).mem (qh + LIST_FLINK) = s.qhfree := by
      simp only [sam_qh_free]
      rw [write_same, h3]
    rw [hw]
    refine isFreeList_congr s.mem _ Lqh _ ?_ hfqh
    intro n hn
    have hmem : n ∈ ts ++ Ltd ++ Lqh := List.mem_append_right _ hn
    have hne1 : n ≠ qh := hqh_not n hmem
    have hne2 : n ≠ qh + QH_OVERLAY := hbp_not n hmem
    have hnts : n ∉ ts := by
      intro h
      exact (List.disjoint_of_nodup_append hnd3)
        (List.mem_append_left _ h) hn
    have hs1 : (sam_qh_free qh s1).mem (n + LIST_FLINK) = s1.mem (n + LIST_FLINK) :=
      write_other _ _ _ _ (by simpa [LIST_FLINK] using hne1)
    rw [hs1]
    simpa [LIST_FLINK] using h4 n hne2 hnts
  · intro t ht
    exact List.mem_append_left _ (List.mem_reverse.mpr ht)
  · intro n hn
    exact List.mem_append_right _ hn
  · intro n hn
    exact List.mem_cons_of_mem _ hn

/-- Witness for C10: the QH at 0x400 with the qTDs 0x100, 0x120, 0x140 queued, one qTD
(0x160) and one QH (0x500) being free already. -/
theorem qh_discard_frees_all_witness :
    (0x400 : Nat) ≠ 0 ∧
      QhQueue id three_qtd_mem 0x400 [0x100, 0x120, 0x140] ∧
      IsFreeList three_qtd_mem 0x160 [0x160] ∧
      IsFreeList three_qtd_mem 0x500 [0x500] ∧
      ∃ s2 : EhciState,
        sam_qh_discard id 3 0x400 ⟨three_qtd_mem, 0x500, 0x160⟩ = .ok (OK, s2) ∧
        IsFreeList s2.mem s2.qtdfree [0x140, 0x120, 0x100, 0x160] ∧
        IsFreeList s2.mem s2.qhfree [0x400, 0x500] := by
  obtain ⟨s2, h1, h2, h3, _⟩ :=
    qh_discard_frees_all id 0x400 [0x100, 0x120, 0x140] [0x160] [0x500] 3
      ⟨three_qtd_mem, 0x500, 0x160⟩ (by decide) (by decide) (by decide) (by decide)
      (by decide) (by decide)
  exact ⟨by decide, by decide, by decide, by decide, s2, h1, h2, h3⟩

/-! ## Polling loops -/

theorem sam_getreg_val (hw : Hw) (r : Reg) (io : RegAccess) :
    (sam_getreg hw r io).1 = hw.read r (io.reads r) := rfl

theorem poll_step_val (hw : Hw) (r : Reg) (d : Nat) (io : RegAccess) :
    (sam_getreg hw r (up_udelay d io)).1 = hw.read r (io.reads r) := rfl

theorem poll_step_reads (hw : Hw) (r : Reg) (d : Nat) (io : RegAccess) :
    (sam_getreg hw r (up_udelay d io)).2.reads r = io.reads r + 1 := by
  simp [sam_getreg, up_udelay]

theorem after_one (hw : Hw) (r : Reg) (d : Nat) (io : RegAccess) :
    (sam_getreg hw r (up_udelay d io)).2 = io.after hw r d 1 := by
  simp [sam_getreg, up_udelay, RegAccess.after, poll_events]

theorem after_succ (hw : Hw) (r : Reg) (d p : Nat) (io : RegAccess) :
    (sam_getreg hw r (up_udelay d io)).2.after hw r d p = io.after hw r d (p + 1) := by
  simp only [sam_getreg, up_udelay, RegAccess.after, poll_events, Function.update_same,
    Function.update_idem, List.append_assoc, List.singleton_append, List.cons_append,
    List.nil_append]
  have h : io.reads r + 1 + p = io.reads r + (p + 1) := by omega
  rw [h]

theorem after_reads (hw : Hw) (r : Reg) (d p : Nat) (io : RegAccess) :
    (io.after hw r d p).reads r = io.reads r + p := by
  simp [RegAccess.after]

theorem after_reads_other (hw : Hw) (r r2 : Reg) (d p : Nat) (io : RegAccess) (h : r2 ≠ r) :
    (io.after hw r d p).reads r2 = io.reads r2 := by
  simp [RegAccess.after, Function.update_noteq h]

theorem after_trace (hw : Hw) (r : Reg) (d p : Nat) (io : RegAccess) :
    (io.after hw r d p).trace = io.trace ++ poll_events hw r d p (io.reads r) := rfl

/-- A polling loop whose first `p` polls let it continue and whose poll number `p + 1`
stops it makes exactly `p + 1` polls. -/
theorem poll_loop_run (hw : Hw) (reg : Reg) (d limit : Nat) (abort cont : Nat → Bool) :
    ∀ (p t : Nat) (io : RegAccess) (fuel : Nat),
      p + 1 ≤ fuel →
      t + d * (p + 1) < 2 ^ 32 →
      (∀ j, j < p → abort (hw.read reg (io.reads reg + j)) = false ∧
        cont (hw.read reg (io.reads reg + j)) = true ∧ t + d * (j + 1) < limit) →
      (abort (hw.read reg (io.reads reg + p)) = true ∨
        ¬ (cont (hw.read reg (io.reads reg + p)) = true ∧ t + d * (p + 1) < limit)) →
      poll_loop hw reg d limit abort cont fuel t io =
        some ⟨abort (hw.read reg (io.reads reg + p)), hw.read reg (io.reads reg + p),
          t + d * (p + 1), io.after hw reg d (p + 1)⟩ := by
  intro p
  induction p with
  | zero =>
    intro t io fuel hfuel hwrap _ hstop
    cases fuel with
    | zero => omega
    | succ f =>
      have hmod : (t + d) % 2 ^ 32 = t + d := Nat.mod_eq_of_lt (by omega)
      simp only [poll_loop, poll_step_val, hmod, after_one]
      simp only [Nat.add_zero, Nat.zero_add, Nat.mul_one] at hstop ⊢
      by_cases ha : abort (hw.read reg (io.reads reg)) = true
      · rw [if_pos ha, ha]
      · rw [if_neg ha]
        have hstop2 : ¬ (cont (hw.read reg (io.reads reg)) = true ∧ t + d < limit) := by
          rcases hstop with h | h
          · exact absurd h ha
          · exact h
        rw [if_neg hstop2]
        have : abort (hw.read reg (io.reads reg)) = false := by simpa using ha
        rw [this]
  | succ p ih =>
    intro t io fuel hfuel hwrap hcont hstop
    cases fuel with
    | zero => omega
    | succ f =>
      have hmod : (t + d) % 2 ^ 32 = t + d := Nat.mod_eq_of_lt (by
        have : d * 1 ≤ d * (p + 1 + 1) := Nat.mul_le_mul_left d (by omega)
        omega)
      obtain ⟨h0a, h0c, h0l⟩ := hcont 0 (by omega)
      simp only [Nat.add_zero, Nat.zero_add, Nat.mul_one] at h0a h0c h0l
      simp only [poll_loop, poll_step_val, hmod]
      rw [if_neg (by simp [h0a]), if_pos ⟨h0c, h0l⟩]
      have hreads := poll_step_reads hw reg d io
      have hidx : ∀ j, (sam_getreg hw reg (up_udelay d io)).2.reads reg + j
          = io.reads reg + (j + 1) := by
        intro j; rw [hreads]; omega
      have hrec := ih (t + d) (sam_getreg hw reg (up_udelay d io)).2 f (by omega)
        (by
          have : d * (p + 1 + 1) = d + d * (p + 1) := by ring
          omega)
        (by
          intro j hj
          rw [hidx j]
          obtain ⟨h1, h2, h3⟩ := hcont (j + 1) (by omega)
          refine ⟨h1, h2, ?_⟩
          have : d * (j + 1 + 1) = d + d * (j + 1) := by ring
          omega)
        (by
          rw [hidx p]
          have : t + d + d * (p + 1) = t + d * (p + 1 + 1) := by ring
          rw [this]
          exact hstop)
      rw [hrec, hidx p, after_succ]
      have : t + d + d * (p + 1) = t + d * (p + 1 + 1) := by ring
      rw [this]

/-- A polling loop stops at the latest at the first poll after which the counter has
reached the limit. -/
theorem poll_loop_exists (hw : Hw) (reg : Reg) (d limit : Nat) (abort cont : Nat → Bool)
    (t n0 J : Nat) (hJ : limit ≤ t + d * (J + 1)) :
    ∃ p, p ≤ J ∧
      (∀ j, j < p → abort (hw.read reg (n0 + j)) = false ∧
        cont (hw.read reg (n0 + j)) = true ∧ t + d * (j + 1) < limit) ∧
      (abort (hw.read reg (n0 + p)) = true ∨
        ¬ (cont (hw.read reg (n0 + p)) = true ∧ t + d * (p + 1) < limit)) := by
  have hex : ∃ j, abort (hw.read reg (n0 + j)) = true ∨
      ¬ (cont (hw.read reg (n0 + j)) = true ∧ t + d * (j + 1) < limit) :=
    ⟨J, Or.inr (fun h => by omega)⟩
  refine ⟨Nat.find hex, Nat.find_min' hex (Or.inr (fun h => by omega)), ?_, Nat.find_spec hex⟩
  intro j hj
  have hmin := Nat.find_min hex hj
  simp only [not_or, not_not] at hmin
  exact ⟨by simpa using hmin.1, hmin.2.1, hmin.2.2⟩

theorem sam_reset_halt_loop_eq (hw : Hw) :
    ∀ (fuel t : Nat) (io : RegAccess),
      sam_reset_halt_loop hw fuel t io =
        (poll_loop hw Reg.usbsts 1 1000 (fun _ => false)
          (fun v => decide (v &&& EHCI_USBSTS_HALTED = 0)) fuel t io).map
          (fun e => (e.regval, e.timeout, e.io)) := by
  intro fuel
  induction fuel with
  | zero => intro t io; rfl
  | succ f ih =>
    intro t io
    simp only [sam_reset_halt_loop, poll_loop, decide_eq_true_eq, Bool.false_eq_true, if_false]
    split
    · rw [ih]
    · rfl

theorem sam_reset_wait_loop_eq (hw : Hw) :
    ∀ (fuel t : Nat) (io : RegAccess),
      sam_reset_wait_loop hw fuel t io =
        (poll_loop hw Reg.usbcmd 5 1000000 (fun _ => false)
          (fun v => decide (v &&& EHCI_USBCMD_HCRESET ≠ 0)) fuel t io).map
          (fun e => (e.regval, e.timeout, e.io)) := by
  intro fuel
  induction fuel with
  | zero => intro t io; rfl
  | succ f ih =>
    intro t io
    simp only [sam_reset_wait_loop, poll_loop, decide_eq_true_eq, Bool.false_eq_true, if_false]
    split
    · rw [ih]
    · rfl

theorem ehci_wait_usbsts_loop_eq (hw : Hw) (maskbits donebits delay : Nat) :
    ∀ (fuel t : Nat) (io : RegAccess),
      ehci_wait_usbsts_loop hw maskbits donebits delay fuel t io =
        (poll_loop hw Reg.usbsts 5 delay (fun v => decide (v &&& EHCI_INT_SYSERROR ≠ 0))
          (fun v => decide (v &&& maskbits ≠ donebits)) fuel t io).map
          (fun e => (if e.aborted = true then - EIO
            else if e.regval &&& maskbits = donebits then OK else -ETIMEDOUT, e.io)) := by
  intro fuel
  induction fuel with
  | zero => intro t io; rfl
  | succ f ih =>
    intro t io
    simp only [ehci_wait_usbsts_loop, poll_loop, decide_eq_true_eq]
    split
    · simp
    · split
      · rw [ih]
      · simp

theorem writes_of_append (l1 l2 : List RegEvent) :
    writes_of (l1 ++ l2) = writes_of l1 ++ writes_of l2 := by
  induction l1 with
  | nil => rfl
  | cons e rest ih =>
    cases e with
    | read r v => simpa [writes_of] using ih
    | write r v => simp [writes_of, ih]
    | udelay n => simpa [writes_of] using ih

theorem writes_of_poll_events (hw : Hw) (reg : Reg) (d : Nat) :
    ∀ (p n0 : Nat), writes_of (poll_events hw reg d p n0) = [] := by
  intro p
  induction p with
  | zero => intro n0; rfl
  | succ p ih => intro n0; simp [poll_events, writes_of, ih]

theorem delays_of_append (l1 l2 : List RegEvent) :
    delays_of (l1 ++ l2) = delays_of l1 ++ delays_of l2 := by
  induction l1 with
  | nil => rfl
  | cons e rest ih =>
    cases e with
    | read r v => simpa [delays_of] using ih
    | write r v => simpa [delays_of] using ih
    | udelay n => simp [delays_of, ih]

theorem delays_of_poll_events (hw : Hw) (reg : Reg) (d : Nat) :
    ∀ (p n0 : Nat), delays_of (poll_events hw reg d p n0) = List.replicate p d := by
  intro p
  induction p with
  | zero => intro n0; rfl
  | succ p ih => intro n0; simp [poll_events, delays_of, ih, List.replicate_succ]

theorem reset_guard_append (l1 l2 : List RegEvent) :
    reset_guard (l1 ++ l2) = l2.foldl reset_guard_step (reset_guard l1) := by
  simp [reset_guard, List.foldl_append]

theorem guard_poll_sts (hw : Hw) (d : Nat) :
    ∀ (p n0 : Nat) (b : Bool),
      (poll_events hw Reg.usbsts d (p + 1) n0).foldl reset_guard_step (some b) =
        some (decide (hw.read Reg.usbsts (n0 + p) &&& EHCI_USBSTS_HALTED ≠ 0)) := by
  intro p
  induction p with
  | zero => intro n0 b; simp [poll_events, reset_guard_step]
  | succ p ih =>
    intro n0 b
    have h := ih (n0 + 1) (decide (hw.read Reg.usbsts n0 &&& EHCI_USBSTS_HALTED ≠ 0))
    have hidx : n0 + 1 + p = n0 + (p + 1) := by omega
    rw [hidx] at h
    rw [← h]
    rfl

theorem guard_poll_cmd (hw : Hw) (d : Nat) :
    ∀ (p n0 : Nat) (b : Bool),
      (poll_events hw Reg.usbcmd d p n0).foldl reset_guard_step (some b) = some b := by
  intro p
  induction p with
  | zero => intro n0 b; rfl
  | succ p ih =>
    intro n0 b
    show (poll_events hw Reg.usbcmd d p (n0 + 1)).foldl reset_guard_step (some b) = some b
    exact ih (n0 + 1) b

/-! ## `sam_reset` -/

/-- The first loop of `sam_reset` makes `p1 + 1 <= 1000` polls of USBSTS and stops at the
first poll that shows HCHalted, or at poll 1000. -/
theorem sam_reset_halt_run (hw : Hw) (fuel : Nat) (hfuel : 1000 ≤ fuel) (io : RegAccess) :
    ∃ p1, p1 ≤ 999 ∧
      (∀ j, j < p1 → hw.read Reg.usbsts (io.reads Reg.usbsts + j) &&& EHCI_USBSTS_HALTED = 0) ∧
      (hw.read Reg.usbsts (io.reads Reg.usbsts + p1) &&& EHCI_USBSTS_HALTED ≠ 0 ∨ p1 = 999) ∧
      sam_reset_halt_loop hw fuel 0 (sam_putreg 0 Reg.usbcmd io) =
        some (hw.read Reg.usbsts (io.reads Reg.usbsts + p1), p1 + 1, reset_io1 hw io p1) := by
  obtain ⟨p1, hp1, hcont, hstop⟩ := poll_loop_exists hw Reg.usbsts 1 1000 (fun _ => false)
    (fun v => decide (v &&& EHCI_USBSTS_HALTED = 0)) 0 (io.reads Reg.usbsts) 999 (by omega)
  refine ⟨p1, hp1, ?_, ?_, ?_⟩
  · intro j hj
    have := (hcont j hj).2.1
    simpa using this
  · rcases hstop with h | h
    · simp at h
    · by_cases hv : hw.read Reg.usbsts (io.reads Reg.usbsts + p1) &&& EHCI_USBSTS_HALTED = 0
      · right
        simp only [decide_eq_true_eq, not_and] at h
        have := h hv
        omega
      · left; exact hv
  · rw [sam_reset_halt_loop_eq,
      poll_loop_run hw Reg.usbsts 1 1000 _ _ p1 0 (sam_putreg 0 Reg.usbcmd io) fuel
        (by omega) (by omega) hcont hstop]
    simp only [Option.map_some', reset_io1, Nat.zero_add, Nat.one_mul]
    rfl

/-- The second loop of `sam_reset`, entered with the counter at `t <= 1000`, makes
`p2 + 1 <= 200000` polls of USBCMD and stops at the first poll that shows HCRESET clear
or at the first poll after which the counter has reached 1000000. -/
theorem sam_reset_wait_run (hw : Hw) (fuel : Nat) (hfuel : 200000 ≤ fuel) (t : Nat)
    (ht1 : 1 ≤ t) (ht : t ≤ 1000) (io : RegAccess) :
    ∃ p2, p2 ≤ 199999 ∧
      (∀ j, j < p2 →
        hw.read Reg.usbcmd (io.reads Reg.usbcmd + j) &&& EHCI_USBCMD_HCRESET ≠ 0 ∧
          t + 5 * (j + 1) < 1000000) ∧
      (hw.read Reg.usbcmd (io.reads Reg.usbcmd + p2) &&& EHCI_USBCMD_HCRESET = 0 ∨
        1000000 ≤ t + 5 * (p2 + 1)) ∧
      sam_reset_wait_loop hw fuel t io =
        some (hw.read Reg.usbcmd (io.reads Reg.usbcmd + p2), t + 5 * (p2 + 1),
          io.after hw Reg.usbcmd 5 (p2 + 1)) := by
  obtain ⟨p2, hp2, hcont, hstop⟩ := poll_loop_exists hw Reg.usbcmd 5 1000000 (fun _ => false)
    (fun v => decide (v &&& EHCI_USBCMD_HCRESET ≠ 0)) t (io.reads Reg.usbcmd) 199999 (by omega)
  refine ⟨p2, hp2, ?_, ?_, ?_⟩
  · intro j hj
    have h := hcont j hj
    exact ⟨by simpa using h.2.1, h.2.2⟩
  · rcases hstop with h | h
    · simp at h
    · by_cases hv : hw.read Reg.usbcmd (io.reads Reg.usbcmd + p2) &&& EHCI_USBCMD_HCRESET = 0
      · left; exact hv
      · right
        simp only [decide_eq_true_eq, not_and] at h
        have := h hv
        omega
  · rw [sam_reset_wait_loop_eq,
      poll_loop_run hw Reg.usbcmd 5 1000000 _ _ p2 t io fuel (by omega) (by omega) hcont hstop]
    simp only [Option.map_some']

/-- What `sam_reset` does, for every behaviour of the two registers. -/
theorem sam_reset_spec (hw : Hw) (fuel : Nat) (hfuel : 200000 ≤ fuel) (io : RegAccess) :
    ∃ p1, p1 ≤ 999 ∧
      (∀ j, j < p1 → hw.read Reg.usbsts (io.reads Reg.usbsts + j) &&& EHCI_USBSTS_HALTED = 0) ∧
      ((hw.read Reg.usbsts (io.reads Reg.usbsts + p1) &&& EHCI_USBSTS_HALTED = 0 ∧ p1 = 999 ∧
          sam_reset hw fuel io = some (-ETIMEDOUT, reset_io1 hw io p1)) ∨
        (hw.read Reg.usbsts (io.reads Reg.usbsts + p1) &&& EHCI_USBSTS_HALTED ≠ 0 ∧
          ∃ p2, p2 ≤ 199999 ∧
            (∀ j, j < p2 →
              hw.read Reg.usbcmd (io.reads Reg.usbcmd + 1 + j) &&& EHCI_USBCMD_HCRESET ≠ 0 ∧
                p1 + 1 + 5 * (j + 1) < 1000000) ∧
            (hw.read Reg.usbcmd (io.reads Reg.usbcmd + 1 + p2) &&& EHCI_USBCMD_HCRESET = 0 ∨
              1000000 ≤ p1 + 1 + 5 * (p2 + 1)) ∧
            sam_reset hw fuel io =
              some (if hw.read Reg.usbcmd (io.reads Reg.usbcmd + 1 + p2)
                      &&& EHCI_USBCMD_HCRESET ≠ 0 then -ETIMEDOUT else OK,
                reset_io3 hw io p1 p2))) := by
  obtain ⟨p1, hp1, hbefore, hlast, hrun1⟩ := sam_reset_halt_run hw fuel (by omega) io
  refine ⟨p1, hp1, hbefore, ?_⟩
  by_cases hv : hw.read Reg.usbsts (io.reads Reg.usbsts + p1) &&& EHCI_USBSTS_HALTED = 0
  · left
    refine ⟨hv, ?_, ?_⟩
    · rcases hlast with h | h
      · exact absurd hv h
      · exact h
    · simp only [sam_reset, hrun1]
      rw [if_pos hv]
  · right
    refine ⟨hv, ?_⟩
    have hreads : (sam_putreg
        ((sam_getreg hw Reg.usbcmd (reset_io1 hw io p1)).1 ||| EHCI_USBCMD_HCRESET) Reg.usbcmd
        (sam_getreg hw Reg.usbcmd (reset_io1 hw io p1)).2).reads Reg.usbcmd
        = io.reads Reg.usbcmd + 1 := by
      simp [sam_putreg, sam_getreg, reset_io1, RegAccess.after]
    have hval : (sam_getreg hw Reg.usbcmd (reset_io1 hw io p1)).1
        = hw.read Reg.usbcmd (io.reads Reg.usbcmd) := by
      simp [sam_getreg, reset_io1, RegAccess.after, sam_putreg]
    obtain ⟨p2, hp2, hcont2, hstop2, hrun2⟩ := sam_reset_wait_run hw fuel hfuel (p1 + 1)
      (by omega) (by omega)
      (sam_putreg
        ((sam_getreg hw Reg.usbcmd (reset_io1 hw io p1)).1 ||| EHCI_USBCMD_HCRESET) Reg.usbcmd
        (sam_getreg hw Reg.usbcmd (reset_io1 hw io p1)).2)
    rw [hreads] at hcont2 hstop2 hrun2
    refine ⟨p2, hp2, hcont2, hstop2, ?_⟩
    simp only [sam_reset, hrun1]
    rw [if_neg hv]
    simp only [hrun2]
    rw [hval]
    rfl

theorem reset_io1_reads_sts (hw : Hw) (p1 : Nat) :
    (reset_io1 hw RegAccess.init p1).reads Reg.usbsts = p1 + 1 := by
  simp [reset_io1, RegAccess.after, sam_putreg, RegAccess.init]

theorem reset_io1_reads_cmd (hw : Hw) (p1 : Nat) :
    (reset_io1 hw RegAccess.init p1).reads Reg.usbcmd = 0 := by
  simp [reset_io1, RegAccess.after, sam_putreg, RegAccess.init]

theorem reset_io1_trace (hw : Hw) (p1 : Nat) :
    (reset_io1 hw RegAccess.init p1).trace =
      [RegEvent.write Reg.usbcmd 0] ++ poll_events hw Reg.usbsts 1 (p1 + 1) 0 := by
  simp [reset_io1, RegAccess.after, sam_putreg, RegAccess.init]

theorem reset_io3_reads_sts (hw : Hw) (p1 p2 : Nat) :
    (reset_io3 hw RegAccess.init p1 p2).reads Reg.usbsts = p1 + 1 := by
  simp [reset_io3, reset_io1, RegAccess.after, sam_putreg, sam_getreg, RegAccess.init]

theorem reset_io3_reads_cmd (hw : Hw) (p1 p2 : Nat) :
    (reset_io3 hw RegAccess.init p1 p2).reads Reg.usbcmd = p2 + 2 := by
  simp [reset_io3, reset_io1, RegAccess.after, sam_putreg, sam_getreg, RegAccess.init]
  omega

theorem reset_io3_trace (hw : Hw) (p1 p2 : Nat) :
    (reset_io3 hw RegAccess.init p1 p2).trace =
      ([RegEvent.write Reg.usbcmd 0] ++ poll_events hw Reg.usbsts 1 (p1 + 1) 0) ++
        ([RegEvent.read Reg.usbcmd (hw.read Reg.usbcmd 0),
          RegEvent.write Reg.usbcmd (hw.read Reg.usbcmd 0 ||| EHCI_USBCMD_HCRESET)] ++
          poll_events hw Reg.usbcmd 5 (p2 + 1) 1) := by
  simp [reset_io3, reset_io1, RegAccess.after, sam_putreg, sam_getreg, RegAccess.init]

theorem reset_io1_guard (hw : Hw) (p1 : Nat) :
    reset_guard (reset_io1 hw RegAccess.init p1).trace =
      some (decide (hw.read Reg.usbsts p1 &&& EHCI_USBSTS_HALTED ≠ 0)) := by
  rw [reset_io1_trace, reset_guard_append]
  have h0 : reset_guard [RegEvent.write Reg.usbcmd 0] = some false := by decide
  rw [h0, guard_poll_sts, Nat.zero_add]

theorem reset_io3_guard (hw : Hw) (p1 p2 : Nat)
    (hv : hw.read Reg.usbsts p1 &&& EHCI_USBSTS_HALTED ≠ 0) :
    reset_guard (reset_io3 hw RegAccess.init p1 p2).trace = some true := by
  rw [reset_io3_trace, reset_guard_append, ← reset_io1_trace hw p1, reset_io1_guard,
    List.foldl_append]
  have h1 : decide (hw.read Reg.usbsts p1 &&& EHCI_USBSTS_HALTED ≠ 0) = true := by
    simpa using hv
  rw [h1]
  have h2 : [RegEvent.read Reg.usbcmd (hw.read Reg.usbcmd 0),
      RegEvent.write Reg.usbcmd (hw.read Reg.usbcmd 0 ||| EHCI_USBCMD_HCRESET)].foldl
      reset_guard_step (some true) = some true := by
    simp [reset_guard_step]
  rw [h2, guard_poll_cmd]

/-! ## Claims about `sam_reset` -/

/-- C13: for every behaviour of USBSTS and USBCMD, `sam_reset` (given room for 200000
iterations of each loop) returns, and it returns OK exactly when one of the first 1000
USBSTS polls shows HCHalted, the first such poll being poll `t1`, and some USBCMD poll `p`
that is made within the remaining budget (`t1 + 5 (p - 1) < 1000000`) shows HCRESET clear;
in every other case it returns -ETIMEDOUT.  In particular a controller that halts but
never clears HCRESET yields -ETIMEDOUT.  Read number 0 of USBCMD is the read that
precedes the write of HCRESET, so poll `p` is read number `p`. -/
theorem sam_reset_result (hw : Hw) (fuel : Nat) (hfuel : 200000 ≤ fuel) :
    ∃ r : Int × RegAccess, sam_reset hw fuel RegAccess.init = some r ∧
      (r.1 = OK ∨ r.1 = -ETIMEDOUT) ∧
      (r.1 = OK ↔
        ∃ t1 p, 1 ≤ t1 ∧ t1 ≤ 1000 ∧
          (∀ j, j + 1 < t1 → hw.read Reg.usbsts j &&& EHCI_USBSTS_HALTED = 0) ∧
          hw.read Reg.usbsts (t1 - 1) &&& EHCI_USBSTS_HALTED ≠ 0 ∧
          1 ≤ p ∧ t1 + 5 * (p - 1) < 1000000 ∧
          hw.read Reg.usbcmd p &&& EHCI_USBCMD_HCRESET = 0) ∧
      ((∃ j, j < 1000 ∧ hw.read Reg.usbsts j &&& EHCI_USBSTS_HALTED ≠ 0) →
        (∀ p, hw.read Reg.usbcmd p &&& EHCI_USBCMD_HCRESET ≠ 0) → r.1 = -ETIMEDOUT) := by
  obtain ⟨p1, hp1, hbefore, hcase⟩ := sam_reset_spec hw fuel hfuel RegAccess.init
  simp only [RegAccess.init, Nat.zero_add] at hbefore hcase
  have hne : (-ETIMEDOUT : Int) ≠ OK := by decide
  rcases hcase with ⟨hv, _, hrun⟩ | ⟨hv, p2, hp2, hcont2, hstop2, hrun⟩
  · have hno : ¬ ∃ t1 p, 1 ≤ t1 ∧ t1 ≤ 1000 ∧
          (∀ j, j + 1 < t1 → hw.read Reg.usbsts j &&& EHCI_USBSTS_HALTED = 0) ∧
          hw.read Reg.usbsts (t1 - 1) &&& EHCI_USBSTS_HALTED ≠ 0 ∧
          1 ≤ p ∧ t1 + 5 * (p - 1) < 1000000 ∧
          hw.read Reg.usbcmd p &&& EHCI_USBCMD_HCRESET = 0 := by
      rintro ⟨t1, p, h1, h2, _, h4, _⟩
      by_cases hlt : t1 - 1 < p1
      · exact h4 (hbefore (t1 - 1) hlt)
      · have : t1 - 1 = p1 := by omega
        rw [this] at h4
        exact h4 hv
    refine ⟨_, hrun, Or.inr rfl, ⟨fun h => absurd h hne, fun h => absurd h hno⟩, ?_⟩
    intro _ _
    rfl
  · have hiff : ((if hw.read Reg.usbcmd (1 + p2) &&& EHCI_USBCMD_HCRESET ≠ 0
          then -ETIMEDOUT else OK) = OK ↔
        ∃ t1 p, 1 ≤ t1 ∧ t1 ≤ 1000 ∧
          (∀ j, j + 1 < t1 → hw.read Reg.usbsts j &&& EHCI_USBSTS_HALTED = 0) ∧
          hw.read Reg.usbsts (t1 - 1) &&& EHCI_USBSTS_HALTED ≠ 0 ∧
          1 ≤ p ∧ t1 + 5 * (p - 1) < 1000000 ∧
          hw.read Reg.usbcmd p &&& EHCI_USBCMD_HCRESET = 0) := by
      constructor
      · intro hok
        have hclear : hw.read Reg.usbcmd (1 + p2) &&& EHCI_USBCMD_HCRESET = 0 := by
          by_contra hc
          rw [if_pos hc] at hok
          exact hne hok
        refine ⟨p1 + 1, p2 + 1, by omega, by omega, ?_, ?_, by omega, ?_, ?_⟩
        · intro j hj
          exact hbefore j (by omega)
        · simpa using hv
        · cases p2 with
          | zero => simp only [Nat.zero_add, Nat.sub_self, Nat.mul_zero]; omega
          | succ q =>
            have := (hcont2 q (by omega)).2
            simp only [Nat.add_sub_cancel]
            omega
        · have : p2 + 1 = 1 + p2 := by omega
          rw [this]
          exact hclear
      · rintro ⟨t1, p, h1, h2, h3, h4, h5, h6, h7⟩
        have ht1 : t1 = p1 + 1 := by
          by_cases hlt : t1 - 1 < p1
          · exact absurd (hbefore (t1 - 1) hlt) h4
          · by_cases hgt : p1 + 1 < t1
            · exact absurd (h3 p1 hgt) hv
            · omega
        rw [if_neg]
        intro hset
        have hlim : 1000000 ≤ p1 + 1 + 5 * (p2 + 1) := by
          rcases hstop2 with h | h
          · exact absurd h hset
          · exact h
        by_cases hp : p = p2 + 1
        · have : 1 + p2 = p := by omega
          rw [this] at hset
          exact hset h7
        · have hj : p - 1 < p2 := by omega
          have hc := (hcont2 (p - 1) hj).1
          have : 1 + (p - 1) = p := by omega
          rw [this] at hc
          exact hc h7
    refine ⟨_, hrun, ?_, hiff, ?_⟩
    · by_cases hc : hw.read Reg.usbcmd (1 + p2) &&& EHCI_USBCMD_HCRESET ≠ 0
      · right; simp only []; rw [if_pos hc]
      · left; simp only []; rw [if_neg hc]
    · intro _ hall
      simp only []
      rw [if_pos (hall (1 + p2))]

/-- Witness for C13: a controller that is halted at the first USBSTS poll and whose USBCMD
reads back zero; `sam_reset` returns OK. -/
theorem sam_reset_result_witness :
    200000 ≤ 200000 ∧
      ∃ r : Int × RegAccess,
        sam_reset ⟨fun _ => 0, fun _ => 4096⟩ 200000 RegAccess.init = some r ∧ r.1 = OK := by
  obtain ⟨r, h1, _, hiff, _⟩ := sam_reset_result ⟨fun _ => 0, fun _ => 4096⟩ 200000 (le_refl _)
  refine ⟨le_refl _, r, h1, hiff.mpr ⟨1, 1, le_refl _, by decide, fun j hj => by omega,
    by decide, le_refl _, by decide, by decide⟩⟩

/-- C14: in every execution of `sam_reset` the trace of register accesses passes the
monitor `reset_guard`: a write to USBCMD with the HCRESET bit set happens only when the
most recent USBSTS read had HCHalted set.  The writes are the initial write of 0 to
USBCMD and, only after HCHalted was read, the write of the value read from USBCMD with
HCRESET set.  If none of the first 1000 USBSTS polls shows HCHalted, `sam_reset` returns
-ETIMEDOUT and its only register write is the initial write of 0 to USBCMD. -/
theorem sam_reset_guards_hcreset (hw : Hw) (fuel : Nat) (hfuel : 200000 ≤ fuel) :
    ∃ r : Int × RegAccess, sam_reset hw fuel RegAccess.init = some r ∧
      reset_guard r.2.trace ≠ none ∧
      (writes_of r.2.trace = [(Reg.usbcmd, 0)] ∨
        ((∃ j, j < 1000 ∧ hw.read Reg.usbsts j &&& EHCI_USBSTS_HALTED ≠ 0) ∧
          writes_of r.2.trace =
            [(Reg.usbcmd, 0), (Reg.usbcmd, hw.read Reg.usbcmd 0 ||| EHCI_USBCMD_HCRESET)])) ∧
      ((∀ j, j < 1000 → hw.read Reg.usbsts j &&& EHCI_USBSTS_HALTED = 0) →
        r.1 = -ETIMEDOUT ∧ writes_of r.2.trace = [(Reg.usbcmd, 0)]) := by
  obtain ⟨p1, hp1, hbefore, hcase⟩ := sam_reset_spec hw fuel hfuel RegAccess.init
  have hr : ∀ x : Reg, RegAccess.init.reads x = 0 := fun _ => rfl
  simp only [hr, Nat.zero_add] at hbefore hcase
  rcases hcase with ⟨hv, _, hrun⟩ | ⟨hv, p2, hp2, _, _, hrun⟩
  · have hw1 : writes_of (reset_io1 hw RegAccess.init p1).trace = [(Reg.usbcmd, 0)] := by
      rw [reset_io1_trace, writes_of_append, writes_of_poll_events]
      rfl
    refine ⟨_, hrun, ?_, Or.inl hw1, fun _ => ⟨rfl, hw1⟩⟩
    simp only []
    rw [reset_io1_guard]
    simp
  · have hw3 : writes_of (reset_io3 hw RegAccess.init p1 p2).trace =
        [(Reg.usbcmd, 0), (Reg.usbcmd, hw.read Reg.usbcmd 0 ||| EHCI_USBCMD_HCRESET)] := by
      rw [reset_io3_trace, writes_of_append, writes_of_append, writes_of_append,
        writes_of_poll_events, writes_of_poll_events]
      rfl
    refine ⟨_, hrun, ?_, Or.inr ⟨⟨p1, by omega, hv⟩, hw3⟩, ?_⟩
    · simp only []
      rw [reset_io3_guard hw p1 p2 hv]
      simp
    · intro hall
      exact absurd (hall p1 (by omega)) hv

/-- Witness for C14: a controller that never halts; the only write is the initial one. -/
theorem sam_reset_guards_hcreset_witness :
    200000 ≤ 200000 ∧
      ∃ r : Int × RegAccess,
        sam_reset ⟨fun _ => 0, fun _ => 0⟩ 200000 RegAccess.init = some r ∧
          r.1 = -ETIMEDOUT ∧ writes_of r.2.trace = [(Reg.usbcmd, 0)] := by
  obtain ⟨r, h1, _, _, h4⟩ :=
    sam_reset_guards_hcreset ⟨fun _ => 0, fun _ => 0⟩ 200000 (le_refl _)
  exact ⟨le_refl _, r, h1, h4 (fun _ _ => by simp [Hw.read])⟩

/-- C15: for every behaviour of USBSTS and USBCMD, `sam_reset` terminates (200000 iterations
per loop are always enough): it makes between 1 and 1000 USBSTS polls, each after a delay
of 1 microsecond, then at most 200000 USBCMD polls, each after a delay of 5 microseconds,
so at most 201000 polls in total.  The USBCMD polls are the reads of USBCMD after the
one that precedes the write of HCRESET. -/
theorem sam_reset_terminates (hw : Hw) (fuel : Nat) (hfuel : 200000 ≤ fuel) :
    ∃ r : Int × RegAccess, sam_reset hw fuel RegAccess.init = some r ∧
      1 ≤ r.2.reads Reg.usbsts ∧
      r.2.reads Reg.usbsts ≤ 1000 ∧
      r.2.reads Reg.usbcmd - 1 ≤ 200000 ∧
      r.2.reads Reg.usbsts + (r.2.reads Reg.usbcmd - 1) ≤ 201000 ∧
      delays_of r.2.trace =
        List.replicate (r.2.reads Reg.usbsts) 1 ++
          List.replicate (r.2.reads Reg.usbcmd - 1) 5 := by
  obtain ⟨p1, hp1, _, hcase⟩ := sam_reset_spec hw fuel hfuel RegAccess.init
  rcases hcase with ⟨_, _, hrun⟩ | ⟨_, p2, hp2, _, _, hrun⟩
  · refine ⟨_, hrun, ?_, ?_, ?_, ?_, ?_⟩
    · simp only []; rw [reset_io1_reads_sts]; omega
    · simp only []; rw [reset_io1_reads_sts]; omega
    · simp only []; rw [reset_io1_reads_cmd]; omega
    · simp only []; rw [reset_io1_reads_sts, reset_io1_reads_cmd]; omega
    · simp only []
      rw [reset_io1_reads_sts, reset_io1_reads_cmd, reset_io1_trace, delays_of_append,
        delays_of_poll_events]
      simp [delays_of]
  · refine ⟨_, hrun, ?_, ?_, ?_, ?_, ?_⟩
    · simp only []; rw [reset_io3_reads_sts]; omega
    · simp only []; rw [reset_io3_reads_sts]; omega
    · simp only []; rw [reset_io3_reads_cmd]; omega
    · simp only []; rw [reset_io3_reads_sts, reset_io3_reads_cmd]; omega
    · simp only []
      rw [reset_io3_reads_sts, reset_io3_reads_cmd, reset_io3_trace, delays_of_append,
        delays_of_append, delays_of_append, delays_of_poll_events, delays_of_poll_events]
      simp [delays_of]

/-- Witness for C15: a controller that halts at once and never clears HCRESET; the run
ends after one USBSTS poll. -/
theorem sam_reset_terminates_witness :
    200000 ≤ 200000 ∧
      ∃ r : Int × RegAccess,
        sam_reset ⟨fun _ => 2, fun _ => 4096⟩ 200000 RegAccess.init = some r ∧
          r.2.reads Reg.usbsts + (r.2.reads Reg.usbcmd - 1) ≤ 201000 := by
  obtain ⟨r, h1, _, _, _, h5, _⟩ :=
    sam_reset_terminates ⟨fun _ => 2, fun _ => 4096⟩ 200000 (le_refl _)
  exact ⟨le_refl _, r, h1, h5⟩

/-! ## `ehci_wait_usbsts` -/

/-- What `ehci_wait_usbsts` does, for every behaviour of USBSTS: it makes `p + 1` polls,
none of the first `p` showing a system error or the awaited value, and stops at poll
`p + 1` on a system error, on the awaited value, or because the delay is used up. -/
theorem ehci_wait_usbsts_spec (hw : Hw) (maskbits donebits delay fuel : Nat)
    (hdelay : delay < 2 ^ 32) (hfuel : max 1 ((delay + 4) / 5) ≤ fuel) (io : RegAccess) :
    ∃ p, p + 1 ≤ max 1 ((delay + 4) / 5) ∧
      (∀ j, j < p →
        hw.read Reg.usbsts (io.reads Reg.usbsts + j) &&& EHCI_INT_SYSERROR = 0 ∧
        hw.read Reg.usbsts (io.reads Reg.usbsts + j) &&& maskbits ≠ donebits ∧
        5 * (j + 1) < delay) ∧
      (hw.read Reg.usbsts (io.reads Reg.usbsts + p) &&& EHCI_INT_SYSERROR ≠ 0 ∨
        hw.read Reg.usbsts (io.reads Reg.usbsts + p) &&& maskbits = donebits ∨
        delay ≤ 5 * (p + 1)) ∧
      ehci_wait_usbsts hw maskbits donebits delay fuel io =
        some (if hw.read Reg.usbsts (io.reads Reg.usbsts + p) &&& EHCI_INT_SYSERROR ≠ 0
                then - EIO
              else if hw.read Reg.usbsts (io.reads Reg.usbsts + p) &&& maskbits = donebits
                then OK else -ETIMEDOUT,
          io.after hw Reg.usbsts 5 (p + 1)) := by
  obtain ⟨p, hp, hcont, hstop⟩ := poll_loop_exists hw Reg.usbsts 5 delay
    (fun v => decide (v &&& EHCI_INT_SYSERROR ≠ 0))
    (fun v => decide (v &&& maskbits ≠ donebits)) 0 (io.reads Reg.usbsts)
    (max 1 ((delay + 4) / 5) - 1) (by omega)
  refine ⟨p, by omega, ?_, ?_, ?_⟩
  · intro j hj
    obtain ⟨h1, h2, h3⟩ := hcont j hj
    exact ⟨by simpa using h1, by simpa using h2, by omega⟩
  · rcases hstop with h | h
    · left; simpa using h
    · by_cases hm : hw.read Reg.usbsts (io.reads Reg.usbsts + p) &&& maskbits = donebits
      · right; left; exact hm
      · right; right
        simp only [decide_eq_true_eq, not_and] at h
        have := h hm
        omega
  · simp only [ehci_wait_usbsts]
    rw [ehci_wait_usbsts_loop_eq,
      poll_loop_run hw Reg.usbsts 5 delay _ _ p 0 io fuel (by omega) (by omega) hcont hstop]
    simp only [Option.map_some', decide_eq_true_eq]

/-! ## Claims about `ehci_wait_usbsts` -/

/-- C16: for every maskbits, donebits and delay, if a USBSTS poll made by
`ehci_wait_usbsts` has the system-error bit set, the function returns - EIO on that poll
and reads the register no further (the number of reads is the number of that poll),
whatever the masked status is on that poll; and - EIO differs from -ETIMEDOUT. -/
theorem ehci_wait_usbsts_syserror (hw : Hw) (maskbits donebits delay fuel : Nat)
    (hdelay : delay < 2 ^ 32) (hfuel : max 1 ((delay + 4) / 5) ≤ fuel) :
    ∃ r : Int × RegAccess,
      ehci_wait_usbsts hw maskbits donebits delay fuel RegAccess.init = some r ∧
      (∀ j, j < r.2.reads Reg.usbsts →
        hw.read Reg.usbsts j &&& EHCI_INT_SYSERROR ≠ 0 →
        r.1 = - EIO ∧ r.2.reads Reg.usbsts = j + 1) ∧
      (- EIO : Int) ≠ -ETIMEDOUT := by
  obtain ⟨p, _, hcont, _, hrun⟩ :=
    ehci_wait_usbsts_spec hw maskbits donebits delay fuel hdelay hfuel RegAccess.init
  have hr : ∀ x : Reg, RegAccess.init.reads x = 0 := fun _ => rfl
  simp only [hr, Nat.zero_add] at hcont hrun
  refine ⟨_, hrun, ?_, by decide⟩
  intro j hj herr
  simp only [after_reads, hr, Nat.zero_add] at hj ⊢
  have hjp : j = p := by
    by_contra hne
    exact herr (hcont j (by omega)).1
  subst hjp
  exact ⟨by rw [if_pos herr], rfl⟩

/-- Witness for C16: the second poll shows a system error together with the awaited
value; the result is - EIO after two reads. -/
theorem ehci_wait_usbsts_syserror_witness :
    (100 : Nat) < 2 ^ 32 ∧ max 1 ((100 + 4) / 5) ≤ 20 ∧
      ∃ r : Int × RegAccess,
        ehci_wait_usbsts ⟨fun _ => 0, fun n => if n = 1 then 0x1010 else 0⟩ 0x1000 0x1000 100
          20 RegAccess.init = some r ∧ r.1 = - EIO ∧ r.2.reads Reg.usbsts = 1 + 1 := by
  obtain ⟨r, h1, h2, _⟩ := ehci_wait_usbsts_syserror
    ⟨fun _ => 0, fun n => if n = 1 then 0x1010 else 0⟩ 0x1000 0x1000 100 20
    (by decide) (by decide)
  have hreads : 1 < r.2.reads Reg.usbsts := by
    have h3 : (ehci_wait_usbsts ⟨fun _ => 0, fun n => if n = 1 then 0x1010 else 0⟩
        0x1000 0x1000 100 20 RegAccess.init).map (fun x => x.2.reads Reg.usbsts) = some 2 := by
      decide
    rw [h1] at h3
    have h4 : r.2.reads Reg.usbsts = 2 := by simpa using h3
    omega
  exact ⟨by decide, by decide, r, h1, h2 1 hreads (by decide)⟩

/-- C17: for every maskbits, donebits and delay (microseconds), when none of the first
`max(1, ceil(delay/5))` polls shows a system error: `ehci_wait_usbsts` returns OK at the
first poll where `(USBSTS & maskbits) == donebits`, provided that poll is among the first
`max(1, ceil(delay/5))` polls, and otherwise returns -ETIMEDOUT after exactly
`max(1, ceil(delay/5))` polls; it never polls more than that. -/
theorem ehci_wait_usbsts_polls (hw : Hw) (maskbits donebits delay fuel : Nat)
    (hdelay : delay < 2 ^ 32) (hfuel : max 1 ((delay + 4) / 5) ≤ fuel)
    (hnoerr : ∀ j, j < max 1 ((delay + 4) / 5) →
      hw.read Reg.usbsts j &&& EHCI_INT_SYSERROR = 0) :
    ∃ r : Int × RegAccess,
      ehci_wait_usbsts hw maskbits donebits delay fuel RegAccess.init = some r ∧
      r.2.reads Reg.usbsts ≤ max 1 ((delay + 4) / 5) ∧
      (∀ j, j < max 1 ((delay + 4) / 5) →
        hw.read Reg.usbsts j &&& maskbits = donebits →
        (∀ i, i < j → hw.read Reg.usbsts i &&& maskbits ≠ donebits) →
        r.1 = OK ∧ r.2.reads Reg.usbsts = j + 1) ∧
      ((∀ j, j < max 1 ((delay + 4) / 5) → hw.read Reg.usbsts j &&& maskbits ≠ donebits) →
        r.1 = -ETIMEDOUT ∧ r.2.reads Reg.usbsts = max 1 ((delay + 4) / 5)) := by
  obtain ⟨p, hp, hcont, hstop, hrun⟩ :=
    ehci_wait_usbsts_spec hw maskbits donebits delay fuel hdelay hfuel RegAccess.init
  have hr : ∀ x : Reg, RegAccess.init.reads x = 0 := fun _ => rfl
  simp only [hr, Nat.zero_add] at hcont hstop hrun
  have herr : hw.read Reg.usbsts p &&& EHCI_INT_SYSERROR = 0 := hnoerr p (by omega)
  rw [if_neg (by simp [herr])] at hrun
  refine ⟨_, hrun, ?_, ?_, ?_⟩
  · simp only [after_reads, hr, Nat.zero_add]
    exact hp
  · intro j hj hmatch hfirst
    simp only [after_reads, hr, Nat.zero_add]
    have hjp : p = j := by
      by_contra hne
      by_cases hlt : p < j
      · have hm := hfirst p hlt
        rcases hstop with h | h | h
        · exact h herr
        · exact hm h
        · omega
      · exact (hcont j (by omega)).2.1 hmatch
    subst hjp
    exact ⟨by rw [if_pos hmatch], rfl⟩
  · intro hnone
    simp only [after_reads, hr, Nat.zero_add]
    have hm := hnone p (by omega)
    refine ⟨by rw [if_neg hm], ?_⟩
    rcases hstop with h | h | h
    · exact absurd herr h
    · exact absurd h hm
    · omega

/-- Witness for C17: a delay of 12 microseconds allows three polls; the awaited value
shows at the second poll. -/
theorem ehci_wait_usbsts_polls_witness :
    (12 : Nat) < 2 ^ 32 ∧ max 1 ((12 + 4) / 5) ≤ 3 ∧
      ∃ r : Int × RegAccess,
        ehci_wait_usbsts ⟨fun _ => 0, fun n => if n = 1 then 0x1000 else 0⟩ 0x1000 0x1000 12
          3 RegAccess.init = some r ∧ r.1 = OK ∧ r.2.reads Reg.usbsts = 1 + 1 := by
  obtain ⟨r, h1, _, h3, _⟩ := ehci_wait_usbsts_polls
    ⟨fun _ => 0, fun n => if n = 1 then 0x1000 else 0⟩ 0x1000 0x1000 12 3
    (by decide) (by decide)
    (by
      intro j _
      by_cases hj : j = 1
      · subst hj; decide
      · simp [Hw.read, hj])
  refine ⟨by decide, by decide, r, h1, h3 1 (by decide) (by decide) ?_⟩
  intro i hi
  have hi0 : i = 0 := by omega
  subst hi0
  decide

/-! ## Claims about the cache operations -/

/-- With a queue that holds at least one qTD, `sam_qh_invalidate` and `sam_qh_flush` end in
a call through the NULL handler, after one invalidate over the QH. -/
theorem qh_cache_ops_null_call (virt : Nat → Nat) (fuel qh t : Nat) (rest : List Nat)
    (s : EhciState) (hq : QhQueue virt s.mem qh (t :: rest)) :
    sam_qh_invalidate virt (fuel + 1) qh s =
        ([CacheOp.invalidate (qh + QH_HW) (qh + QH_HW + SIZEOF_EHCI_QH)],
          .error Fault.null_call) ∧
      sam_qh_flush virt (fuel + 1) qh s =
        ([CacheOp.invalidate (qh + QH_HW) (qh + QH_HW + SIZEOF_EHCI_QH)],
          .error Fault.null_call) := by
  obtain ⟨hT, hfirst, hchain⟩ := hq
  have ht0 : t ≠ 0 := linkChain_head_ne_zero _ _ _ _ (qtdChain_linkChain virt s.mem _ hchain)
  have h : sam_qtd_foreach virt (fuel + 1) qh none 0 s = .error Fault.null_call := by
    simp only [sam_qtd_foreach]
    rw [if_neg (by simp [hT]), hfirst]
    simp only [sam_qtd_foreach_loop]
    rw [if_neg ht0]
  simp only [sam_qh_invalidate, sam_qh_flush, h, and_self]

/-- C11 (evaluation at the failing input): the queue of the QH at 0x400 holds the qTDs
0x100, 0x120, 0x140.  `sam_qh_invalidate` invalidates the D-cache over the QH and then
calls `sam_qtd_foreach` with a NULL handler: the traversal ends in a call through NULL,
nothing is returned, and no qTD is invalidated, whereas the QH followed by the three
qTDs (what `sam_qtd_invalidate` does on each) was to be invalidated. -/
theorem qh_invalidate_null_handler :
    QhQueue id three_qtd_mem 0x400 [0x100, 0x120, 0x140] ∧
      (sam_qh_invalidate id 10 0x400 ⟨three_qtd_mem, 0, 0⟩).1
        = [CacheOp.invalidate 0x400 0x430] ∧
      fault_of (sam_qh_invalidate id 10 0x400 ⟨three_qtd_mem, 0, 0⟩).2
        = some Fault.null_call ∧
      observed (sam_qh_invalidate id 10 0x400 ⟨three_qtd_mem, 0, 0⟩).2 = none ∧
      (sam_qh_invalidate id 10 0x400 ⟨three_qtd_mem, 0, 0⟩).1 ≠
        CacheOp.invalidate 0x400 0x430 ::
          ((sam_qtd_invalidate 0x100).2 ++ (sam_qtd_invalidate 0x120).2 ++
            (sam_qtd_invalidate 0x140).2) := by
  decide

/-- C12 (evaluation at the failing inputs): on the QH at 0x400 with an empty queue,
`sam_qh_flush` returns 0 but the one cache operation it performs over the QH is an
invalidate, not a flush (`cp15_coherent_dcache`).  With the qTDs 0x100, 0x120, 0x140
queued it again only invalidates the QH, and the traversal, called with a NULL handler,
ends in a call through NULL: no qTD is flushed. -/
theorem qh_flush_invalidates :
    QhQueue id empty_queue_mem 0x400 [] ∧
      (sam_qh_flush id 10 0x400 ⟨empty_queue_mem, 0, 0⟩).1
        = [CacheOp.invalidate 0x400 0x430] ∧
      observed (sam_qh_flush id 10 0x400 ⟨empty_queue_mem, 0, 0⟩).2 = some (0, []) ∧
      CacheOp.coherent 0x400 0x430 ∉ (sam_qh_flush id 10 0x400 ⟨empty_queue_mem, 0, 0⟩).1 ∧
      QhQueue id three_qtd_mem 0x400 [0x100, 0x120, 0x140] ∧
      (sam_qh_flush id 10 0x400 ⟨three_qtd_mem, 0, 0⟩).1
        = [CacheOp.invalidate 0x400 0x430] ∧
      fault_of (sam_qh_flush id 10 0x400 ⟨three_qtd_mem, 0, 0⟩).2
        = some Fault.null_call ∧
      (sam_qh_flush id 10 0x400 ⟨three_qtd_mem, 0, 0⟩).1 ≠
        CacheOp.coherent 0x400 0x430 ::
          ((sam_qtd_flush 0x100).2 ++ (sam_qtd_flush 0x120).2 ++ (sam_qtd_flush 0x140).2) := by
  decide

/-! ## Claims about `sam_wait` and `sam_enumerate` -/

theorem sam_wait_scan_from_some (connected : Nat → Bool) (s : sam_ehci_s) :
    ∀ (n i r : Nat), sam_wait_scan_from connected s n i = some r →
      i ≤ r ∧ r < i + n ∧ (s.rhport r).connected ≠ connected r ∧
        ∀ j, i ≤ j → j < r → (s.rhport j).connected = connected j := by
  intro n
  induction n with
  | zero => intro i r h; simp [sam_wait_scan_from] at h
  | succ n ih =>
    intro i r h
    simp only [sam_wait_scan_from] at h
    by_cases hc : (s.rhport i).connected ≠ connected i
    · rw [if_pos hc] at h
      have hri : i = r := Option.some.inj h
      subst hri
      exact ⟨le_refl _, by omega, hc, fun j h1 h2 => by omega⟩
    · rw [if_neg hc] at h
      obtain ⟨h1, h2, h3, h4⟩ := ih (i + 1) r h
      refine ⟨by omega, by omega, h3, ?_⟩
      intro j hj1 hj2
      by_cases hji : j = i
      · subst hji; simpa using hc
      · exact h4 j (by omega) hj2

theorem sam_wait_scan_from_none (connected : Nat → Bool) (s : sam_ehci_s) :
    ∀ (n i : Nat), (∀ j, i ≤ j → j < i + n → (s.rhport j).connected = connected j) →
      sam_wait_scan_from connected s n i = none := by
  intro n
  induction n with
  | zero => intro i _; rfl
  | succ n ih =>
    intro i h
    simp only [sam_wait_scan_from]
    rw [if_neg (by simp [h i (le_refl _) (by omega)])]
    exact ih (i + 1) (fun j h1 h2 => h j (by omega) (by omega))

theorem sam_wait_ret (nrhport : Nat) (wake : Nat → sam_ehci_s → sam_ehci_s)
    (connected : Nat → Bool) :
    ∀ (fuel k : Nat) (s : sam_ehci_s) (r : Int),
      (sam_wait nrhport wake connected fuel k s).ret = some r →
      ∃ i, i < nrhport ∧ r = (i : Int) ∧
        ((sam_wait nrhport wake connected fuel k s).state.rhport i).connected ≠ connected i ∧
        ∀ j, j < i →
          ((sam_wait nrhport wake connected fuel k s).state.rhport j).connected
            = connected j := by
  intro fuel
  induction fuel with
  | zero => intro k s r h; simp [sam_wait] at h
  | succ f ih =>
    intro k s r h
    simp only [sam_wait] at h ⊢
    cases hscan : sam_wait_scan nrhport connected s with
    | some i =>
      rw [hscan] at h
      simp only [Option.some.injEq] at h
      obtain ⟨_, h2, h3, h4⟩ := sam_wait_scan_from_some connected s nrhport 0 i hscan
      exact ⟨i, by omega, h.symm, h3, fun j hj => h4 j (Nat.zero_le _) hj⟩
    | none =>
      rw [hscan] at h
      exact ih _ _ r h

theorem sam_wait_blocked (nrhport : Nat) (wake : Nat → sam_ehci_s → sam_ehci_s)
    (connected : Nat → Bool) :
    ∀ (fuel k : Nat) (s : sam_ehci_s),
      ∀ b ∈ (sam_wait nrhport wake connected fuel k s).blocked, b.rhwait = true := by
  intro fuel
  induction fuel with
  | zero => intro k s b hb; simp [sam_wait] at hb
  | succ f ih =>
    intro k s b hb
    simp only [sam_wait] at hb
    cases hscan : sam_wait_scan nrhport connected s with
    | some i =>
      rw [hscan] at hb
      simp at hb
    | none =>
      rw [hscan] at hb
      rcases List.mem_cons.mp hb with h | h
      · rw [h]
      · exact ih _ _ b h

theorem sam_wait_keeps_waiting (nrhport : Nat) (wake : Nat → sam_ehci_s → sam_ehci_s)
    (connected : Nat → Bool)
    (hwake : ∀ (k : Nat) (s : sam_ehci_s), PortsMatch nrhport connected s →
      PortsMatch nrhport connected (wake k s)) :
    ∀ (fuel k : Nat) (s : sam_ehci_s), PortsMatch nrhport connected s →
      (sam_wait nrhport wake connected fuel k s).ret = none ∧
        (sam_wait nrhport wake connected fuel k s).blocked.length = fuel := by
  intro fuel
  induction fuel with
  | zero => intro k s _; exact ⟨rfl, rfl⟩
  | succ f ih =>
    intro k s hm
    have hscan : sam_wait_scan nrhport connected s = none :=
      sam_wait_scan_from_none connected s nrhport 0 (fun j _ hj => hm j (by omega))
    simp only [sam_wait, hscan]
    have hm1 : PortsMatch nrhport connected { s with rhwait := true } := hm
    have := ih (k + 1) (wake k { s with rhwait := true }) (hwake k _ hm1)
    exact ⟨this.1, by simp [this.2]⟩

/-- C18: for every live per-port connected state (the initial state and whatever the
interrupts do while the caller sleeps) and every caller-supplied array `connected`:
whenever `sam_wait` returns a value `r`, then `0 <= r < SAM_EHCI_NRHPORT`, the connected
flag of port `r` differs from `connected[r]` and every port with a lower index matches
its expected value; every call of `sam_takesem` on the root-hub semaphore is made with
`rhwait` set; and as long as the state of every port equals the expected array, `sam_wait`
does not return: after any number `fuel` of scans it has blocked `fuel` times and is still
waiting. -/
theorem sam_wait_reports_changed_port (nrhport : Nat) (wake : Nat → sam_ehci_s → sam_ehci_s)
    (connected : Nat → Bool) (fuel k : Nat) (s : sam_ehci_s) :
    (∀ r : Int, (sam_wait nrhport wake connected fuel k s).ret = some r →
      0 ≤ r ∧ r < (nrhport : Int) ∧
      ∃ i : Nat, r = (i : Int) ∧ i < nrhport ∧
        ((sam_wait nrhport wake connected fuel k s).state.rhport i).connected ≠ connected i ∧
        ∀ j, j < i →
          ((sam_wait nrhport wake connected fuel k s).state.rhport j).connected
            = connected j) ∧
    (∀ b ∈ (sam_wait nrhport wake connected fuel k s).blocked, b.rhwait = true) ∧
    (PortsMatch nrhport connected s →
      (∀ (k2 : Nat) (s2 : sam_ehci_s), PortsMatch nrhport connected s2 →
        PortsMatch nrhport connected (wake k2 s2)) →
      (sam_wait nrhport wake connected fuel k s).ret = none ∧
        (sam_wait nrhport wake connected fuel k s).blocked.length = fuel) := by
  refine ⟨?_, sam_wait_blocked nrhport wake connected fuel k s, ?_⟩
  · intro r hr
    obtain ⟨i, hi, hri, h3, h4⟩ := sam_wait_ret nrhport wake connected fuel k s r hr
    refine ⟨by omega, by omega, i, hri, hi, h3, h4⟩
  · intro hm hwake
    exact sam_wait_keeps_waiting nrhport wake connected hwake fuel k s hm

/-- Witness for C18: three ports, none connected and none expected to be; port 1 connects
during the second sleep and `sam_wait` returns 1; with no interrupt it keeps waiting. -/
theorem sam_wait_reports_changed_port_witness :
    (sam_wait 3 connect_port1_later (fun _ => false) 5 0 idle_ehci).ret = some 1 ∧
      (0 : Int) ≤ 1 ∧ (1 : Int) < (3 : Nat) ∧
      PortsMatch 3 (fun _ => false) idle_ehci ∧
      (sam_wait 3 (fun _ s => s) (fun _ => false) 5 0 idle_ehci).ret = none ∧
      (sam_wait 3 (fun _ s => s) (fun _ => false) 5 0 idle_ehci).blocked.length = 5 := by
  have h1 : (sam_wait 3 connect_port1_later (fun _ => false) 5 0 idle_ehci).ret = some 1 := by
    decide
  have h2 := (sam_wait_reports_changed_port 3 connect_port1_later (fun _ => false) 5 0
    idle_ehci).1 1 h1
  have hm : PortsMatch 3 (fun _ => false) idle_ehci := fun _ _ => rfl
  have h3 := (sam_wait_reports_changed_port 3 (fun _ s => s) (fun _ => false) 5 0
    idle_ehci).2.2 hm (fun _ _ h => h)
  exact ⟨h1, h2.1, h2.2.1, hm, h3.1, h3.2⟩

/-- C19: for every port index whose connected flag is false, `sam_enumerate` returns
-ENODEV without any delay, without calling `usbhost_enumerate`, and without changing the
port's class reference or any other driver state. -/
theorem sam_enumerate_not_connected
    (usbhost_enumerate : Nat → Nat → Nat → sam_ehci_s → Int × sam_ehci_s)
    (rhpndx : Nat) (s : sam_ehci_s) (hc : (s.rhport rhpndx).connected = false) :
    sam_enumerate usbhost_enumerate rhpndx s = (-ENODEV, s, []) := by
  simp only [sam_enumerate]
  rw [if_pos hc]

/-- Witness for C19: port 2 of the idle controller. -/
theorem sam_enumerate_not_connected_witness :
    (idle_ehci.rhport 2).connected = false ∧
      (sam_enumerate bind_class 2 idle_ehci).1 = -ENODEV ∧
      (sam_enumerate bind_class 2 idle_ehci).2.2 = [] ∧
      ((sam_enumerate bind_class 2 idle_ehci).2.1.rhport 2).cls = 0 := by
  have h := sam_enumerate_not_connected bind_class 2 idle_ehci rfl
  rw [h]
  exact ⟨rfl, rfl, rfl, rfl⟩

/-- C20: for every port index `rhpndx` whose connected flag is true, `sam_enumerate` first
calls `up_mdelay(100)` (at least 50 ms), then `up_mdelay(200)` (at least 200 ms), and only
then calls `usbhost_enumerate`, exactly once, with that port's driver structure, function
address `rhpndx + 1` and that port's class slot; it returns exactly what
`usbhost_enumerate` returned, and leaves the state `usbhost_enumerate` left. -/
theorem sam_enumerate_connected
    (usbhost_enumerate : Nat → Nat → Nat → sam_ehci_s → Int × sam_ehci_s)
    (rhpndx : Nat) (s : sam_ehci_s) (hc : (s.rhport rhpndx).connected = true) :
    ∃ d1 d2 : Nat, 50 ≤ d1 ∧ 200 ≤ d2 ∧
      (sam_enumerate usbhost_enumerate rhpndx s).2.2 =
        [EnumEvent.mdelay d1, EnumEvent.mdelay d2,
          EnumEvent.enumerate rhpndx (rhpndx + 1) rhpndx] ∧
      (sam_enumerate usbhost_enumerate rhpndx s).1 =
        (usbhost_enumerate rhpndx (rhpndx + 1) rhpndx s).1 ∧
      (sam_enumerate usbhost_enumerate rhpndx s).2.1 =
        (usbhost_enumerate rhpndx (rhpndx + 1) rhpndx s).2 := by
  refine ⟨100, 200, by decide, by decide, ?_, ?_, ?_⟩ <;>
    · simp only [sam_enumerate]
      rw [if_neg (by simp [hc])]

/-- Witness for C20: port 1 after its connect interrupt, enumerated by a collaborator that
binds class 0x5000. -/
theorem sam_enumerate_connected_witness :
    ((connect_port1_later 1 idle_ehci).rhport 1).connected = true ∧
      (sam_enumerate bind_class 1 (connect_port1_later 1 idle_ehci)).1 = OK ∧
      (sam_enumerate bind_class 1 (connect_port1_later 1 idle_ehci)).2.2 =
        [EnumEvent.mdelay 100, EnumEvent.mdelay 200, EnumEvent.enumerate 1 2 1] ∧
      ((sam_enumerate bind_class 1 (connect_port1_later 1 idle_ehci)).2.1.rhport 1).cls
        = 0x5000 := by
  obtain ⟨d1, d2, _, _, h3, h4, h5⟩ :=
    sam_enumerate_connected bind_class 1 (connect_port1_later 1 idle_ehci) rfl
  refine ⟨rfl, ?_, ?_, ?_⟩
  · rw [h4]; rfl
  · rfl
  · rw [h5]; rfl

/-! ## Claims about the driver operations -/

/-- C21: for every root-hub port, `sam_disconnect` on that port's driver structure sets the
port's class reference to NULL and leaves that port's `connected`, `lowspeed` and
`rhpndx` fields, every other port, both free lists (and the memory they live in) and the
semaphores unchanged; a second `sam_disconnect` changes nothing further. -/
theorem sam_disconnect_unbinds (rhpndx : Nat) (s : sam_ehci_s) :
    ((sam_disconnect rhpndx s).rhport rhpndx).cls = 0 ∧
    ((sam_disconnect rhpndx s).rhport rhpndx).connected = (s.rhport rhpndx).connected ∧
    ((sam_disconnect rhpndx s).rhport rhpndx).lowspeed = (s.rhport rhpndx).lowspeed ∧
    ((sam_disconnect rhpndx s).rhport rhpndx).rhpndx = (s.rhport rhpndx).rhpndx ∧
    (∀ i, i ≠ rhpndx → (sam_disconnect rhpndx s).rhport i = s.rhport i) ∧
    (sam_disconnect rhpndx s).pools.qhfree = s.pools.qhfree ∧
    (sam_disconnect rhpndx s).pools.qtdfree = s.pools.qtdfree ∧
    (sam_disconnect rhpndx s).pools.mem = s.pools.mem ∧
    (sam_disconnect rhpndx s).rhwait = s.rhwait ∧
    (sam_disconnect rhpndx s).exclsem = s.exclsem ∧
    (sam_disconnect rhpndx s).rhsem = s.rhsem ∧
    sam_disconnect rhpndx (sam_disconnect rhpndx s) = sam_disconnect rhpndx s := by
  refine ⟨?_, ?_, ?_, ?_, ?_, rfl, rfl, rfl, rfl, rfl, rfl, ?_⟩
  · simp [sam_disconnect]
  · simp [sam_disconnect]
  · simp [sam_disconnect]
  · simp [sam_disconnect]
  · intro i hi
    simp [sam_disconnect, hi]
  · simp only [sam_disconnect]
    congr 1
    funext i
    by_cases hi : i = rhpndx <;> simp [hi]

/-- Witness for C21: disconnecting port 1 leaves the class bound to port 2. -/
theorem sam_disconnect_unbinds_witness :
    (2 : Nat) ≠ 1 ∧
      ((sam_disconnect 1 bound_ehci).rhport 1).cls = 0 ∧
      ((sam_disconnect 1 bound_ehci).rhport 1).connected = true ∧
      ((sam_disconnect 1 bound_ehci).rhport 2).cls = 0x6000 ∧
      (sam_disconnect 1 bound_ehci).pools.qtdfree = 0x1000 :=
  ⟨by decide, (sam_disconnect_unbinds 1 bound_ehci).1,
    (sam_disconnect_unbinds 1 bound_ehci).2.1.trans (by decide),
    (congrArg sam_rhport_s.cls
      ((sam_disconnect_unbinds 1 bound_ehci).2.2.2.2.1 2 (by decide))).trans (by decide),
    (sam_disconnect_unbinds 1 bound_ehci).2.2.2.2.2.2.1.trans (by decide)⟩

/-- C22: when the endpoint-info allocation fails (`kzalloc` returns NULL), `sam_epalloc`
returns -ENOMEM, leaves the caller's handle `*ep` and the driver state as they were and
makes no call on the exclusive-access semaphore; when the allocation succeeds it returns
OK with `*ep` set to the new endpoint info, whose completion semaphore is initialised
to 0. -/
theorem sam_epalloc_result (kzalloc ep : Nat) (s : sam_ehci_s) :
    (kzalloc = 0 →
      (sam_epalloc kzalloc ep s).ret = -ENOMEM ∧
      (sam_epalloc kzalloc ep s).ep = ep ∧
      (sam_epalloc kzalloc ep s).semops = [] ∧
      (sam_epalloc kzalloc ep s).state = s ∧
      (sam_epalloc kzalloc ep s).wsem = none) ∧
    (kzalloc ≠ 0 →
      (sam_epalloc kzalloc ep s).ret = OK ∧
      (sam_epalloc kzalloc ep s).ep = kzalloc ∧
      (sam_epalloc kzalloc ep s).wsem = some 0) := by
  constructor
  · intro h
    simp only [sam_epalloc]
    rw [if_pos h]
    exact ⟨rfl, rfl, rfl, rfl, rfl⟩
  · intro h
    simp only [sam_epalloc]
    rw [if_neg h]
    exact ⟨rfl, rfl, rfl⟩

/-- Witness for C22: a failed allocation with `*ep` = 0x77, and a successful one at
0x8000. -/
theorem sam_epalloc_result_witness :
    (0 : Nat) = 0 ∧ (0x8000 : Nat) ≠ 0 ∧
      (sam_epalloc 0 0x77 idle_ehci).ret = -ENOMEM ∧
      (sam_epalloc 0 0x77 idle_ehci).ep = 0x77 ∧
      (sam_epalloc 0x8000 0x77 idle_ehci).ret = OK ∧
      (sam_epalloc 0x8000 0x77 idle_ehci).ep = 0x8000 :=
  ⟨rfl, by decide,
    ((sam_epalloc_result 0 0x77 idle_ehci).1 rfl).1,
    ((sam_epalloc_result 0 0x77 idle_ehci).1 rfl).2.1,
    ((sam_epalloc_result 0x8000 0x77 idle_ehci).2 (by decide)).1,
    ((sam_epalloc_result 0x8000 0x77 idle_ehci).2 (by decide)).2.1⟩

theorem give_take_exclsem (s : sam_ehci_s) : give_exclsem (take_exclsem s) = s := by
  cases s
  simp [give_exclsem, take_exclsem]

/-- C23: each of `sam_ep0configure`, `sam_epalloc`, `sam_epfree`, `sam_ctrlin`,
`sam_ctrlout` and `sam_transfer` calls `sam_givesem` on the exclusive-access semaphore
exactly as often as `sam_takesem` on the path it takes, so the count of `exclsem` on
return equals its count on entry. -/
theorem exclsem_balanced (s : sam_ehci_s) (kzalloc ep buffer buflen : Nat) :
    ((sam_ep0configure s).state.exclsem = s.exclsem ∧
      (sam_ep0configure s).semops.count SemOp.take
        = (sam_ep0configure s).semops.count SemOp.give) ∧
    ((sam_epalloc kzalloc ep s).state.exclsem = s.exclsem ∧
      (sam_epalloc kzalloc ep s).semops.count SemOp.take
        = (sam_epalloc kzalloc ep s).semops.count SemOp.give) ∧
    ((sam_epfree s).state.exclsem = s.exclsem ∧
      (sam_epfree s).semops.count SemOp.take = (sam_epfree s).semops.count SemOp.give) ∧
    ((sam_ctrlin s).state.exclsem = s.exclsem ∧
      (sam_ctrlin s).semops.count SemOp.take = (sam_ctrlin s).semops.count SemOp.give) ∧
    ((sam_ctrlout s).state.exclsem = s.exclsem ∧
      (sam_ctrlout s).semops.count SemOp.take = (sam_ctrlout s).semops.count SemOp.give) ∧
    ((sam_transfer ep buffer buflen s).state.exclsem = s.exclsem ∧
      (sam_transfer ep buffer buflen s).semops.count SemOp.take
        = (sam_transfer ep buffer buflen s).semops.count SemOp.give) := by
  have h : (give_exclsem (take_exclsem s)).exclsem = s.exclsem := by
    rw [give_take_exclsem]
  have hc : List.count SemOp.take [SemOp.take, SemOp.give]
      = List.count SemOp.give [SemOp.take, SemOp.give] := by decide
  refine ⟨⟨h, hc⟩, ?_, ⟨h, hc⟩, ⟨h, hc⟩, ⟨h, hc⟩, ⟨h, hc⟩⟩
  by_cases hk : kzalloc = 0
  · simp only [sam_epalloc]
    rw [if_pos hk]
    exact ⟨rfl, rfl⟩
  · simp only [sam_epalloc]
    rw [if_neg hk]
    exact ⟨h, hc⟩

/-- C24 (evaluation at every input): `sam_transfer` always returns -ENOSYS, which is
neither OK nor one of the documented transfer errors -EAGAIN, -EPERM, -EIO, -EPIPE. -/
theorem sam_transfer_returns_enosys (ep buffer buflen : Nat) (s : sam_ehci_s) :
    (sam_transfer ep buffer buflen s).ret = -ENOSYS ∧
      (sam_transfer ep buffer buflen s).ret ≠ OK ∧
      (sam_transfer ep buffer buflen s).ret ≠ -EAGAIN ∧
      (sam_transfer ep buffer buflen s).ret ≠ -EPERM ∧
      (sam_transfer ep buffer buflen s).ret ≠ - EIO ∧
      (sam_transfer ep buffer buflen s).ret ≠ -EPIPE := by
  have h : (sam_transfer ep buffer buflen s).ret = -ENOSYS := rfl
  rw [h]
  decide

/-! ## Claims about register access logging -/

theorem sam_checkreg_same (st : CheckState) (a v : Nat) (w : Bool) (h : SameAccess st a v w) :
    sam_checkreg st a v w = ({ st with count := (st.count + 1) % 2 ^ 32 }, []) := by
  have h2 : a = st.prevaddr ∧ v = st.preval ∧ st.prevwrite = w := h
  simp only [sam_checkreg]
  rw [if_pos h2]

theorem sam_checkreg_diff (st : CheckState) (a v : Nat) (w : Bool) (h : ¬ SameAccess st a v w) :
    sam_checkreg st a v w = (⟨a, v, 0, w⟩, pending_lines st ++ [LogLine.access a v w]) := by
  have h2 : ¬ (a = st.prevaddr ∧ v = st.preval ∧ st.prevwrite = w) := h
  simp only [sam_checkreg]
  rw [if_neg h2]
  rfl

theorem checkreg_run_same (a v : Nat) (w : Bool) :
    ∀ (n : Nat) (st : CheckState), SameAccess st a v w → st.count < 2 ^ 32 →
      checkreg_run a v w n st = ({ st with count := (st.count + n) % 2 ^ 32 }, []) := by
  intro n
  induction n with
  | zero =>
    intro st _ hc
    simp only [checkreg_run, Nat.add_zero]
    rw [Nat.mod_eq_of_lt hc]
  | succ n ih =>
    intro st hs hc
    simp only [checkreg_run]
    rw [sam_checkreg_same st a v w hs]
    have hs2 : SameAccess { st with count := (st.count + 1) % 2 ^ 32 } a v w := hs
    rw [ih _ hs2 (Nat.mod_lt _ (by norm_num))]
    simp only [List.append_nil]
    have : ((st.count + 1) % 2 ^ 32 + n) % 2 ^ 32 = (st.count + (n + 1)) % 2 ^ 32 := by
      rw [Nat.mod_add_mod]
      congr 1
      omega
    rw [this]

/-- The lines printed for a run of `n` identical accesses that follows a different access
and is followed by a different access. -/
theorem log_of_run_eq (st : CheckState) (a v : Nat) (w : Bool) (n a2 v2 : Nat) (w2 : Bool)
    (hnew : ¬ SameAccess st a v w) (hn : 1 ≤ n)
    (hnext : ¬ (a2 = a ∧ v2 = v ∧ w = w2)) :
    log_of_run st a v w n a2 v2 w2 =
      pending_lines st ++ [LogLine.access a v w] ++
        pending_lines ⟨a, v, (n - 1) % 2 ^ 32, w⟩ ++ [LogLine.access a2 v2 w2] := by
  obtain ⟨k, rfl⟩ : ∃ k, n = k + 1 := ⟨n - 1, by omega⟩
  have hs : SameAccess (⟨a, v, 0, w⟩ : CheckState) a v w := ⟨rfl, rfl, rfl⟩
  have hrun : checkreg_run a v w (k + 1) st =
      (⟨a, v, k % 2 ^ 32, w⟩, pending_lines st ++ [LogLine.access a v w]) := by
    simp only [checkreg_run]
    rw [sam_checkreg_diff st a v w hnew]
    simp only []
    rw [checkreg_run_same a v w k ⟨a, v, 0, w⟩ hs (by norm_num)]
    simp
  simp only [log_of_run, hrun, Nat.add_sub_cancel]
  have hnext2 : ¬ SameAccess (⟨a, v, k % 2 ^ 32, w⟩ : CheckState) a2 v2 w2 := hnext
  rw [sam_checkreg_diff _ a2 v2 w2 hnext2]
  simp

/-- C25 (counterexample): a run of 2^32 + 1 identical read accesses, made from the initial
state and followed by a different access, leaves one line for the run, not two: the
32-bit counter of repeats has wrapped to zero, so no repeat message is printed. -/
theorem checkreg_counter_wraps :
    ¬ SameAccess CheckState.init 0xf0500014 0 false ∧
      log_of_run CheckState.init 0xf0500014 0 false (2 ^ 32 + 1) 0xf0500010 0 false =
        [LogLine.access 0xf0500014 0 false, LogLine.access 0xf0500010 0 false] ∧
      min (2 ^ 32 + 1) 2 = 2 := by
  have hnew : ¬ SameAccess CheckState.init 0xf0500014 0 false := by
    intro h
    have := h.1
    simp [CheckState.init] at this
  refine ⟨hnew, ?_, by decide⟩
  rw [log_of_run_eq CheckState.init 0xf0500014 0 false (2 ^ 32 + 1) 0xf0500010 0 false hnew
    (by norm_num) (by norm_num)]
  have h0 : (2 ^ 32 + 1 - 1) % 2 ^ 32 = 0 := by norm_num
  rw [h0]
  rfl

/-- C25 (amended): for a run of `n` consecutive accesses with the same register address,
value and direction, `1 <= n <= 2^32`, that follows a different access (or the initial
state) and is followed by a differing access, the log holds, after the lines still due
for the accesses before the run, exactly `min(n, 2)` lines for the run: the access line
once when `n = 1`, the access line twice when `n = 2`, and for `n >= 3` the access line
once followed by one repeat message carrying the count `n - 1`; the differing access is
then logged on its own line. -/
theorem checkreg_coalesces (st : CheckState) (a v : Nat) (w : Bool) (n a2 v2 : Nat) (w2 : Bool)
    (hnew : ¬ SameAccess st a v w) (hn1 : 1 ≤ n) (hn : n ≤ 2 ^ 32)
    (hnext : ¬ (a2 = a ∧ v2 = v ∧ w = w2)) :
    log_of_run st a v w n a2 v2 w2 =
      pending_lines st ++
        (LogLine.access a v w ::
          (if n = 1 then [] else if n = 2 then [LogLine.access a v w]
            else [LogLine.repeats (n - 1)])) ++
        [LogLine.access a2 v2 w2] ∧
      (LogLine.access a v w ::
          (if n = 1 then [] else if n = 2 then [LogLine.access a v w]
            else [LogLine.repeats (n - 1)])).length = min n 2 := by
  have hmod : (n - 1) % 2 ^ 32 = n - 1 := Nat.mod_eq_of_lt (by omega)
  have hp : pending_lines ⟨a, v, n - 1, w⟩ =
      (if n = 1 then [] else if n = 2 then [LogLine.access a v w]
        else [LogLine.repeats (n - 1)]) := by
    simp only [pending_lines]
    by_cases h1 : n = 1
    · subst h1; simp
    · by_cases h2 : n = 2
      · subst h2; simp
      · rw [if_pos (by omega), if_neg (by omega), if_neg h1, if_neg h2]
  constructor
  · rw [log_of_run_eq st a v w n a2 v2 w2 hnew hn1 hnext, hmod, hp]
    simp
  · by_cases h1 : n = 1
    · subst h1; simp
    · by_cases h2 : n = 2
      · subst h2; simp
      · rw [if_neg h1, if_neg h2]
        simp only [List.length_cons, List.length_nil]
        omega

/-- Witness for C25 (amended): five identical reads of a register from the initial state,
then a read of another register. -/
theorem checkreg_coalesces_witness :
    ¬ SameAccess CheckState.init 0xf0500014 0 false ∧ 1 ≤ 5 ∧ 5 ≤ 2 ^ 32 ∧
      log_of_run CheckState.init 0xf0500014 0 false 5 0xf0500010 0 false =
        [LogLine.access 0xf0500014 0 false, LogLine.repeats 4,
          LogLine.access 0xf0500010 0 false] := by
  have hnew : ¬ SameAccess CheckState.init 0xf0500014 0 false := by
    intro h
    have := h.1
    simp [CheckState.init] at this
  refine ⟨hnew, by norm_num, by norm_num, ?_⟩
  exact (checkreg_coalesces CheckState.init 0xf0500014 0 false 5 0xf0500010 0 false hnew
    (by norm_num) (by norm_num) (by norm_num)).1.trans (by decide)

/-! ## Claims about the little-endian accessors -/

/-- In the variant for little-endian hosts `sam_read16` returns the little-endian value of
the two bytes, and reads back what `sam_write16` wrote. -/
theorem sam_read16_little (m : ByteMem) (addr v : Nat) (hv : v < 2 ^ 16) :
    sam_read16 false m addr = m addr % 256 + 256 * (m (addr + 1) % 256) ∧
      sam_read16 false (sam_write16 false v addr m) addr = v := by
  constructor
  · rfl
  · simp only [sam_read16, sam_write16, load16, store16, Bool.false_eq_true, if_false, if_true]
    have hne : ¬ (addr + 1 = addr) := by omega
    simp only [hne, if_false]
    omega

/-- C28 (evaluation at the failing input): with the bytes 0x34, 0x12 at 0x100, whose
little-endian value is 0x1234, the `CONFIG_ENDIAN_BIG` variant of `sam_read16` on a
big-endian host returns 0x3612, because its low part is the 16-bit load `addr[0]` instead
of the byte `addr8[0]`; and it does not read back what `sam_write16(0x1234, addr)` stored.
The variant for little-endian hosts returns 0x1234. -/
theorem sam_read16_big_endian_wrong :
    two_bytes 0x100 + 256 * two_bytes 0x101 = 0x1234 ∧
      sam_read16 true two_bytes 0x100 = 0x3612 ∧
      sam_write16 true 0x1234 0x100 (fun _ => 0) 0x100 = 0x34 ∧
      sam_write16 true 0x1234 0x100 (fun _ => 0) 0x101 = 0x12 ∧
      sam_read16 true (sam_write16 true 0x1234 0x100 (fun _ => 0)) 0x100 = 0x3612 ∧
      sam_read16 false two_bytes 0x100 = 0x1234 := by
  decide

/-! ## Double release -/

theorem alloc_n_empty {hd : EhciState → Nat} {alloc : EhciState → Nat × EhciState}
    {free : Nat → EhciState → EhciState} {z : Nat} (P : IsPool hd alloc free z) :
    ∀ (k : Nat) (s : EhciState), hd s = 0 → (alloc_n alloc k s).1 = List.replicate k 0 := by
  intro k
  induction k with
  | zero => intro s _; rfl
  | succ k ih =>
    intro s h0
    simp only [alloc_n, P.alloc_null s h0, List.replicate_succ]
    rw [ih s h0]

/-- What two releases of the same node in succession do to a pool whose allocator clears
the link word of the node it returns. -/
theorem double_release_generic {hd : EhciState → Nat} {alloc : EhciState → Nat × EhciState}
    {free : Nat → EhciState → EhciState} {z : Nat} (P : IsPool hd alloc free z)
    (hz : LIST_FLINK < z) (s : EhciState) (n : Nat) (hn : n ≠ 0) :
    (free n (free n s)).mem (n + LIST_FLINK) = n ∧
      (alloc (free n (free n s))).1 = n ∧
      (alloc (alloc (free n (free n s))).2).1 = n ∧
      (alloc (alloc (alloc (free n (free n s))).2).2).1 = 0 ∧
      (∀ k, (alloc_n alloc (k + 2) (free n (free n s))).1 = n :: n :: List.replicate k 0) ∧
      (∀ l, IsFreeList s.mem (hd s) l → ∀ x ∈ l, x ≠ n →
        ∀ k, x ∉ (alloc_n alloc k (free n (free n s))).1) := by
  have hhd2 : hd (free n (free n s)) = n := P.free_hd _ _
  have hmem2 : (free n (free n s)).mem (n + LIST_FLINK) = n := by
    rw [P.free_mem, P.free_hd, write_same]
  have h0 : hd (free n (free n s)) ≠ 0 := by rw [hhd2]; exact hn
  have hr1 : (alloc (free n (free n s))).1 = n := (P.alloc_ret _ h0).trans hhd2
  have hh1 : hd (alloc (free n (free n s))).2 = n := by
    rw [P.alloc_hd _ h0, hhd2, hmem2]
  have hm1 : (alloc (free n (free n s))).2.mem (n + LIST_FLINK) = 0 := by
    rw [P.alloc_mem _ h0, hhd2]
    exact memset0_inside _ _ _ _ (by omega) (by omega)
  have h1 : hd (alloc (free n (free n s))).2 ≠ 0 := by rw [hh1]; exact hn
  have hr2 : (alloc (alloc (free n (free n s))).2).1 = n := (P.alloc_ret _ h1).trans hh1
  have hh2 : hd (alloc (alloc (free n (free n s))).2).2 = 0 := by
    rw [P.alloc_hd _ h1, hh1, hm1]
  have hr3 : (alloc (alloc (alloc (free n (free n s))).2).2).1 = 0 := by
    rw [P.alloc_null _ hh2]
  have hall : ∀ k, (alloc_n alloc (k + 2) (free n (free n s))).1 =
      n :: n :: List.replicate k 0 := by
    intro k
    simp only [alloc_n]
    rw [hr1, hr2, alloc_n_empty P k _ hh2]
  refine ⟨hmem2, hr1, hr2, hr3, hall, ?_⟩
  intro l hl x hx hxn k hmem
  have hx0 : x ≠ 0 := isFreeList_ne_zero _ l _ hl x hx
  have hsub : x = n ∨ x = 0 := by
    match k, hmem with
    | 0, hmem => simp [alloc_n] at hmem
    | 1, hmem =>
      simp only [alloc_n] at hmem
      rw [hr1] at hmem
      left
      simpa using hmem
    | k + 2, hmem =>
      rw [hall k] at hmem
      rcases List.mem_cons.mp hmem with h | h
      · exact Or.inl h
      · rcases List.mem_cons.mp h with h | h
        · exact Or.inl h
        · exact Or.inr (List.eq_of_mem_replicate h)
  rcases hsub with h | h
  · exact hxn h
  · exact hx0 h

/-- C29: releasing the same (non-NULL) node `n` twice in succession, with no allocation in
between, makes the forward link of `n` point to `n` itself; the next two allocations both
return `n`, the third and every later one returns NULL, and no other node of the free list
`l` that the pool had before (of any length) is returned by any later allocation.  This
holds for the qTD pool and for the QH pool. -/
theorem double_release (s : EhciState) (n : Nat) (hn : n ≠ 0) :
    ((sam_qtd_free n (sam_qtd_free n s)).mem (n + LIST_FLINK) = n ∧
      (sam_qtd_alloc (sam_qtd_free n (sam_qtd_free n s))).1 = n ∧
      (sam_qtd_alloc (sam_qtd_alloc (sam_qtd_free n (sam_qtd_free n s))).2).1 = n ∧
      (sam_qtd_alloc
        (sam_qtd_alloc (sam_qtd_alloc (sam_qtd_free n (sam_qtd_free n s))).2).2).1 = 0 ∧
      (∀ k, (alloc_n sam_qtd_alloc (k + 2) (sam_qtd_free n (sam_qtd_free n s))).1 =
        n :: n :: List.replicate k 0) ∧
      (∀ l, IsFreeList s.mem s.qtdfree l → ∀ x ∈ l, x ≠ n →
        ∀ k, x ∉ (alloc_n sam_qtd_alloc k (sam_qtd_free n (sam_qtd_free n s))).1)) ∧
    ((sam_qh_free n (sam_qh_free n s)).mem (n + LIST_FLINK) = n ∧
      (sam_qh_alloc (sam_qh_free n (sam_qh_free n s))).1 = n ∧
      (sam_qh_alloc (sam_qh_alloc (sam_qh_free n (sam_qh_free n s))).2).1 = n ∧
      (sam_qh_alloc
        (sam_qh_alloc (sam_qh_alloc (sam_qh_free n (sam_qh_free n s))).2).2).1 = 0 ∧
      (∀ k, (alloc_n sam_qh_alloc (k + 2) (sam_qh_free n (sam_qh_free n s))).1 =
        n :: n :: List.replicate k 0) ∧
      (∀ l, IsFreeList s.mem s.qhfree l → ∀ x ∈ l, x ≠ n →
        ∀ k, x ∉ (alloc_n sam_qh_alloc k (sam_qh_free n (sam_qh_free n s))).1)) :=
  ⟨double_release_generic qtd_isPool (by decide) s n hn,
    double_release_generic qh_isPool (by decide) s n hn⟩

/-- Witness for C29: a seeded pool of three qTDs at 0x1000, from which one node is
allocated and then released twice; the next five allocations return that node, that node
again, and NULL three times. -/
theorem double_release_witness :
    (0x1040 : Nat) ≠ 0 ∧
      (alloc_n sam_qtd_alloc 5
        (sam_qtd_free 0x1040 (sam_qtd_free 0x1040
          (sam_qtd_alloc (seed_qtd 0x1000 3 ⟨fun _ => 7, 0, 0⟩)).2))).1 =
        [0x1040, 0x1040, 0, 0, 0] :=
  ⟨by decide,
    ((double_release (sam_qtd_alloc (seed_qtd 0x1000 3 ⟨fun _ => 7, 0, 0⟩)).2 0x1040
      (by decide)).1.2.2.2.2.1 3).trans (by decide)⟩

/-! ## The timeout counter of `sam_reset` -/

/-- C30: in `sam_reset` the timeout counter is not restarted between the two waits.  If the
halt wait makes `t1` polls of USBSTS, `1 <= t1 <= 1000` (the first `t1 - 1` polls show the
controller running and poll `t1` shows it halted), and every read of USBCMD after the write
of HCRESET shows HCRESET set, then `sam_reset` returns `-ETIMEDOUT` after exactly
`ceil((1000000 - t1) / 5)` polls of USBCMD, each after a delay of 5 microseconds: the
reset wait ends at the first poll at which `t1` plus five times the number of polls has
reached 1000000. -/
theorem sam_reset_counter_not_restarted (hw : Hw) (fuel : Nat) (hfuel : 200000 ≤ fuel)
    (t1 : Nat) (ht1 : 1 ≤ t1) (ht1000 : t1 ≤ 1000)
    (hbefore : ∀ j, j + 1 < t1 → hw.read Reg.usbsts j &&& EHCI_USBSTS_HALTED = 0)
    (hhalt : hw.read Reg.usbsts (t1 - 1) &&& EHCI_USBSTS_HALTED ≠ 0)
    (hcmd : ∀ j, hw.read Reg.usbcmd (1 + j) &&& EHCI_USBCMD_HCRESET ≠ 0) :
    ∃ r : Int × RegAccess, sam_reset hw fuel RegAccess.init = some r ∧
      r.1 = -ETIMEDOUT ∧
      r.2.reads Reg.usbsts = t1 ∧
      r.2.reads Reg.usbcmd - 1 = (1000000 - t1 + 4) / 5 ∧
      delays_of r.2.trace =
        List.replicate t1 1 ++ List.replicate ((1000000 - t1 + 4) / 5) 5 ∧
      1000000 ≤ t1 + 5 * ((1000000 - t1 + 4) / 5) ∧
      t1 + 5 * ((1000000 - t1 + 4) / 5 - 1) < 1000000 := by
  obtain ⟨p1, hp1, hnot, hcase⟩ := sam_reset_spec hw fuel hfuel RegAccess.init
  have hr : ∀ x : Reg, RegAccess.init.reads x = 0 := fun _ => rfl
  simp only [hr, Nat.zero_add] at hnot hcase
  have hp1eq : p1 + 1 = t1 := by
    rcases Nat.lt_trichotomy (p1 + 1) t1 with h | h | h
    · have hb := hbefore p1 h
      rcases hcase with ⟨_, h999, _⟩ | ⟨hh, _⟩
      · omega
      · exact absurd hb hh
    · exact h
    · exact absurd (hnot (t1 - 1) (by omega)) hhalt
  have hp1sub : t1 - 1 = p1 := by omega
  rw [hp1sub] at hhalt
  rcases hcase with ⟨hh, _, _⟩ | ⟨_, p2, hp2, hcont, hstop, hrun⟩
  · exact absurd hh hhalt
  · have hset := hcmd p2
    have hend : 1000000 ≤ p1 + 1 + 5 * (p2 + 1) := by
      rcases hstop with h | h
      · exact absurd h hset
      · exact h
    have hprev : p2 = 0 ∨ p1 + 1 + 5 * p2 < 1000000 := by
      rcases Nat.eq_zero_or_pos p2 with h | h
      · exact Or.inl h
      · right
        have := (hcont (p2 - 1) (by omega)).2
        have e : p2 - 1 + 1 = p2 := by omega
        rw [e] at this
        exact this
    have hpolls : (1000000 - t1 + 4) / 5 = p2 + 1 := by omega
    rw [if_pos hset] at hrun
    refine ⟨_, hrun, rfl, ?_, ?_, ?_, ?_, ?_⟩
    · simp only []; rw [reset_io3_reads_sts]; exact hp1eq
    · simp only []; rw [reset_io3_reads_cmd, hpolls]; omega
    · simp only []
      rw [reset_io3_trace, delays_of_append, delays_of_append, delays_of_append,
        delays_of_poll_events, delays_of_poll_events, hpolls, hp1eq]
      simp [delays_of]
    · omega
    · omega

/-- Witness for C30: a controller that shows HALTED at the seventh poll of USBSTS and never
clears HCRESET; the reset wait makes 199999 polls of USBCMD, not 200000. -/
theorem sam_reset_counter_not_restarted_witness :
    200000 ≤ 200000 ∧ 1 ≤ 7 ∧ 7 ≤ 1000 ∧
      ∃ r : Int × RegAccess,
        sam_reset ⟨fun _ => 2, fun j => if j < 6 then 0 else 4096⟩ 200000 RegAccess.init
            = some r ∧
          r.1 = -ETIMEDOUT ∧ r.2.reads Reg.usbsts = 7 ∧ r.2.reads Reg.usbcmd - 1 = 199999 := by
  obtain ⟨r, h1, h2, h3, h4, _⟩ :=
    sam_reset_counter_not_restarted ⟨fun _ => 2, fun j => if j < 6 then 0 else 4096⟩ 200000
      (le_refl _) 7 (by decide) (by decide)
      (fun j hj => by
        have hj6 : j < 6 := by omega
        simp [Hw.read, hj6])
      (by decide) (fun _ => by simp [Hw.read, EHCI_USBCMD_HCRESET])
  exact ⟨le_refl _, by decide, by decide, r, h1, h2, h3, h4⟩

end SamEhci

namespace SamSpi

/-! ## Claims about the SPI driver -/

/-- C26: for every chip-select number `cs` in 0..3, `spi_cs2pcs` returns `2^cs - 1`, that
is 0b0000, 0b0001, 0b0011, 0b0111 for `cs` = 0, 1, 2, 3: the value fits the 4-bit PCS
field, its bit `cs` is 0 and every bit below `cs` is 1, so the lowest zero bit of the
field is at position `cs`. -/
theorem spi_cs2pcs_value (cs : Nat) (h : cs ≤ 3) :
    spi_cs2pcs cs = 2 ^ cs - 1 ∧
      spi_cs2pcs cs < 16 ∧
      (spi_cs2pcs cs).testBit cs = false ∧
      (∀ i, i < cs → (spi_cs2pcs cs).testBit i = true) ∧
      spi_cs2pcs 0 = 0 ∧ spi_cs2pcs 1 = 1 ∧ spi_cs2pcs 2 = 3 ∧ spi_cs2pcs 3 = 7 := by
  interval_cases cs <;> decide

/-- Witness for C26: chip select 2 gives the PCS field 0b0011. -/
theorem spi_cs2pcs_value_witness :
    2 ≤ 3 ∧ spi_cs2pcs 2 = 3 ∧ (spi_cs2pcs 2).testBit 2 = false :=
  ⟨by decide, (spi_cs2pcs_value 2 (by decide)).2.2.2.2.2.2.1,
    (spi_cs2pcs_value 2 (by decide)).2.2.1⟩

/-- C27 (evaluation at the failing input): with `SAM_SPI_CLOCK` = 48 MHz, no cached
frequency and a requested frequency of 4.37 MHz, `spi_setfrequency` programs the divider
10 and returns 4.8 MHz, which is 430 kHz away from the request, although the even divider
12, within 8..254, gives 4 MHz, which is only 370 kHz away. -/
theorem spi_setfrequency_not_closest :
    (⟨0, 0, 0⟩ : sam_spidev_s).frequency ≠ 4370000 ∧
      (spi_setfrequency 48000000 ⟨0, 0, 0⟩ 0 4370000).scbr = some 10 ∧
      (spi_setfrequency 48000000 ⟨0, 0, 0⟩ 0 4370000).actual = 4800000 ∧
      (spi_setfrequency 48000000 ⟨0, 0, 0⟩ 0 4370000).csr / 2 ^ 8 % 2 ^ 8 = 10 ∧
      freq_dist (spi_setfrequency 48000000 ⟨0, 0, 0⟩ 0 4370000).actual 4370000 = 430000 ∧
      12 % 2 = 0 ∧ 8 ≤ 12 ∧ 12 ≤ 254 ∧
      freq_dist (48000000 / 12) 4370000 = 370000 := by
  decide

end SamSpi
